import Mathlib

/-!
# ecppll: ECP5 PLL configuration calculator

A shallow embedding of `libtrellis/tools/ecppll.cpp` and a verification of its
divider search and its secondary-output phase computation.

The source computes in `float` and `double`.  The file holds two embeddings of
it, both over the rationals `ℚ`.

* `Ecppll.Binary32` is the program as it runs: every `float` operation is
  followed by a rounding to binary32 (`to_float`), every operation on a `double`
  by a rounding to binary64 (`to_double`), nearest value, ties to even.  The
  statements on the selection made by `calc_pll_params` and
  `calc_pll_params_highres` and on the phase stored by
  `generate_secondary_output` are proved on this embedding.  In
  `generate_secondary_output` each operation is checked: the result is `none`
  when the source divides by zero, leaves the normal range of the format, or
  leaves the range of a 32-bit `int`.
* `Ecppll` proper leaves the roundings out: what is proved on it is proved of
  the program in exact arithmetic.  It carries the statements on exhausted
  searches, on the members `generate_secondary_output` leaves alone, the
  scenario 200 to 400 and the request of a negative phase; it also states what
  exact arithmetic gives where the program departs from it.

Modelling conventions.

* A `float` argument is a rational; a statement made for all rationals holds
  for every finite `float`.  Infinities and NaNs are not modelled.
* `std::numeric_limits<float>::max()` is the exact binary32 value
  `2^128 - 2^104`.
* C `int` values are modelled by `ℤ`; the conversion of a floating value to
  `int` truncates toward zero (`float_to_int`).  No wrap-around is modelled:
  an out-of-range conversion is undefined behaviour in the source, and is `none`
  in `Binary32.generate_secondary_output`.
* The `for` loops are left folds over `List.range'`; a `continue` returns the
  loop state unchanged.  The loop state of the two searches is the pair of the
  local variable `error` and the record `params` that is passed by reference.
* `secondary[3]` is a function on `Fin 3`, the write `secondary[channel] = ..`
  is `Function.update`.
* Division is the division of `ℚ`, where `x / 0 = 0`; the source yields an
  infinity or a NaN there.  The searches never divide by zero (the divisors are
  loop counters starting at 1); `Binary32.generate_secondary_output` checks
  every divisor.
* The `cout` trace lines are not modelled.
* Besides the source functions the file defines predicates that speak about a
  run: `calc_pll_params_selects` and `calc_pll_params_highres_selects` say that
  the assignment block of the search is executed at some visit.
-/

namespace Ecppll

/-! ## Constants -/

def INPUT_MIN : ℚ := 8
def INPUT_MAX : ℚ := 400
def OUTPUT_MIN : ℚ := 10
def OUTPUT_MAX : ℚ := 400
def PFD_MIN : ℚ := 3125 / 1000
def PFD_MAX : ℚ := 400
def VCO_MIN : ℚ := 400
def VCO_MAX : ℚ := 800

/-- The value of `std::numeric_limits<float>::max()`, that is `2^128 - 2^104`. -/
def FLT_MAX : ℚ := 340282346638528859811704183484516925440

/-! ## Data model -/

inductive pll_mode where
  | SIMPLE
  | HIGHRES
deriving DecidableEq, Repr

structure secondary_params where
  enabled : Bool
  div : ℤ
  cphase : ℤ
  fphase : ℤ
  name : String
  freq : ℚ
  phase : ℚ
deriving DecidableEq

structure pll_params where
  mode : pll_mode
  refclk_div : ℤ
  feedback_div : ℤ
  output_div : ℤ
  primary_cphase : ℤ
  clkin_name : String
  clkout0_name : String
  clkin_frequency : ℚ
  secondary : Fin 3 → secondary_params
  fout : ℚ
  fvco : ℚ

/-- The record built by the constructor `pll_params()`: mode `SIMPLE`, the three
secondary channels disabled, `primary_cphase = 9`.  The members the constructor
leaves unset are given the value zero (the empty string for names). -/
def pll_params_init : pll_params where
  mode := pll_mode.SIMPLE
  refclk_div := 0
  feedback_div := 0
  output_div := 0
  primary_cphase := 9
  clkin_name := ""
  clkout0_name := ""
  clkin_frequency := 0
  secondary := fun _ =>
    { enabled := false, div := 0, cphase := 0, fphase := 0, name := "", freq := 0, phase := 0 }
  fout := 0
  fvco := 0

/-- State of the search loops: the local `error` and the record `params`. -/
structure search_state where
  error : ℚ
  params : pll_params

/-- Conversion of a floating value to `int`: truncation toward zero. -/
def float_to_int (x : ℚ) : ℤ := if 0 ≤ x then ⌊x⌋ else ⌈x⌉

/-! ## `calc_pll_params` -/

/-- Body of the innermost loop (over `output_div`) of `calc_pll_params`. -/
def calc_pll_params_body (fpfd output : ℚ) (input_div feedback_div : ℕ)
    (s : search_state) (output_div : ℕ) : search_state :=
  let fvco : ℚ := fpfd * (feedback_div : ℚ) * (output_div : ℚ)
  if fvco < VCO_MIN ∨ fvco > VCO_MAX then s
  else
    let fout : ℚ := fvco / (output_div : ℚ)
    if |fout - output| < s.error ∨
        (|fout - output| = s.error ∧ |fvco - 600| < |s.params.fvco - 600|) then
      let ns_phase : ℚ := 1 / (fout * 1000000) * (1 / 2)
      { error := |fout - output|
        params :=
          { s.params with
            refclk_div := (input_div : ℤ)
            feedback_div := (feedback_div : ℤ)
            output_div := (output_div : ℤ)
            fout := fout
            fvco := fvco
            primary_cphase := float_to_int (ns_phase * (fvco * 1000000)) } }
    else s

/-- The three nested loops of `calc_pll_params`, returning the final loop state. -/
def calc_pll_params_loop (params : pll_params) (input output : ℚ) : search_state :=
  (List.range' 1 128).foldl
    (fun (s : search_state) (input_div : ℕ) =>
      let fpfd : ℚ := input / (input_div : ℚ)
      if fpfd < PFD_MIN ∨ fpfd > PFD_MAX then s
      else
        (List.range' 1 80).foldl
          (fun (s : search_state) (feedback_div : ℕ) =>
            (List.range' 1 128).foldl
              (fun (s : search_state) (output_div : ℕ) =>
                calc_pll_params_body fpfd output input_div feedback_div s output_div)
              s)
          s)
    { error := FLT_MAX, params := params }

/-- The function `calc_pll_params`: the record after the search. -/
def calc_pll_params (params : pll_params) (input output : ℚ) : pll_params :=
  (calc_pll_params_loop params input output).params

/-! ## `generate_secondary_output` -/

/-- The function `generate_secondary_output`. -/
def generate_secondary_output (params : pll_params) (channel : Fin 3) (name : String)
    (frequency phase : ℚ) : pll_params :=
  let div : ℤ := float_to_int (params.fvco / frequency)
  let freq : ℚ := params.fvco / (div : ℚ)
  let ns_shift : ℚ := 1 / (freq * 1000000) * phase / 360
  let phase_count : ℚ := ns_shift * (params.fvco * 1000000)
  let cphase : ℤ := float_to_int phase_count
  let fphase : ℤ := float_to_int ((phase_count - (cphase : ℚ)) * 8)
  let ns_actual : ℚ := 1 / (params.fvco * 1000000) * ((cphase : ℚ) + (fphase : ℚ) / 8)
  let phase_shift : ℚ := 360 * ns_actual / (1 / (freq * 1000000))
  { params with
    secondary := Function.update params.secondary channel
      { enabled := true
        div := div
        freq := freq
        phase := phase_shift
        cphase := cphase + params.primary_cphase
        fphase := fphase
        name := name } }

/-! ## The update rule of the two searches, over an arbitrary visiting order

Both searches visit a finite sequence of candidates and overwrite the current
best whenever the candidate's output error is smaller, or equal with a VCO
frequency closer to 600.  The lemmas of this section are about that rule; they
are instantiated below with the loop nests of the two functions. -/

/-- The replacement test of the source: `e` and `v` are the candidate's
`fabsf(fout - output)` and `fabsf(fvco - 600)`. -/
def improves (e v : ℚ) (s : search_state) : Prop :=
  e < s.error ∨ (e = s.error ∧ v < |s.params.fvco - 600|)

instance (e v : ℚ) (s : search_state) : Decidable (improves e v s) := by
  unfold improves; infer_instance

/-- The replacement test with the distance of the stored VCO frequency to 600
computed by `dist` (exactly, or with the rounding of the source). -/
def improves_on (dist : pll_params → ℚ) (e v : ℚ) (s : search_state) : Prop :=
  e < s.error ∨ (e = s.error ∧ v < dist s.params)

instance (dist : pll_params → ℚ) (e v : ℚ) (s : search_state) :
    Decidable (improves_on dist e v s) := by
  unfold improves_on; infer_instance

/-- Strict lexicographic comparison of (error, distance of the VCO to 600). -/
def key_lt (e v e' v' : ℚ) : Prop := e < e' ∨ (e = e' ∧ v < v')

section Rule

variable {α : Type} (dist : pll_params → ℚ) (good : α → Prop) [DecidablePred good]
  (err vd : α → ℚ) (upd : pll_params → α → pll_params)

/-- One visit: candidates failing the range checks are skipped, the others
replace the current best when the replacement test holds. -/
def rule_step (s : search_state) (a : α) : search_state :=
  if good a ∧ improves_on dist (err a) (vd a) s then
    { error := err a, params := upd s.params a }
  else s

/-- The candidate `a` is the first strict minimum of `L`: it passes the checks,
everything visited before it is strictly worse and nothing visited after it is
strictly better. -/
def first_min (L : List α) (a : α) : Prop :=
  ∃ pre post, L = pre ++ a :: post ∧ good a ∧
    (∀ b ∈ pre, good b → key_lt (err a) (vd a) (err b) (vd b)) ∧
    (∀ b ∈ post, good b → ¬ key_lt (err b) (vd b) (err a) (vd a))

end Rule

/-! ## The loop nest of `calc_pll_params` as one sequence of visits -/

/-- The divider triples `(input_div, feedback_div, output_div)` in the order in
which the three nested loops visit them. -/
def pll_triples : List (ℕ × ℕ × ℕ) :=
  (List.range' 1 128).flatMap fun r =>
    (List.range' 1 80).flatMap fun f =>
      (List.range' 1 128).map fun o => (r, f, o)

/-- The value `fpfd = input / (float)input_div` of the source. -/
def pfd_of (input : ℚ) (t : ℕ × ℕ × ℕ) : ℚ := input / (t.1 : ℚ)

/-- The value `fvco = fpfd * (float)feedback_div * (float)output_div` of the source. -/
def vco_of (input : ℚ) (t : ℕ × ℕ × ℕ) : ℚ := input / (t.1 : ℚ) * (t.2.1 : ℚ) * (t.2.2 : ℚ)

/-- The value `fout = fvco / (float)output_div` of the source. -/
def fout_of (input : ℚ) (t : ℕ × ℕ × ℕ) : ℚ := vco_of input t / (t.2.2 : ℚ)

/-- The triple gets past both `continue` statements of `calc_pll_params`. -/
def passes (input : ℚ) (t : ℕ × ℕ × ℕ) : Prop :=
  ¬ (pfd_of input t < PFD_MIN ∨ pfd_of input t > PFD_MAX) ∧
  ¬ (vco_of input t < VCO_MIN ∨ vco_of input t > VCO_MAX)

instance (input : ℚ) : DecidablePred (passes input) := fun t => by
  unfold passes; infer_instance

/-- The candidate's `fabsf(fout - output)`. -/
def err_of (input output : ℚ) (t : ℕ × ℕ × ℕ) : ℚ := |fout_of input t - output|

/-- The distance `fabsf(params.fvco - 600)` of the stored VCO frequency to 600. -/
def vco_dist (p : pll_params) : ℚ := |p.fvco - 600|

/-- The candidate's `fabsf(fvco - 600)`. -/
def vdist_of (input : ℚ) (t : ℕ × ℕ × ℕ) : ℚ := |vco_of input t - 600|

/-- The assignment block of `calc_pll_params` for the triple `t`. -/
def calc_pll_params_assign (input : ℚ) (p : pll_params) (t : ℕ × ℕ × ℕ) : pll_params :=
  { p with
    refclk_div := (t.1 : ℤ)
    feedback_div := (t.2.1 : ℤ)
    output_div := (t.2.2 : ℤ)
    fout := fout_of input t
    fvco := vco_of input t
    primary_cphase :=
      float_to_int (1 / (fout_of input t * 1000000) * (1 / 2) * (vco_of input t * 1000000)) }

/-- What the loop nest of `calc_pll_params` does when it reaches the triple `t`
in the state `s`. -/
def calc_pll_params_visit (input output : ℚ) (s : search_state) (t : ℕ × ℕ × ℕ) :
    search_state :=
  if input / (t.1 : ℚ) < PFD_MIN ∨ input / (t.1 : ℚ) > PFD_MAX then s
  else calc_pll_params_body (input / (t.1 : ℚ)) output t.1 t.2.1 s t.2.2

/-- The assignment block of `calc_pll_params` is executed when the triple `t` is
reached in the state `s`. -/
def calc_pll_params_updates (input output : ℚ) (s : search_state) (t : ℕ × ℕ × ℕ) : Prop :=
  passes input t ∧ improves (err_of input output t) (vdist_of input t) s

/-- The search selects a triple: at some visit of the run started on `params`
the assignment block is executed. -/
def calc_pll_params_selects (params : pll_params) (input output : ℚ) : Prop :=
  ∃ pre t post, pll_triples = pre ++ t :: post ∧
    calc_pll_params_updates input output
      (pre.foldl (calc_pll_params_visit input output) { error := FLT_MAX, params := params }) t

/-- Loop order on triples: `a` is visited strictly before `b`. -/
def triple_lt (a b : ℕ × ℕ × ℕ) : Prop :=
  a.1 < b.1 ∨ (a.1 = b.1 ∧ (a.2.1 < b.2.1 ∨ (a.2.1 = b.2.1 ∧ a.2.2 < b.2.2)))

/-- The triple lies in the ranges of the three loops. -/
def in_range (t : ℕ × ℕ × ℕ) : Prop :=
  1 ≤ t.1 ∧ t.1 ≤ 128 ∧ 1 ≤ t.2.1 ∧ t.2.1 ≤ 80 ∧ 1 ≤ t.2.2 ∧ t.2.2 ≤ 128

/-- A starting record whose `fvco` member holds 600 (the members the constructor
leaves unset may hold any value before the search). -/
def pll_params_vco600 : pll_params := { pll_params_init with fvco := 600 }

/-- The two records hold the same values in the members that the assignment
block of `calc_pll_params` writes. -/
def same_selection (a b : pll_params) : Prop :=
  a.refclk_div = b.refclk_div ∧ a.feedback_div = b.feedback_div ∧
  a.output_div = b.output_div ∧ a.fvco = b.fvco ∧ a.fout = b.fout ∧
  a.primary_cphase = b.primary_cphase

/-- The local `div` of `generate_secondary_output`. -/
def secondary_div (fvco frequency : ℚ) : ℤ := float_to_int (fvco / frequency)

/-- The local `phase_count` of `generate_secondary_output`. -/
def secondary_phase_count (fvco frequency phase : ℚ) : ℚ :=
  1 / (fvco / (secondary_div fvco frequency : ℚ) * 1000000) * phase / 360 * (fvco * 1000000)

/-- The phase round trip of a channel record `s` written by
`generate_secondary_output` on `params`: `div = floor(fvco / frequency)`,
`freq = fvco / div`, the stored phase is the one computed back from the coarse
and fine counts, `360 * (cphase + fphase / 8) / div` (the coarse count being the
stored one less `primary_cphase`), and it differs from the requested phase by
less than one fine-phase step, `360 / (8 * div)`. -/
def phase_round_trip (params : pll_params) (frequency phase : ℚ) (s : secondary_params) :
    Prop :=
  s.div = ⌊params.fvco / frequency⌋ ∧
  s.freq = params.fvco / (s.div : ℚ) ∧
  s.phase = 360 * (((s.cphase - params.primary_cphase : ℤ) : ℚ) + (s.fphase : ℚ) / 8) /
    (s.div : ℚ) ∧
  |s.phase - phase| < 360 / (8 * (s.div : ℚ))

/-- Everything but the channel `channel` is the same in `p` and `q`. -/
def same_outside_channel (channel : Fin 3) (p q : pll_params) : Prop :=
  (∀ j : Fin 3, j ≠ channel → q.secondary j = p.secondary j) ∧
  q.mode = p.mode ∧ q.refclk_div = p.refclk_div ∧ q.feedback_div = p.feedback_div ∧
  q.output_div = p.output_div ∧ q.primary_cphase = p.primary_cphase ∧
  q.fvco = p.fvco ∧ q.fout = p.fout ∧
  q.clkin_name = p.clkin_name ∧ q.clkout0_name = p.clkout0_name ∧
  q.clkin_frequency = p.clkin_frequency

/-- The quadruples `(input_div, feedback_div, output_div, secondary_div)` in the
order in which the four nested loops of `calc_pll_params_highres` would visit
them. -/
def pll_quads : List (ℕ × ℕ × ℕ × ℕ) :=
  (List.range' 1 128).flatMap fun r =>
    (List.range' 1 80).flatMap fun f =>
      (List.range' 1 128).flatMap fun o =>
        (List.range' 1 128).map fun d => (r, f, o, d)

/-- The quadruple lies in the ranges of the four loops. -/
def quad_in_range (q : ℕ × ℕ × ℕ × ℕ) : Prop :=
  1 ≤ q.1 ∧ q.1 ≤ 128 ∧ 1 ≤ q.2.1 ∧ q.2.1 ≤ 80 ∧ 1 ≤ q.2.2.1 ∧ q.2.2.1 ≤ 128 ∧
  1 ≤ q.2.2.2 ∧ q.2.2.2 ≤ 128

/-- Loop order on quadruples: `a` is visited strictly before `b`. -/
def quad_lt (a b : ℕ × ℕ × ℕ × ℕ) : Prop :=
  a.1 < b.1 ∨ (a.1 = b.1 ∧ (a.2.1 < b.2.1 ∨ (a.2.1 = b.2.1 ∧
    (a.2.2.1 < b.2.2.1 ∨ (a.2.2.1 = b.2.2.1 ∧ a.2.2.2 < b.2.2.2)))))

/-! ## Binary32 and binary64 arithmetic

The source computes in `float` (and, where a `double` constant is involved, in
`double`).  `round_to p` rounds a rational to the nearest value with a `p`-bit
significand, ties to the even significand, with no bound on the exponent.  For
the two searches this is the IEEE 754 result on every finite binary32 input:
the only operation that can leave the normal range is `input / input_div`, and a
quotient below `2 ^ (-126)` fails the PFD check under either rounding; no
operation overflows. -/

/-- Rounding to the nearest integer, ties to even. -/
def round_even (y : ℚ) : ℤ :=
  if y - (⌊y⌋ : ℚ) < 1 / 2 then ⌊y⌋
  else if 1 / 2 < y - (⌊y⌋ : ℚ) then ⌊y⌋ + 1
  else if ⌊y⌋ % 2 = 0 then ⌊y⌋ else ⌊y⌋ + 1

/-- Rounding to the nearest value with a `p`-bit significand, ties to even. -/
def round_to (p : ℕ) (x : ℚ) : ℚ :=
  if x = 0 then 0
  else (round_even (x / 2 ^ (Int.log 2 |x| - ((p : ℤ) - 1))) : ℚ) *
    2 ^ (Int.log 2 |x| - ((p : ℤ) - 1))

/-- The result of a `float` operation whose exact result is `x`. -/
def to_float (x : ℚ) : ℚ := round_to 24 x

/-- The result of a `double` operation whose exact result is `x`. -/
def to_double (x : ℚ) : ℚ := round_to 53 x

namespace Binary32

/-! ## `calc_pll_params` in binary32 -/

/-- Body of the innermost loop (over `output_div`) of `calc_pll_params`, every
`float` operation rounded; `ns_phase` and `primary_cphase` are computed in
`double` as in the source, `ns_phase` being narrowed to `float`.  The value
converted to `int` is about `output_div / 2`, inside the range of `int`. -/
def calc_pll_params_body (fpfd output : ℚ) (input_div feedback_div : ℕ)
    (s : search_state) (output_div : ℕ) : search_state :=
  let fvco : ℚ := to_float (to_float (fpfd * (feedback_div : ℚ)) * (output_div : ℚ))
  if fvco < VCO_MIN ∨ fvco > VCO_MAX then s
  else
    let fout : ℚ := to_float (fvco / (output_div : ℚ))
    if |to_float (fout - output)| < s.error ∨
        (|to_float (fout - output)| = s.error ∧
          |to_float (fvco - 600)| < |to_float (s.params.fvco - 600)|) then
      let ns_phase : ℚ :=
        to_float (to_double (to_double (1 / to_double (fout * 1000000)) * (1 / 2)))
      { error := |to_float (fout - output)|
        params :=
          { s.params with
            refclk_div := (input_div : ℤ)
            feedback_div := (feedback_div : ℤ)
            output_div := (output_div : ℤ)
            fout := fout
            fvco := fvco
            primary_cphase :=
              float_to_int (to_double (ns_phase * to_double (fvco * 1000000))) } }
    else s

/-- The three nested loops of `calc_pll_params`, returning the final loop state. -/
def calc_pll_params_loop (params : pll_params) (input output : ℚ) : search_state :=
  (List.range' 1 128).foldl
    (fun (s : search_state) (input_div : ℕ) =>
      let fpfd : ℚ := to_float (input / (input_div : ℚ))
      if fpfd < PFD_MIN ∨ fpfd > PFD_MAX then s
      else
        (List.range' 1 80).foldl
          (fun (s : search_state) (feedback_div : ℕ) =>
            (List.range' 1 128).foldl
              (fun (s : search_state) (output_div : ℕ) =>
                calc_pll_params_body fpfd output input_div feedback_div s output_div)
              s)
          s)
    { error := FLT_MAX, params := params }

/-- The function `calc_pll_params` in binary32: the record after the search. -/
def calc_pll_params (params : pll_params) (input output : ℚ) : pll_params :=
  (calc_pll_params_loop params input output).params

/-- The value `fpfd` the source computes for the triple `t`. -/
def pfd_of (input : ℚ) (t : ℕ × ℕ × ℕ) : ℚ := to_float (input / (t.1 : ℚ))

/-- The value `fvco` the source computes for the triple `t`. -/
def vco_of (input : ℚ) (t : ℕ × ℕ × ℕ) : ℚ :=
  to_float (to_float (to_float (input / (t.1 : ℚ)) * (t.2.1 : ℚ)) * (t.2.2 : ℚ))

/-- The value `fout` the source computes for the triple `t`. -/
def fout_of (input : ℚ) (t : ℕ × ℕ × ℕ) : ℚ := to_float (vco_of input t / (t.2.2 : ℚ))

/-- The triple gets past both `continue` statements of `calc_pll_params`. -/
def passes (input : ℚ) (t : ℕ × ℕ × ℕ) : Prop :=
  ¬ (pfd_of input t < PFD_MIN ∨ pfd_of input t > PFD_MAX) ∧
  ¬ (vco_of input t < VCO_MIN ∨ vco_of input t > VCO_MAX)

instance (input : ℚ) : DecidablePred (passes input) := fun t => by
  unfold passes; infer_instance

/-- The candidate's `fabsf(fout - output)` as the source computes it. -/
def err_of (input output : ℚ) (t : ℕ × ℕ × ℕ) : ℚ := |to_float (fout_of input t - output)|

/-- The candidate's `fabsf(fvco - 600)` as the source computes it. -/
def vdist_of (input : ℚ) (t : ℕ × ℕ × ℕ) : ℚ := |to_float (vco_of input t - 600)|

/-- The value `fabsf(params.fvco - 600)` as the source computes it. -/
def vco_dist (p : pll_params) : ℚ := |to_float (p.fvco - 600)|

/-- The replacement test of the source in binary32. -/
def improves (e v : ℚ) (s : search_state) : Prop :=
  e < s.error ∨ (e = s.error ∧ v < |to_float (s.params.fvco - 600)|)

/-- The assignment block of `calc_pll_params` for the triple `t`. -/
def calc_pll_params_assign (input : ℚ) (p : pll_params) (t : ℕ × ℕ × ℕ) : pll_params :=
  { p with
    refclk_div := (t.1 : ℤ)
    feedback_div := (t.2.1 : ℤ)
    output_div := (t.2.2 : ℤ)
    fout := fout_of input t
    fvco := vco_of input t
    primary_cphase :=
      float_to_int (to_double
        (to_float (to_double (to_double (1 / to_double (fout_of input t * 1000000)) * (1 / 2))) *
          to_double (vco_of input t * 1000000))) }

/-- What the loop nest of `calc_pll_params` does when it reaches the triple `t`
in the state `s`. -/
def calc_pll_params_visit (input output : ℚ) (s : search_state) (t : ℕ × ℕ × ℕ) :
    search_state :=
  if to_float (input / (t.1 : ℚ)) < PFD_MIN ∨ to_float (input / (t.1 : ℚ)) > PFD_MAX then s
  else calc_pll_params_body (to_float (input / (t.1 : ℚ))) output t.1 t.2.1 s t.2.2

/-- The assignment block of `calc_pll_params` is executed when the triple `t` is
reached in the state `s`. -/
def calc_pll_params_updates (input output : ℚ) (s : search_state) (t : ℕ × ℕ × ℕ) : Prop :=
  passes input t ∧ improves (err_of input output t) (vdist_of input t) s

/-- The search selects a triple: at some visit of the run started on `params`
the assignment block is executed. -/
def calc_pll_params_selects (params : pll_params) (input output : ℚ) : Prop :=
  ∃ pre t post, pll_triples = pre ++ t :: post ∧
    calc_pll_params_updates input output
      (pre.foldl (calc_pll_params_visit input output) { error := FLT_MAX, params := params }) t

/-- The bounds on a selected record as the source evaluates them, for the input
frequency `input`: dividers in their loop ranges, the computed PFD frequency
`fpfd = fl(input / refclk_div)` in `[3.125, 400]`, the stored VCO frequency
`fvco = fl(fl(fpfd * feedback_div) * output_div)` in `[400, 800]` and
`fout = fl(fvco / output_div)`, where `fl` rounds to binary32. -/
def within_bounds (input : ℚ) (p : pll_params) : Prop :=
  1 ≤ p.refclk_div ∧ p.refclk_div ≤ 128 ∧
  1 ≤ p.feedback_div ∧ p.feedback_div ≤ 80 ∧
  1 ≤ p.output_div ∧ p.output_div ≤ 128 ∧
  (3125 : ℚ) / 1000 ≤ to_float (input / (p.refclk_div : ℚ)) ∧
  to_float (input / (p.refclk_div : ℚ)) ≤ 400 ∧
  400 ≤ p.fvco ∧ p.fvco ≤ 800 ∧
  p.fvco = to_float (to_float (to_float (input / (p.refclk_div : ℚ)) * (p.feedback_div : ℚ)) *
    (p.output_div : ℚ)) ∧
  p.fout = to_float (p.fvco / (p.output_div : ℚ))

/-- The bounds of a selected record in exact terms: dividers in their loop
ranges, `3.125 ≤ input / refclk_div ≤ 400` and `400 ≤ fvco ≤ 800` with
`fvco = (input / refclk_div) * feedback_div * output_div` the exact product. -/
def exact_within_bounds (input : ℚ) (p : pll_params) : Prop :=
  1 ≤ p.refclk_div ∧ p.refclk_div ≤ 128 ∧
  1 ≤ p.feedback_div ∧ p.feedback_div ≤ 80 ∧
  1 ≤ p.output_div ∧ p.output_div ≤ 128 ∧
  (3125 : ℚ) / 1000 ≤ input / (p.refclk_div : ℚ) ∧ input / (p.refclk_div : ℚ) ≤ 400 ∧
  400 ≤ input / (p.refclk_div : ℚ) * (p.feedback_div : ℚ) * (p.output_div : ℚ) ∧
  input / (p.refclk_div : ℚ) * (p.feedback_div : ℚ) * (p.output_div : ℚ) ≤ 800

/-- The binary32 value `8738133 * 2 ^ (-18)`, about 33.3333321. -/
def input_33_333332 : ℚ := 8738133 / 262144

/-- Body of the innermost loop (over `secondary_div`) of `calc_pll_params_highres`,
every `float` operation rounded. -/
def calc_pll_params_highres_body (fvco output : ℚ) (input_div feedback_div output_div : ℕ)
    (s : search_state) (secondary_div : ℕ) : search_state :=
  let fout : ℚ := to_float (fvco / (secondary_div : ℚ))
  if |to_float (fout - output)| < s.error ∨
      (|to_float (fout - output)| = s.error ∧
        |to_float (fvco - 600)| < |to_float (s.params.fvco - 600)|) then
    { error := |to_float (fout - output)|
      params :=
        { s.params with
          mode := pll_mode.HIGHRES
          refclk_div := (input_div : ℤ)
          feedback_div := (feedback_div : ℤ)
          output_div := (output_div : ℤ)
          secondary := Function.update s.params.secondary 0
            { s.params.secondary 0 with
              div := (secondary_div : ℤ)
              enabled := true
              freq := fout }
          fout := fout
          fvco := fvco } }
  else s

/-- The four nested loops of `calc_pll_params_highres`, returning the final loop
state. -/
def calc_pll_params_highres_loop (params : pll_params) (input output : ℚ) : search_state :=
  (List.range' 1 128).foldl
    (fun (s : search_state) (input_div : ℕ) =>
      let fpfd : ℚ := to_float (input / (input_div : ℚ))
      if fpfd < PFD_MIN ∨ fpfd > PFD_MAX then s
      else
        (List.range' 1 80).foldl
          (fun (s : search_state) (feedback_div : ℕ) =>
            (List.range' 1 128).foldl
              (fun (s : search_state) (output_div : ℕ) =>
                let fvco : ℚ :=
                  to_float (to_float (fpfd * (feedback_div : ℚ)) * (output_div : ℚ))
                if fvco < VCO_MIN ∨ fvco > VCO_MAX then s
                else
                  let ffeedback : ℚ := to_float (fvco / (output_div : ℚ))
                  if ffeedback < OUTPUT_MIN ∨ ffeedback > OUTPUT_MAX then s
                  else
                    (List.range' 1 128).foldl
                      (fun (s : search_state) (secondary_div : ℕ) =>
                        calc_pll_params_highres_body fvco output input_div feedback_div
                          output_div s secondary_div)
                      s)
              s)
          s)
    { error := FLT_MAX, params := params }

/-- The function `calc_pll_params_highres` in binary32: the record after the
search. -/
def calc_pll_params_highres (params : pll_params) (input output : ℚ) : pll_params :=
  (calc_pll_params_highres_loop params input output).params

/-- The value `fvco` the source computes for the quadruple `q`. -/
def highres_vco (input : ℚ) (q : ℕ × ℕ × ℕ × ℕ) : ℚ :=
  to_float (to_float (to_float (input / (q.1 : ℚ)) * (q.2.1 : ℚ)) * (q.2.2.1 : ℚ))

/-- The quadruple gets past the three `continue` statements of
`calc_pll_params_highres`. -/
def highres_passes (input : ℚ) (q : ℕ × ℕ × ℕ × ℕ) : Prop :=
  ¬ (to_float (input / (q.1 : ℚ)) < PFD_MIN ∨ to_float (input / (q.1 : ℚ)) > PFD_MAX) ∧
  ¬ (highres_vco input q < VCO_MIN ∨ highres_vco input q > VCO_MAX) ∧
  ¬ (to_float (highres_vco input q / (q.2.2.1 : ℚ)) < OUTPUT_MIN ∨
      to_float (highres_vco input q / (q.2.2.1 : ℚ)) > OUTPUT_MAX)

instance (input : ℚ) : DecidablePred (highres_passes input) := fun q => by
  unfold highres_passes; infer_instance

/-- The candidate's `fabsf(fout - output)` in the highres search, as computed. -/
def highres_err (input output : ℚ) (q : ℕ × ℕ × ℕ × ℕ) : ℚ :=
  |to_float (to_float (highres_vco input q / (q.2.2.2 : ℚ)) - output)|

/-- The candidate's `fabsf(fvco - 600)` in the highres search, as computed. -/
def highres_vdist (input : ℚ) (q : ℕ × ℕ × ℕ × ℕ) : ℚ :=
  |to_float (highres_vco input q - 600)|

/-- The assignment block of `calc_pll_params_highres` for the quadruple `q`. -/
def calc_pll_params_highres_assign (input : ℚ) (p : pll_params) (q : ℕ × ℕ × ℕ × ℕ) :
    pll_params :=
  { p with
    mode := pll_mode.HIGHRES
    refclk_div := (q.1 : ℤ)
    feedback_div := (q.2.1 : ℤ)
    output_div := (q.2.2.1 : ℤ)
    secondary := Function.update p.secondary 0
      { p.secondary 0 with
        div := (q.2.2.2 : ℤ)
        enabled := true
        freq := to_float (highres_vco input q / (q.2.2.2 : ℚ)) }
    fout := to_float (highres_vco input q / (q.2.2.2 : ℚ))
    fvco := highres_vco input q }

/-- What the loop nest of `calc_pll_params_highres` does when it reaches the
quadruple `q` in the state `s`. -/
def calc_pll_params_highres_visit (input output : ℚ) (s : search_state)
    (q : ℕ × ℕ × ℕ × ℕ) : search_state :=
  if to_float (input / (q.1 : ℚ)) < PFD_MIN ∨ to_float (input / (q.1 : ℚ)) > PFD_MAX then s
  else if
      to_float (to_float (to_float (input / (q.1 : ℚ)) * (q.2.1 : ℚ)) * (q.2.2.1 : ℚ)) < VCO_MIN ∨
      to_float (to_float (to_float (input / (q.1 : ℚ)) * (q.2.1 : ℚ)) * (q.2.2.1 : ℚ)) > VCO_MAX
    then s
  else if
      to_float (to_float (to_float (to_float (input / (q.1 : ℚ)) * (q.2.1 : ℚ)) * (q.2.2.1 : ℚ)) /
        (q.2.2.1 : ℚ)) < OUTPUT_MIN ∨
      to_float (to_float (to_float (to_float (input / (q.1 : ℚ)) * (q.2.1 : ℚ)) * (q.2.2.1 : ℚ)) /
        (q.2.2.1 : ℚ)) > OUTPUT_MAX
    then s
  else
    calc_pll_params_highres_body
      (to_float (to_float (to_float (input / (q.1 : ℚ)) * (q.2.1 : ℚ)) * (q.2.2.1 : ℚ))) output
      q.1 q.2.1 q.2.2.1 s q.2.2.2

/-- The assignment block of `calc_pll_params_highres` is executed when the
quadruple `q` is reached in the state `s`. -/
def calc_pll_params_highres_updates (input output : ℚ) (s : search_state)
    (q : ℕ × ℕ × ℕ × ℕ) : Prop :=
  highres_passes input q ∧ improves (highres_err input output q) (highres_vdist input q) s

/-- The highres search selects a configuration: at some visit of the run started
on `params` the assignment block is executed. -/
def calc_pll_params_highres_selects (params : pll_params) (input output : ℚ) : Prop :=
  ∃ pre q post, pll_quads = pre ++ q :: post ∧
    calc_pll_params_highres_updates input output
      (pre.foldl (calc_pll_params_highres_visit input output)
        { error := FLT_MAX, params := params }) q

/-- The properties of a configuration selected by the highres search as the
source evaluates them: dividers in their loop ranges, the computed PFD frequency
in `[3.125, 400]`, the stored VCO frequency
`fvco = fl(fl(fpfd * feedback_div) * output_div)` in `[400, 800]`, the computed
feedback output `fl(fvco / output_div)` in `[10, 400]`, `secondary[0].div` in
`1..128`, `fout = secondary[0].freq = fl(fvco / secondary[0].div)`, mode
`HIGHRES` and `secondary[0]` enabled. -/
def highres_within_bounds (input : ℚ) (p : pll_params) : Prop :=
  1 ≤ p.refclk_div ∧ p.refclk_div ≤ 128 ∧
  1 ≤ p.feedback_div ∧ p.feedback_div ≤ 80 ∧
  1 ≤ p.output_div ∧ p.output_div ≤ 128 ∧
  (3125 : ℚ) / 1000 ≤ to_float (input / (p.refclk_div : ℚ)) ∧
  to_float (input / (p.refclk_div : ℚ)) ≤ 400 ∧
  p.fvco = to_float (to_float (to_float (input / (p.refclk_div : ℚ)) * (p.feedback_div : ℚ)) *
    (p.output_div : ℚ)) ∧
  400 ≤ p.fvco ∧ p.fvco ≤ 800 ∧
  10 ≤ to_float (p.fvco / (p.output_div : ℚ)) ∧ to_float (p.fvco / (p.output_div : ℚ)) ≤ 400 ∧
  1 ≤ (p.secondary 0).div ∧ (p.secondary 0).div ≤ 128 ∧
  p.fout = (p.secondary 0).freq ∧
  (p.secondary 0).freq = to_float (p.fvco / ((p.secondary 0).div : ℚ)) ∧
  p.mode = pll_mode.HIGHRES ∧ (p.secondary 0).enabled = true

/-- The properties of a selected highres configuration in exact terms:
`3.125 ≤ input / refclk_div ≤ 400`, `400 ≤ fvco ≤ 800` and
`10 ≤ fvco / output_div ≤ 400` with
`fvco = (input / refclk_div) * feedback_div * output_div` the exact product. -/
def exact_highres_within_bounds (input : ℚ) (p : pll_params) : Prop :=
  (3125 : ℚ) / 1000 ≤ input / (p.refclk_div : ℚ) ∧ input / (p.refclk_div : ℚ) ≤ 400 ∧
  400 ≤ input / (p.refclk_div : ℚ) * (p.feedback_div : ℚ) * (p.output_div : ℚ) ∧
  input / (p.refclk_div : ℚ) * (p.feedback_div : ℚ) * (p.output_div : ℚ) ≤ 800 ∧
  10 ≤ input / (p.refclk_div : ℚ) * (p.feedback_div : ℚ) * (p.output_div : ℚ) /
    (p.output_div : ℚ) ∧
  input / (p.refclk_div : ℚ) * (p.feedback_div : ℚ) * (p.output_div : ℚ) /
    (p.output_div : ℚ) ≤ 400 ∧
  1 ≤ (p.secondary 0).div ∧ (p.secondary 0).div ≤ 128 ∧
  p.mode = pll_mode.HIGHRES ∧ (p.secondary 0).enabled = true

/-! ## `generate_secondary_output` in binary32 and binary64

The function mixes `float` and `double` arithmetic and converts to `int`.  Each
operation is checked here: the result is `none` when the source divides by zero,
when a result leaves the normal range of its format (the model has no
infinities, NaNs or subnormal numbers) or when a conversion to `int` or an `int`
addition leaves the range of a 32-bit `int`.  Where the result is `some`, every
operation is the IEEE 754 operation of the source. -/

/-- The largest finite `double`, `2 ^ 1024 - 2 ^ 971`. -/
def DBL_MAX : ℚ := 2 ^ 1024 - 2 ^ 971

/-- A `float` result: defined when the exact value is zero or the rounded value
is a normal binary32 number. -/
def to_float_checked (x : ℚ) : Option ℚ :=
  if x = 0 then some 0
  else if (1 : ℚ) / 2 ^ 126 ≤ |x| ∧ |to_float x| ≤ FLT_MAX then some (to_float x)
  else none

/-- A `double` result: defined when the exact value is zero or the rounded value
is a normal binary64 number. -/
def to_double_checked (x : ℚ) : Option ℚ :=
  if x = 0 then some 0
  else if (1 : ℚ) / 2 ^ 1022 ≤ |x| ∧ |to_double x| ≤ DBL_MAX then some (to_double x)
  else none

/-- A quotient: undefined when the divisor is zero. -/
def div_checked (a b : ℚ) : Option ℚ := if b = 0 then none else some (a / b)

/-- An `int` value: undefined outside the range of a 32-bit `int`. -/
def int32_checked (z : ℤ) : Option ℤ :=
  if -2147483648 ≤ z ∧ z ≤ 2147483647 then some z else none

/-- Conversion of a floating value to `int`: truncation toward zero, undefined
when the truncated value is outside the range of a 32-bit `int`. -/
def float_to_int32 (x : ℚ) : Option ℤ := int32_checked (float_to_int x)

/-- The function `generate_secondary_output` with the arithmetic of the source:
`float` operations rounded to binary32, operations involving a `double`
constant rounded to binary64, narrowing on assignment to a `float` variable. -/
def generate_secondary_output (params : pll_params) (channel : Fin 3) (name : String)
    (frequency phase : ℚ) : Option pll_params := do
  let div ← (div_checked params.fvco frequency >>= to_float_checked) >>= float_to_int32
  let freq ← (to_float_checked (div : ℚ) >>= div_checked params.fvco) >>= to_float_checked
  let period ← (to_double_checked (freq * 1000000) >>= div_checked 1) >>= to_double_checked
  let ns_shift ← ((to_double_checked (period * phase) >>= fun d => to_double_checked (d / 360))
    >>= to_float_checked)
  let vco_hz ← to_double_checked (params.fvco * 1000000)
  let phase_count ← to_double_checked (ns_shift * vco_hz) >>= to_float_checked
  let cphase ← float_to_int32 phase_count
  let fphase ← ((to_float_checked (cphase : ℚ) >>= fun c => to_float_checked (phase_count - c))
    >>= fun d => to_float_checked (d * 8)) >>= float_to_int32
  let vco_period ← div_checked 1 vco_hz >>= to_double_checked
  let count ← to_double_checked ((fphase : ℚ) / 8) >>= fun e =>
    to_double_checked ((cphase : ℚ) + e)
  let ns_actual ← to_double_checked (vco_period * count) >>= to_float_checked
  let phase_shift ← ((to_float_checked (360 * ns_actual) >>= fun n => div_checked n period)
    >>= to_double_checked) >>= to_float_checked
  let stored_cphase ← int32_checked (cphase + params.primary_cphase)
  pure
    { params with
      secondary := Function.update params.secondary channel
        { enabled := true
          div := div
          freq := freq
          phase := phase_shift
          cphase := stored_cphase
          fphase := fphase
          name := name } }

end Binary32

/-! # Verification -/

theorem key_lt_trans {e1 v1 e2 v2 e3 v3 : ℚ} (h1 : key_lt e1 v1 e2 v2)
    (h2 : key_lt e2 v2 e3 v3) : key_lt e1 v1 e3 v3 := by
  unfold key_lt at *
  rcases h1 with h1 | ⟨h1, h1v⟩ <;> rcases h2 with h2 | ⟨h2, h2v⟩
  · left; linarith
  · left; linarith
  · left; linarith
  · right; exact ⟨h1.trans h2, lt_trans h1v h2v⟩

theorem key_lt_of_not_key_lt {e1 v1 e2 v2 e3 v3 : ℚ} (h1 : key_lt e1 v1 e2 v2)
    (h2 : ¬ key_lt e3 v3 e2 v2) : key_lt e1 v1 e3 v3 := by
  unfold key_lt at *
  push_neg at h2
  obtain ⟨h2a, h2b⟩ := h2
  rcases h1 with h1 | ⟨h1, h1v⟩
  · left; linarith
  · rcases lt_or_eq_of_le h2a with h | h
    · left; linarith
    · right; exact ⟨h1.trans h, lt_of_lt_of_le h1v (h2b h.symm)⟩

theorem key_lt_irrefl (e v : ℚ) : ¬ key_lt e v e v := by
  unfold key_lt
  rintro (h | ⟨_, h⟩) <;> exact lt_irrefl _ h

section FirstMin

variable {α : Type} (good : α → Prop) (err vd : α → ℚ)

/-- A sequence has at most one first strict minimum. -/
theorem first_min_unique {L : List α} {a b : α} (ha : first_min good err vd L a)
    (hb : first_min good err vd L b) : a = b := by
  obtain ⟨pre, post, hL, hga, hpre, hpost⟩ := ha
  obtain ⟨pre2, post2, hL2, hgb, hpre2, hpost2⟩ := hb
  rw [hL] at hL2
  rcases List.append_eq_append_iff.1 hL2 with ⟨l, h1, h2⟩ | ⟨l, h1, h2⟩
  · cases l with
    | nil =>
      simp only [List.nil_append, List.cons.injEq] at h2
      exact h2.1
    | cons c l =>
      simp only [List.cons_append, List.cons.injEq] at h2
      obtain ⟨rfl, h2⟩ := h2
      have hbpost : b ∈ post := by rw [h2]; simp
      have hapre : a ∈ pre2 := by rw [h1]; simp
      exact absurd (hpre2 a hapre hga) (hpost b hbpost hgb)
  · cases l with
    | nil =>
      simp only [List.nil_append, List.cons.injEq] at h2
      exact h2.1.symm
    | cons c l =>
      simp only [List.cons_append, List.cons.injEq] at h2
      obtain ⟨rfl, h2⟩ := h2
      have hapost : a ∈ post2 := by rw [h2]; simp
      have hbpre : b ∈ pre := by rw [h1]; simp
      exact absurd (hpre b hbpre hgb) (hpost2 a hapost hga)

theorem first_min_mem {L : List α} {a : α} (ha : first_min good err vd L a) :
    a ∈ L ∧ good a := by
  obtain ⟨pre, post, hL, hga, -, -⟩ := ha
  exact ⟨by rw [hL]; simp, hga⟩

theorem first_min_le {L : List α} {a : α} (ha : first_min good err vd L a) :
    ∀ b ∈ L, good b → ¬ key_lt (err b) (vd b) (err a) (vd a) := by
  obtain ⟨pre, post, hL, hga, hpre, hpost⟩ := ha
  intro b hb hgb
  rw [hL] at hb
  rcases List.mem_append.1 hb with hb | hb
  · intro h
    exact key_lt_irrefl _ _ (key_lt_trans h (hpre b hb hgb))
  · rcases List.mem_cons.1 hb with hb | hb
    · subst hb; exact key_lt_irrefl _ _
    · exact hpost b hb hgb

end FirstMin

section RuleLemmas

variable {α : Type} (dist : pll_params → ℚ) (good : α → Prop) [DecidablePred good]
  (err vd : α → ℚ) (upd : pll_params → α → pll_params)

theorem improves_on_iff_key_lt (e v : ℚ) (s : search_state) :
    improves_on dist e v s ↔ key_lt e v s.error (dist s.params) := Iff.rfl

/-- Outcome of a run of the rule from the state `s0`: either nothing improved on
`s0` and the state is untouched, or the state holds the first strict minimum of
the sequence, which improves on `s0`. -/
theorem rule_fold_spec (hvd : ∀ p a, dist (upd p a) = vd a)
    (hupd : ∀ p a b, upd (upd p a) b = upd p b) (s0 : search_state) (L : List α) :
    (L.foldl (rule_step dist good err vd upd) s0 = s0 ∧
        ∀ a ∈ L, good a → ¬ improves_on dist (err a) (vd a) s0) ∨
    (∃ a, first_min good err vd L a ∧ improves_on dist (err a) (vd a) s0 ∧
        L.foldl (rule_step dist good err vd upd) s0 = { error := err a, params := upd s0.params a }) := by
  induction L using List.reverseRecOn with
  | nil => left; simp
  | append_singleton L x ih =>
    rw [List.foldl_append]
    simp only [List.foldl_cons, List.foldl_nil]
    rcases ih with ⟨hs, hno⟩ | ⟨a, ⟨pre, post, hL, hga, hpre, hpost⟩, himp, hs⟩
    · rw [hs]
      by_cases hx : good x ∧ improves_on dist (err x) (vd x) s0
      · right
        refine ⟨x, ⟨L, [], rfl, hx.1, ?_, by simp⟩, hx.2, by simp [rule_step, hx]⟩
        intro b hb hgb
        exact key_lt_of_not_key_lt hx.2 (hno b hb hgb)
      · left
        refine ⟨by simp [rule_step, hx], ?_⟩
        intro b hb hgb
        rcases List.mem_append.1 hb with hb | hb
        · exact hno b hb hgb
        · rw [List.mem_singleton] at hb
          subst hb
          exact fun h => hx ⟨hgb, h⟩
    · rw [hs]
      by_cases hx : good x ∧
          improves_on dist (err x) (vd x) { error := err a, params := upd s0.params a }
      · right
        have hxa : key_lt (err x) (vd x) (err a) (vd a) := by
          have := hx.2
          rw [improves_on_iff_key_lt] at this
          simpa [hvd] using this
        refine ⟨x, ⟨L, [], rfl, hx.1, ?_, by simp⟩, key_lt_trans hxa himp, ?_⟩
        · intro b hb hgb
          rw [hL] at hb
          rcases List.mem_append.1 hb with hb | hb
          · exact key_lt_trans hxa (hpre b hb hgb)
          · rcases List.mem_cons.1 hb with hb | hb
            · subst hb; exact hxa
            · exact key_lt_of_not_key_lt hxa (hpost b hb hgb)
        · simp [rule_step, hx, hupd]
      · right
        refine ⟨a, ⟨pre, post ++ [x], by simp [hL], hga, hpre, ?_⟩, himp, by simp [rule_step, hx]⟩
        intro b hb hgb
        rcases List.mem_append.1 hb with hb | hb
        · exact hpost b hb hgb
        · rw [List.mem_singleton] at hb
          subst hb
          intro h
          apply hx
          refine ⟨hgb, ?_⟩
          rw [improves_on_iff_key_lt]
          simpa [hvd] using h

end RuleLemmas

/-! ## Flattening the loop nests -/

theorem foldl_flatMap_eq {β γ σ : Type} (f : σ → γ → σ) (g : β → List γ) (l : List β) (s : σ) :
    (l.flatMap g).foldl f s = l.foldl (fun s b => (g b).foldl f s) s := by
  induction l generalizing s with
  | nil => rfl
  | cons b l ih => simp [List.flatMap_cons, List.foldl_append, ih]

theorem foldl_skip {γ σ : Type} (f : σ → γ → σ) (l : List γ) (s : σ)
    (h : ∀ c ∈ l, f s c = s) : l.foldl f s = s := by
  induction l with
  | nil => rfl
  | cons c l ih =>
    rw [List.foldl_cons, h c (List.mem_cons_self _ _)]
    exact ih fun d hd => h d (List.mem_cons_of_mem _ hd)

theorem calc_pll_params_nest_eq (input output : ℚ) (l1 l2 l3 : List ℕ) (s0 : search_state) :
    l1.foldl
      (fun (s : search_state) (input_div : ℕ) =>
        let fpfd : ℚ := input / (input_div : ℚ)
        if fpfd < PFD_MIN ∨ fpfd > PFD_MAX then s
        else
          l2.foldl
            (fun (s : search_state) (feedback_div : ℕ) =>
              l3.foldl
                (fun (s : search_state) (output_div : ℕ) =>
                  calc_pll_params_body fpfd output input_div feedback_div s output_div)
                s)
            s)
      s0 =
    (l1.flatMap fun r => l2.flatMap fun f => l3.map fun o => (r, f, o)).foldl
      (calc_pll_params_visit input output) s0 := by
  rw [foldl_flatMap_eq]
  congr 1
  funext s r
  rw [foldl_flatMap_eq]
  by_cases h : input / (r : ℚ) < PFD_MIN ∨ input / (r : ℚ) > PFD_MAX
  · simp only [h, if_true]
    symm
    apply foldl_skip
    intro f _
    apply foldl_skip
    intro t ht
    obtain ⟨o, -, rfl⟩ := List.mem_map.1 ht
    simp [calc_pll_params_visit, h]
  · simp only [h, if_false]
    congr 1
    funext s f
    rw [List.foldl_map]
    congr 1
    funext s o
    simp [calc_pll_params_visit, h]

/-- The three nested loops of `calc_pll_params` are the left fold of the visits
over `pll_triples`. -/
theorem calc_pll_params_loop_eq (params : pll_params) (input output : ℚ) :
    calc_pll_params_loop params input output =
      pll_triples.foldl (calc_pll_params_visit input output)
        { error := FLT_MAX, params := params } :=
  calc_pll_params_nest_eq input output _ _ _ _

theorem calc_pll_params_visit_eq (input output : ℚ) :
    calc_pll_params_visit input output =
      rule_step vco_dist (passes input) (err_of input output) (vdist_of input)
        (calc_pll_params_assign input) := by
  funext s t
  unfold calc_pll_params_visit rule_step calc_pll_params_body passes improves_on vco_dist
  by_cases h1 : input / (t.1 : ℚ) < PFD_MIN ∨ input / (t.1 : ℚ) > PFD_MAX
  · simp [h1, pfd_of]
  · by_cases h2 : input / (t.1 : ℚ) * (t.2.1 : ℚ) * (t.2.2 : ℚ) < VCO_MIN ∨
        input / (t.1 : ℚ) * (t.2.1 : ℚ) * (t.2.2 : ℚ) > VCO_MAX
    · simp [h1, h2, pfd_of, vco_of]
    · simp only [h1, h2, if_false, pfd_of, vco_of, not_false_eq_true, true_and, err_of,
        vdist_of, fout_of, calc_pll_params_assign]

/-! ## The visiting order -/

theorem triples_sorted (l1 l2 l3 : List ℕ) (h1 : l1.Pairwise (fun a b => a < b))
    (h2 : l2.Pairwise (fun a b => a < b)) (h3 : l3.Pairwise (fun a b => a < b)) :
    (l1.flatMap fun r => l2.flatMap fun f => l3.map fun o => (r, f, o)).Pairwise triple_lt := by
  rw [List.pairwise_flatMap]
  refine ⟨fun r _ => ?_, h1.imp ?_⟩
  · rw [List.pairwise_flatMap]
    refine ⟨fun f _ => ?_, h2.imp ?_⟩
    · rw [List.pairwise_map]
      exact h3.imp fun h => Or.inr ⟨rfl, Or.inr ⟨rfl, h⟩⟩
    · intro f f' hff x hx y hy
      obtain ⟨o, -, rfl⟩ := List.mem_map.1 hx
      obtain ⟨o', -, rfl⟩ := List.mem_map.1 hy
      exact Or.inr ⟨rfl, Or.inl hff⟩
  · intro r r' hrr x hx y hy
    obtain ⟨f, -, hx⟩ := List.mem_flatMap.1 hx
    obtain ⟨f', -, hy⟩ := List.mem_flatMap.1 hy
    obtain ⟨o, -, rfl⟩ := List.mem_map.1 hx
    obtain ⟨o', -, rfl⟩ := List.mem_map.1 hy
    exact Or.inl hrr

theorem pll_triples_sorted : pll_triples.Pairwise triple_lt :=
  triples_sorted _ _ _ (List.pairwise_lt_range' 1 128) (List.pairwise_lt_range' 1 80)
    (List.pairwise_lt_range' 1 128)

theorem triples_mem (l1 l2 l3 : List ℕ) (t : ℕ × ℕ × ℕ) :
    t ∈ (l1.flatMap fun r => l2.flatMap fun f => l3.map fun o => (r, f, o)) ↔
      t.1 ∈ l1 ∧ t.2.1 ∈ l2 ∧ t.2.2 ∈ l3 := by
  obtain ⟨r, f, o⟩ := t
  simp only [List.mem_flatMap, List.mem_map, Prod.mk.injEq]
  constructor
  · rintro ⟨r', hr, f', hf, o', ho, rfl, rfl, rfl⟩
    exact ⟨hr, hf, ho⟩
  · rintro ⟨hr, hf, ho⟩
    exact ⟨r, hr, f, hf, o, ho, rfl, rfl, rfl⟩

theorem mem_pll_triples (t : ℕ × ℕ × ℕ) : t ∈ pll_triples ↔ in_range t := by
  unfold pll_triples in_range
  rw [triples_mem, List.mem_range'_1, List.mem_range'_1, List.mem_range'_1]
  omega

/-- In `pll_triples`, whatever follows an entry is visited strictly later. -/
theorem pll_triples_after {pre post : List (ℕ × ℕ × ℕ)} {t : ℕ × ℕ × ℕ}
    (h : pll_triples = pre ++ t :: post) : ∀ b ∈ post, triple_lt t b := by
  have hs := pll_triples_sorted
  rw [h, List.pairwise_append] at hs
  exact (List.pairwise_cons.1 hs.2.1).1

/-! ## When does a run replace the starting state -/

section RuleSelects

variable {α : Type} (dist : pll_params → ℚ) (good : α → Prop) [DecidablePred good]
  (err vd : α → ℚ) (upd : pll_params → α → pll_params)

/-- Some visit of the run replaces the current best exactly when some candidate
that passes the checks improves on the starting state. -/
theorem rule_selects_iff (hvd : ∀ p a, dist (upd p a) = vd a)
    (hupd : ∀ p a b, upd (upd p a) b = upd p b) (s0 : search_state) (L : List α) :
    (∃ pre t post, L = pre ++ t :: post ∧
        (good t ∧ improves_on dist (err t) (vd t) (pre.foldl (rule_step dist good err vd upd) s0))) ↔
      ∃ a ∈ L, good a ∧ improves_on dist (err a) (vd a) s0 := by
  constructor
  · rintro ⟨pre, t, post, hL, hgt, hit⟩
    rcases rule_fold_spec dist good err vd upd hvd hupd s0 pre with ⟨hs, -⟩ | ⟨a, ha, himp, -⟩
    · rw [hs] at hit
      exact ⟨t, by rw [hL]; simp, hgt, hit⟩
    · obtain ⟨hmem, hga⟩ := first_min_mem good err vd ha
      exact ⟨a, by rw [hL]; simp [hmem], hga, himp⟩
  · rintro ⟨a, haL, hga, himp⟩
    rcases rule_fold_spec dist good err vd upd hvd hupd s0 L with ⟨-, hno⟩ | ⟨t, ht, htimp, -⟩
    · exact absurd himp (hno a haL hga)
    · obtain ⟨pre, post, hL, hgt, hpre, -⟩ := ht
      refine ⟨pre, t, post, hL, hgt, ?_⟩
      rcases rule_fold_spec dist good err vd upd hvd hupd s0 pre with ⟨hs, -⟩ | ⟨b, hb, -, hs⟩
      · rw [hs]; exact htimp
      · rw [hs, improves_on_iff_key_lt]
        obtain ⟨hmem, hgb⟩ := first_min_mem good err vd hb
        simpa [hvd] using hpre b hmem hgb

end RuleSelects

/-! ## `calc_pll_params`: what a run returns -/

theorem calc_pll_params_assign_vdist (input : ℚ) (p : pll_params) (t : ℕ × ℕ × ℕ) :
    |(calc_pll_params_assign input p t).fvco - 600| = vdist_of input t := rfl

theorem calc_pll_params_assign_assign (input : ℚ) (p : pll_params) (a b : ℕ × ℕ × ℕ) :
    calc_pll_params_assign input (calc_pll_params_assign input p a) b =
      calc_pll_params_assign input p b := rfl

theorem calc_pll_params_eq_fold (params : pll_params) (input output : ℚ) :
    calc_pll_params params input output =
      (pll_triples.foldl
        (rule_step vco_dist (passes input) (err_of input output) (vdist_of input)
          (calc_pll_params_assign input))
        { error := FLT_MAX, params := params }).params := by
  unfold calc_pll_params
  rw [calc_pll_params_loop_eq, calc_pll_params_visit_eq]

theorem calc_pll_params_assign_vco_dist (input : ℚ) (p : pll_params) (t : ℕ × ℕ × ℕ) :
    vco_dist (calc_pll_params_assign input p t) = vdist_of input t := rfl

/-- The search selects a triple exactly when some triple in range passes both
range checks and improves on the starting state. -/
theorem calc_pll_params_selects_iff (params : pll_params) (input output : ℚ) :
    calc_pll_params_selects params input output ↔
      ∃ t, in_range t ∧ passes input t ∧
        improves (err_of input output t) (vdist_of input t)
          { error := FLT_MAX, params := params } := by
  have h := rule_selects_iff vco_dist (passes input) (err_of input output) (vdist_of input)
    (calc_pll_params_assign input) (calc_pll_params_assign_vco_dist input)
    (calc_pll_params_assign_assign input) { error := FLT_MAX, params := params } pll_triples
  rw [← calc_pll_params_visit_eq] at h
  constructor
  · rintro ⟨pre, t, post, hL, hp, hi⟩
    obtain ⟨u, hm, hpu, hiu⟩ := h.1 ⟨pre, t, post, hL, hp, hi⟩
    exact ⟨u, (mem_pll_triples u).1 hm, hpu, hiu⟩
  · rintro ⟨t, hm, hp, hi⟩
    obtain ⟨pre, u, post, hL, hpu, hiu⟩ := h.2 ⟨t, (mem_pll_triples t).2 hm, hp, hi⟩
    exact ⟨pre, u, post, hL, hpu, hiu⟩

/-- Outcome of `calc_pll_params`: either no triple is selected and the record is
returned as it was, or the record holds the first strict minimum. -/
theorem calc_pll_params_spec (params : pll_params) (input output : ℚ) :
    (¬ calc_pll_params_selects params input output ∧
        calc_pll_params params input output = params) ∨
    (calc_pll_params_selects params input output ∧
      ∃ t, first_min (passes input) (err_of input output) (vdist_of input) pll_triples t ∧
        improves (err_of input output t) (vdist_of input t)
          { error := FLT_MAX, params := params } ∧
        calc_pll_params params input output = calc_pll_params_assign input params t) := by
  rw [calc_pll_params_eq_fold, calc_pll_params_selects_iff]
  rcases rule_fold_spec vco_dist (passes input) (err_of input output) (vdist_of input)
      (calc_pll_params_assign input) (calc_pll_params_assign_vco_dist input)
      (calc_pll_params_assign_assign input) { error := FLT_MAX, params := params } pll_triples
    with ⟨hs, hno⟩ | ⟨t, ht, himp, hs⟩
  · left
    refine ⟨?_, by rw [hs]⟩
    rintro ⟨t, hm, hp, hi⟩
    exact hno t ((mem_pll_triples t).2 hm) hp hi
  · right
    obtain ⟨hmem, hgt⟩ := first_min_mem _ _ _ ht
    exact ⟨⟨t, (mem_pll_triples t).1 hmem, hgt, himp⟩, t, ht, himp, by rw [hs]⟩

/-! ## Arithmetic of the range checks -/

theorem passes_iff (input : ℚ) (t : ℕ × ℕ × ℕ) :
    passes input t ↔
      ((3125 : ℚ) / 1000 ≤ input / (t.1 : ℚ) ∧ input / (t.1 : ℚ) ≤ 400) ∧
      (400 ≤ input / (t.1 : ℚ) * (t.2.1 : ℚ) * (t.2.2 : ℚ) ∧
        input / (t.1 : ℚ) * (t.2.1 : ℚ) * (t.2.2 : ℚ) ≤ 800) := by
  unfold passes pfd_of vco_of PFD_MIN PFD_MAX VCO_MIN VCO_MAX
  simp only [not_or, not_lt, gt_iff_lt]

theorem in_range_cast {t : ℕ × ℕ × ℕ} (h : in_range t) :
    (1 : ℚ) ≤ (t.1 : ℚ) ∧ (t.1 : ℚ) ≤ 128 ∧ (1 : ℚ) ≤ (t.2.1 : ℚ) ∧ (t.2.1 : ℚ) ≤ 80 ∧
      (1 : ℚ) ≤ (t.2.2 : ℚ) ∧ (t.2.2 : ℚ) ≤ 128 := by
  obtain ⟨h1, h2, h3, h4, h5, h6⟩ := h
  exact ⟨by exact_mod_cast h1, by exact_mod_cast h2, by exact_mod_cast h3,
    by exact_mod_cast h4, by exact_mod_cast h5, by exact_mod_cast h6⟩

theorem fout_of_eq (input : ℚ) {t : ℕ × ℕ × ℕ} (h : in_range t) :
    fout_of input t = input / (t.1 : ℚ) * (t.2.1 : ℚ) := by
  have ho : (t.2.2 : ℚ) ≠ 0 := by
    have := (in_range_cast h).2.2.2.2.1
    linarith
  have hr : (t.1 : ℚ) ≠ 0 := by
    have := (in_range_cast h).1
    linarith
  unfold fout_of vco_of
  field_simp
  ring

/-- The output frequency of a triple that passes the checks lies in
`[3.125, 32000]`. -/
theorem fout_of_bounds (input : ℚ) {t : ℕ × ℕ × ℕ} (h : in_range t) (hp : passes input t) :
    (3125 : ℚ) / 1000 ≤ fout_of input t ∧ fout_of input t ≤ 32000 := by
  rw [fout_of_eq input h]
  obtain ⟨⟨h1, h2⟩, -⟩ := (passes_iff input t).1 hp
  obtain ⟨-, -, hf1, hf2, -, -⟩ := in_range_cast h
  constructor <;> nlinarith

theorem selects_of_small_error (params : pll_params) (input output : ℚ) {t : ℕ × ℕ × ℕ}
    (h : in_range t) (hp : passes input t) (he : err_of input output t < FLT_MAX) :
    calc_pll_params_selects params input output :=
  (calc_pll_params_selects_iff params input output).2 ⟨t, h, hp, Or.inl he⟩

theorem in_range_1_4_12 : in_range (1, 4, 12) := by unfold in_range; simp

theorem passes_12_1_4_12 : passes 12 (1, 4, 12) := by
  rw [passes_iff]; norm_num

theorem err_12_48_1_4_12 : err_of 12 48 (1, 4, 12) = 0 := by
  unfold err_of fout_of vco_of; norm_num

theorem selects_12_48 (params : pll_params) : calc_pll_params_selects params 12 48 :=
  selects_of_small_error params 12 48 in_range_1_4_12 passes_12_1_4_12
    (by rw [err_12_48_1_4_12]; unfold FLT_MAX; norm_num)

/-! ## The returned triple -/

theorem not_key_lt_iff (e v e2 v2 : ℚ) :
    ¬ key_lt e2 v2 e v ↔ e ≤ e2 ∧ (e2 = e → v ≤ v2) := by
  unfold key_lt
  simp only [not_or, not_lt, not_and]

/-- A triple that improves on the starting state, that no triple beats and
before which only strictly worse triples are visited, is the one returned. -/
theorem calc_pll_params_eq_of_first (params : pll_params) (input output : ℚ)
    (t0 : ℕ × ℕ × ℕ) (h0 : in_range t0) (hp0 : passes input t0)
    (himp : improves (err_of input output t0) (vdist_of input t0)
      { error := FLT_MAX, params := params })
    (hbest : ∀ u, in_range u → passes input u →
      ¬ key_lt (err_of input output u) (vdist_of input u)
        (err_of input output t0) (vdist_of input t0))
    (hfirst : ∀ u, in_range u → passes input u → triple_lt u t0 →
      key_lt (err_of input output t0) (vdist_of input t0)
        (err_of input output u) (vdist_of input u)) :
    calc_pll_params params input output = calc_pll_params_assign input params t0 := by
  rcases calc_pll_params_spec params input output with ⟨hn, -⟩ | ⟨-, t, ht, -, hs⟩
  · exact absurd ((calc_pll_params_selects_iff params input output).2 ⟨t0, h0, hp0, himp⟩) hn
  · rw [hs]
    obtain ⟨hmem, hgt⟩ := first_min_mem _ _ _ ht
    have hle := first_min_le _ _ _ ht t0 ((mem_pll_triples t0).2 h0) hp0
    obtain ⟨pre, post, hL, -, hpre, hpost⟩ := ht
    have hm0 : t0 ∈ pll_triples := (mem_pll_triples t0).2 h0
    rw [hL] at hm0
    rcases List.mem_append.1 hm0 with hm | hm
    · exact absurd (hpre t0 hm hp0) (hbest t ((mem_pll_triples t).1 hmem) hgt)
    · rcases List.mem_cons.1 hm with hm | hm
      · rw [hm]
      · exact absurd (hfirst t ((mem_pll_triples t).1 hmem) hgt (pll_triples_after hL t0 hm))
          (hpost t0 hm hp0)

/-! ## The scenario `input = 200`, `output = 400` -/

theorem in_range_1_2_1 : in_range (1, 2, 1) := by unfold in_range; simp

theorem passes_200_1_2_1 : passes 200 (1, 2, 1) := by
  rw [passes_iff]; norm_num

theorem err_200_400_1_2_1 : err_of 200 400 (1, 2, 1) = 0 := by
  unfold err_of fout_of vco_of; norm_num

theorem vdist_200_1_2_1 : vdist_of 200 (1, 2, 1) = 200 := by
  unfold vdist_of vco_of; norm_num [abs_of_neg]

theorem scenario_200_400_zero_error {u : ℕ × ℕ × ℕ} (hu : in_range u)
    (he : err_of 200 400 u = 0) : u.2.1 = 2 * u.1 ∧ vco_of 200 u = 400 * (u.2.2 : ℚ) := by
  obtain ⟨r1, -, -, -, -, -⟩ := in_range_cast hu
  have hr : (u.1 : ℚ) ≠ 0 := by linarith
  unfold err_of at he
  rw [fout_of_eq 200 hu, abs_eq_zero, sub_eq_zero, div_mul_eq_mul_div, div_eq_iff hr] at he
  have hf : (u.2.1 : ℚ) = 2 * (u.1 : ℚ) := by linarith
  refine ⟨by exact_mod_cast hf, ?_⟩
  unfold vco_of
  rw [hf]
  field_simp
  ring

theorem calc_pll_params_200_400 (params : pll_params) :
    calc_pll_params params 200 400 = calc_pll_params_assign 200 params (1, 2, 1) := by
  apply calc_pll_params_eq_of_first params 200 400 (1, 2, 1) in_range_1_2_1 passes_200_1_2_1
  · left
    rw [err_200_400_1_2_1]; unfold FLT_MAX; norm_num
  · intro u hu hpu
    rw [err_200_400_1_2_1, vdist_200_1_2_1, not_key_lt_iff]
    refine ⟨abs_nonneg _, fun he => ?_⟩
    obtain ⟨-, hv⟩ := scenario_200_400_zero_error hu he
    unfold vdist_of
    rw [hv]
    by_contra hlt
    rw [not_le, abs_lt] at hlt
    have h1 : (1 : ℚ) < (u.2.2 : ℚ) := by linarith [hlt.1]
    have h2 : (u.2.2 : ℚ) < 2 := by linarith [hlt.2]
    have h1n : 1 < u.2.2 := by exact_mod_cast h1
    have h2n : u.2.2 < 2 := by exact_mod_cast h2
    omega
  · intro u hu hpu hlt
    rw [err_200_400_1_2_1, vdist_200_1_2_1]
    left
    refine lt_of_le_of_ne (abs_nonneg _) (Ne.symm ?_)
    intro he
    obtain ⟨hf, -⟩ := scenario_200_400_zero_error hu he
    unfold triple_lt at hlt
    obtain ⟨r1, -, -, -, o1, -⟩ := hu
    simp only at hlt
    omega

/-- C3 (amended). For `input = 200` and `target = 400`, `calc_pll_params` selects
`refclk_div = 1`, `feedback_div = 2`, `output_div = 1` with `fvco = 400` and
`fout = 400`, whatever the starting record. -/
theorem calc_pll_params_200_400_selection (params : pll_params) :
    (calc_pll_params params 200 400).refclk_div = 1 ∧
      (calc_pll_params params 200 400).feedback_div = 2 ∧
      (calc_pll_params params 200 400).output_div = 1 ∧
      (calc_pll_params params 200 400).fvco = 400 ∧
      (calc_pll_params params 200 400).fout = 400 := by
  rw [calc_pll_params_200_400]
  unfold calc_pll_params_assign fout_of vco_of
  norm_num

/-- C3, as stated, fails: for `input = 200` and `target = 400` the record returned
by `calc_pll_params` does not hold `refclk_div = 1`, `feedback_div = 2`,
`output_div = 2` and `fvco = 800`. -/
theorem calc_pll_params_200_400_not_table_row :
    ¬ ((calc_pll_params pll_params_init 200 400).refclk_div = 1 ∧
        (calc_pll_params pll_params_init 200 400).feedback_div = 2 ∧
        (calc_pll_params pll_params_init 200 400).output_div = 2 ∧
        (calc_pll_params pll_params_init 200 400).fvco = 800) := by
  rw [calc_pll_params_200_400]
  unfold calc_pll_params_assign
  norm_num

/-! ## Exhausted searches -/

theorem calc_pll_params_untouched_of_none (params : pll_params) (input output : ℚ)
    (h : ∀ t, in_range t → ¬ passes input t) :
    ¬ calc_pll_params_selects params input output ∧
      calc_pll_params params input output = params := by
  have hn : ¬ calc_pll_params_selects params input output := by
    rw [calc_pll_params_selects_iff]
    rintro ⟨t, ht, hp, -⟩
    exact h t ht hp
  rcases calc_pll_params_spec params input output with ⟨-, hs⟩ | ⟨hsel, -⟩
  · exact ⟨hn, hs⟩
  · exact absurd hsel hn

theorem input_bounds_of_passes {input : ℚ} {t : ℕ × ℕ × ℕ} (ht : in_range t)
    (hp : passes input t) : (3125 : ℚ) / 1000 ≤ input ∧ input ≤ 51200 := by
  obtain ⟨⟨h1, h2⟩, -⟩ := (passes_iff input t).1 hp
  obtain ⟨r1, r2, -, -, -, -⟩ := in_range_cast ht
  have hr : (0 : ℚ) < (t.1 : ℚ) := by linarith
  rw [le_div_iff₀ hr] at h1
  rw [div_le_iff₀ hr] at h2
  constructor <;> nlinarith

theorem none_passes_1 (t : ℕ × ℕ × ℕ) (ht : in_range t) : ¬ passes 1 t := by
  intro hp
  have := (input_bounds_of_passes ht hp).1
  norm_num at this

/-- For a PFD frequency within `[3.125, 400]` some `output_div` in range, with
`feedback_div = 1`, brings the VCO frequency within `[400, 800]`. -/
theorem exists_output_div {fpfd : ℚ} (h1 : (3125 : ℚ) / 1000 ≤ fpfd) (h2 : fpfd ≤ 400) :
    ∃ o : ℕ, 1 ≤ o ∧ o ≤ 128 ∧ 400 ≤ fpfd * 1 * (o : ℚ) ∧ fpfd * 1 * (o : ℚ) ≤ 800 := by
  have hpos : (0 : ℚ) < fpfd := by linarith
  have hq : (0 : ℚ) < 400 / fpfd := div_pos (by norm_num) hpos
  refine ⟨⌈400 / fpfd⌉₊, Nat.ceil_pos.2 hq, ?_, ?_, ?_⟩
  · rw [Nat.ceil_le, div_le_iff₀ hpos]
    push_cast
    linarith
  · have := Nat.le_ceil (400 / fpfd)
    rw [div_le_iff₀ hpos] at this
    linarith
  · have := Nat.ceil_lt_add_one hq.le
    rw [← sub_lt_iff_lt_add, lt_div_iff₀ hpos] at this
    linarith

/-- For an input frequency within `[3.125, 51200]` some `input_div` in range
brings the PFD frequency within `[3.125, 400]`. -/
theorem exists_input_div {input : ℚ} (h1 : (3125 : ℚ) / 1000 ≤ input) (h2 : input ≤ 51200) :
    ∃ r : ℕ, 1 ≤ r ∧ r ≤ 128 ∧ (3125 : ℚ) / 1000 ≤ input / (r : ℚ) ∧ input / (r : ℚ) ≤ 400 := by
  by_cases hsmall : input ≤ 400
  · exact ⟨1, le_refl _, by norm_num, by simpa using h1, by simpa using hsmall⟩
  · rw [not_le] at hsmall
    have hq : (0 : ℚ) < input / 400 := by linarith
    have hr : (0 : ℚ) < ((⌈input / 400⌉₊ : ℕ) : ℚ) := by exact_mod_cast Nat.ceil_pos.2 hq
    refine ⟨⌈input / 400⌉₊, Nat.ceil_pos.2 hq, ?_, ?_, ?_⟩
    · rw [Nat.ceil_le]
      push_cast
      linarith
    · have := Nat.ceil_lt_add_one hq.le
      rw [le_div_iff₀ hr]
      nlinarith
    · have := Nat.le_ceil (input / 400)
      rw [div_le_iff₀ hr]
      linarith

theorem exists_passes_iff (input : ℚ) :
    (∃ t, in_range t ∧ passes input t) ↔ ((3125 : ℚ) / 1000 ≤ input ∧ input ≤ 51200) := by
  constructor
  · rintro ⟨t, ht, hp⟩
    exact input_bounds_of_passes ht hp
  · rintro ⟨h1, h2⟩
    obtain ⟨r, r1, r2, p1, p2⟩ := exists_input_div h1 h2
    obtain ⟨o, o1, o2, v1, v2⟩ := exists_output_div p1 p2
    refine ⟨(r, 1, o), ⟨r1, r2, le_refl _, by norm_num, o1, o2⟩, ?_⟩
    rw [passes_iff]
    exact ⟨⟨p1, p2⟩, by simpa using v1, by simpa using v2⟩

/-- C10. Some triple in range passes both the PFD check and the VCO check if and
only if `3.125 ≤ input ≤ 51200`, whatever the target; for every input outside
that interval `calc_pll_params` returns the record exactly as it was passed in. -/
theorem calc_pll_params_exhausted_iff (input : ℚ) :
    ((∃ t, in_range t ∧ passes input t) ↔ ((3125 : ℚ) / 1000 ≤ input ∧ input ≤ 51200)) ∧
      (¬ ((3125 : ℚ) / 1000 ≤ input ∧ input ≤ 51200) →
        ∀ (params : pll_params) (output : ℚ), calc_pll_params params input output = params) := by
  refine ⟨exists_passes_iff input, fun hout params output => ?_⟩
  refine (calc_pll_params_untouched_of_none params input output fun t ht hp => ?_).2
  exact hout ((exists_passes_iff input).1 ⟨t, ht, hp⟩)

theorem calc_pll_params_exhausted_iff_witness :
    ¬ ((3125 : ℚ) / 1000 ≤ 60000 ∧ (60000 : ℚ) ≤ 51200) ∧
      ∀ (params : pll_params) (output : ℚ), calc_pll_params params 60000 output = params :=
  ⟨by norm_num, (calc_pll_params_exhausted_iff 60000).2 (by norm_num)⟩

/-- C4 (amended). When no divider triple in range satisfies both range
constraints, `calc_pll_params` selects nothing and returns the parameter record
exactly as it was passed in; no failure is signalled. -/
theorem calc_pll_params_exhausted_untouched (params : pll_params) (input output : ℚ)
    (h : ∀ t, in_range t → ¬ passes input t) :
    ¬ calc_pll_params_selects params input output ∧
      calc_pll_params params input output = params :=
  calc_pll_params_untouched_of_none params input output h

theorem calc_pll_params_exhausted_untouched_witness :
    (∀ t, in_range t → ¬ passes 1 t) ∧
      ¬ calc_pll_params_selects pll_params_init 1 (1 / 2) ∧
      calc_pll_params pll_params_init 1 (1 / 2) = pll_params_init :=
  ⟨none_passes_1, calc_pll_params_exhausted_untouched pll_params_init 1 (1 / 2) none_passes_1⟩

/-- Running the search on its own result returns the same record. -/
theorem calc_pll_params_idem (params : pll_params) (input output : ℚ) :
    calc_pll_params (calc_pll_params params input output) input output =
      calc_pll_params params input output := by
  rcases calc_pll_params_spec params input output with ⟨-, hs⟩ | ⟨-, t, ht, -, hs⟩
  · rw [hs, hs]
  · rw [hs]
    rcases calc_pll_params_spec (calc_pll_params_assign input params t) input output with
      ⟨-, hs2⟩ | ⟨-, u, hu, -, hs2⟩
    · exact hs2
    · rw [hs2, first_min_unique _ _ _ hu ht]
      rfl

/-- C4, as stated, fails. For `input = 1` no triple passes the range checks, and
no test on the record passed in and the record returned tells that exhausted
search (`target = 0.5`) from a search that selected a triple: started on the
record produced for `input = 12`, `target = 48`, the exhausted search and the
search for `input = 12`, `target = 48` both return that very record. -/
theorem calc_pll_params_exhausted_not_reported :
    (∀ t, in_range t → ¬ passes 1 t) ∧
      ¬ ∃ reports_failure : pll_params → pll_params → Bool,
        (∀ params, reports_failure params (calc_pll_params params 1 (1 / 2)) = true) ∧
        (∀ params, calc_pll_params_selects params 12 48 →
          reports_failure params (calc_pll_params params 12 48) = false) := by
  refine ⟨none_passes_1, ?_⟩
  rintro ⟨g, h1, h2⟩
  have ha := h1 (calc_pll_params pll_params_init 12 48)
  have hb := h2 (calc_pll_params pll_params_init 12 48) (selects_12_48 _)
  rw [(calc_pll_params_untouched_of_none _ 1 (1 / 2) none_passes_1).2] at ha
  rw [calc_pll_params_idem] at hb
  rw [ha] at hb
  exact Bool.noConfusion hb

/-! ## `generate_secondary_output` -/

theorem float_to_int_of_nonneg {x : ℚ} (h : 0 ≤ x) : float_to_int x = ⌊x⌋ := by
  unfold float_to_int; rw [if_pos h]

theorem float_to_int_of_neg {x : ℚ} (h : x < 0) : float_to_int x = ⌈x⌉ := by
  unfold float_to_int; rw [if_neg (not_le.2 h)]

/-- Truncation moves a value by less than one. -/
theorem float_to_int_abs_sub_lt (x : ℚ) : |(float_to_int x : ℚ) - x| < 1 := by
  by_cases h : 0 ≤ x
  · rw [float_to_int_of_nonneg h, abs_lt]
    have h1 := Int.floor_le x
    have h2 := Int.lt_floor_add_one x
    constructor <;> linarith
  · rw [float_to_int_of_neg (not_le.1 h), abs_lt]
    have h1 := Int.le_ceil x
    have h2 := Int.ceil_lt_add_one x
    constructor <;> linarith

/-- The coarse and fine phase counts together are within an eighth of the
requested count. -/
theorem phase_split_close (x : ℚ) :
    |((float_to_int x : ℚ) + (float_to_int ((x - (float_to_int x : ℚ)) * 8) : ℚ) / 8) - x|
      < 1 / 8 := by
  have h := float_to_int_abs_sub_lt ((x - (float_to_int x : ℚ)) * 8)
  rw [abs_lt] at h ⊢
  constructor <;> linarith [h.1, h.2]

theorem generate_secondary_output_channel (params : pll_params) (channel : Fin 3)
    (name : String) (frequency phase : ℚ) :
    (generate_secondary_output params channel name frequency phase).secondary channel =
      { enabled := true
        div := secondary_div params.fvco frequency
        freq := params.fvco / (secondary_div params.fvco frequency : ℚ)
        phase := 360 * (1 / (params.fvco * 1000000) *
            ((float_to_int (secondary_phase_count params.fvco frequency phase) : ℚ) +
              (float_to_int ((secondary_phase_count params.fvco frequency phase -
                (float_to_int (secondary_phase_count params.fvco frequency phase) : ℚ)) * 8) : ℚ)
                / 8)) /
          (1 / (params.fvco / (secondary_div params.fvco frequency : ℚ) * 1000000))
        cphase := float_to_int (secondary_phase_count params.fvco frequency phase) +
          params.primary_cphase
        fphase := float_to_int ((secondary_phase_count params.fvco frequency phase -
          (float_to_int (secondary_phase_count params.fvco frequency phase) : ℚ)) * 8)
        name := name } := by
  unfold generate_secondary_output secondary_phase_count secondary_div
  simp only [Function.update_same]

theorem secondary_div_eq_floor {fvco frequency : ℚ} (hf : 0 < frequency)
    (hle : frequency ≤ fvco) :
    secondary_div fvco frequency = ⌊fvco / frequency⌋ ∧ 1 ≤ secondary_div fvco frequency := by
  have h1 : (1 : ℚ) ≤ fvco / frequency := by rwa [le_div_iff₀ hf, one_mul]
  have h : secondary_div fvco frequency = ⌊fvco / frequency⌋ :=
    float_to_int_of_nonneg (by linarith)
  refine ⟨h, ?_⟩
  rw [h, Int.le_floor]
  exact_mod_cast h1

/-- Phase round trip of the exact-arithmetic reading: with every rounding left
out, for `fvco > 0`, a desired frequency `f` with `0 < f ≤ fvco` and any requested
phase, `div = floor(fvco / f)`, `freq = fvco / div`, and the back-computed phase
`360 * (cphase + fphase / 8) / div` differs from the requested phase by strictly
less than one fine-phase step, `360 / (8 * div)` degrees.  The program itself,
which rounds to binary32, does not keep this bound: see
`Binary32.generate_secondary_output_600_40_243`. -/
theorem generate_secondary_output_exact_round_trip (params : pll_params) (channel : Fin 3)
    (name : String) (frequency phase : ℚ) (hv : 0 < params.fvco) (hf : 0 < frequency)
    (hle : frequency ≤ params.fvco) :
    phase_round_trip params frequency phase
      ((generate_secondary_output params channel name frequency phase).secondary channel) := by
  rw [generate_secondary_output_channel]
  obtain ⟨hd, hd1⟩ := secondary_div_eq_floor hf hle
  have hdq : (0 : ℚ) < (secondary_div params.fvco frequency : ℚ) := by
    have : (1 : ℚ) ≤ (secondary_div params.fvco frequency : ℚ) := by exact_mod_cast hd1
    linarith
  have hpc : phase = 360 * secondary_phase_count params.fvco frequency phase /
      (secondary_div params.fvco frequency : ℚ) := by
    unfold secondary_phase_count
    field_simp
    ring
  have hclose := phase_split_close (secondary_phase_count params.fvco frequency phase)
  generalize secondary_phase_count params.fvco frequency phase = x at hpc hclose ⊢
  generalize hd' : secondary_div params.fvco frequency = d at hd hdq hpc ⊢
  have hshift : ∀ y : ℚ, 360 * (1 / (params.fvco * 1000000) * y) /
      (1 / (params.fvco / (d : ℚ) * 1000000)) = 360 * y / (d : ℚ) := by
    intro y
    field_simp
  refine ⟨hd, rfl, ?_, ?_⟩
  · simp only [hshift, add_sub_cancel_right]
  · simp only [hshift]
    have e : 360 * ((float_to_int x : ℚ) + (float_to_int ((x - (float_to_int x : ℚ)) * 8) : ℚ) / 8)
        / (d : ℚ) - phase =
        360 / (d : ℚ) *
          (((float_to_int x : ℚ) + (float_to_int ((x - (float_to_int x : ℚ)) * 8) : ℚ) / 8) - x) := by
      rw [hpc]; ring
    rw [e, abs_mul, abs_of_pos (div_pos (by norm_num) hdq)]
    have : (360 : ℚ) / (8 * (d : ℚ)) = 360 / (d : ℚ) * (1 / 8) := by
      field_simp
      ring
    rw [this]
    exact mul_lt_mul_of_pos_left hclose (div_pos (by norm_num) hdq)

theorem generate_secondary_output_exact_round_trip_at_45 :
    0 < pll_params_vco600.fvco ∧ (0 : ℚ) < 100 ∧ (100 : ℚ) ≤ pll_params_vco600.fvco ∧
      phase_round_trip pll_params_vco600 100 45
        ((generate_secondary_output pll_params_vco600 0 "clkout1" 100 45).secondary 0) :=
  ⟨by norm_num [pll_params_vco600], by norm_num, by norm_num [pll_params_vco600],
    generate_secondary_output_exact_round_trip pll_params_vco600 0 "clkout1" 100 45
      (by norm_num [pll_params_vco600]) (by norm_num) (by norm_num [pll_params_vco600])⟩

theorem float_to_int_intCast (z : ℤ) : float_to_int (z : ℚ) = z := by
  unfold float_to_int
  split <;> simp

theorem secondary_div_600_100 : secondary_div 600 100 = 6 := by
  unfold secondary_div
  have : (600 : ℚ) / 100 = ((6 : ℤ) : ℚ) := by norm_num
  rw [this, float_to_int_intCast]

theorem secondary_phase_count_600_100_neg18 :
    secondary_phase_count 600 100 (-18) = -3 / 10 := by
  unfold secondary_phase_count
  rw [secondary_div_600_100]
  norm_num

theorem float_to_int_neg_3_10 : float_to_int (-3 / 10) = 0 := by
  rw [float_to_int_of_neg (by norm_num), Int.ceil_eq_iff]
  norm_num

theorem float_to_int_neg_12_5 : float_to_int (-12 / 5) = -2 := by
  rw [float_to_int_of_neg (by norm_num), Int.ceil_eq_iff]
  norm_num

/-- C6 fails on the code for a negative phase. With `fvco = 600`, a requested
frequency of 100 and a requested phase of -18 degrees the phase count is -0.3;
the conversions to `int` truncate toward zero, so the coarse count is 0 and the
stored `fphase` is -2, outside `0..7`, where `floor` would give the coarse count
-1 and the fine count `floor(0.7 * 8) = 5`. -/
theorem generate_secondary_output_fphase_negative :
    ((generate_secondary_output pll_params_vco600 0 "clkout1" 100 (-18)).secondary 0).fphase
        = -2 ∧
      ⌊secondary_phase_count 600 100 (-18)⌋ = -1 ∧
      ⌊(secondary_phase_count 600 100 (-18) - (⌊secondary_phase_count 600 100 (-18)⌋ : ℚ)) * 8⌋
        = 5 := by
  have hfl : ⌊(-3 / 10 : ℚ)⌋ = -1 := by
    rw [Int.floor_eq_iff]; norm_num
  refine ⟨?_, ?_, ?_⟩
  · rw [generate_secondary_output_channel]
    have hv : pll_params_vco600.fvco = 600 := rfl
    simp only [hv, secondary_phase_count_600_100_neg18, float_to_int_neg_3_10]
    have e : ((-3 / 10 : ℚ) - ((0 : ℤ) : ℚ)) * 8 = -12 / 5 := by norm_num
    rw [e, float_to_int_neg_12_5]
  · rw [secondary_phase_count_600_100_neg18, hfl]
  · rw [secondary_phase_count_600_100_neg18, hfl, Int.floor_eq_iff]
    norm_num

/-- For a phase count that is not negative the stored `fphase` lies in `0..7`
and is `floor((phase_count - coarse) * 8)` with `coarse = floor(phase_count)`. -/
theorem generate_secondary_output_fphase_of_nonneg (params : pll_params) (channel : Fin 3)
    (name : String) (frequency phase : ℚ)
    (h : 0 ≤ secondary_phase_count params.fvco frequency phase) :
    ((generate_secondary_output params channel name frequency phase).secondary channel).fphase =
        ⌊(secondary_phase_count params.fvco frequency phase -
          (⌊secondary_phase_count params.fvco frequency phase⌋ : ℚ)) * 8⌋ ∧
      0 ≤ ((generate_secondary_output params channel name frequency phase).secondary
        channel).fphase ∧
      ((generate_secondary_output params channel name frequency phase).secondary
        channel).fphase ≤ 7 := by
  rw [generate_secondary_output_channel]
  simp only
  generalize secondary_phase_count params.fvco frequency phase = x at h ⊢
  rw [float_to_int_of_nonneg h]
  have h1 := Int.floor_le x
  have h2 := Int.lt_floor_add_one x
  have h3 : (0 : ℚ) ≤ (x - (⌊x⌋ : ℚ)) * 8 := by linarith
  rw [float_to_int_of_nonneg h3]
  refine ⟨rfl, Int.floor_nonneg.2 h3, ?_⟩
  have : ⌊(x - (⌊x⌋ : ℚ)) * 8⌋ < 8 := by
    rw [Int.floor_lt]
    push_cast
    linarith
  omega

/-- C9. For every parameter record and every channel index,
`generate_secondary_output` changes only `secondary[channel]`: the other two
channel records and the members `mode`, `refclk_div`, `feedback_div`,
`output_div`, `primary_cphase`, `fvco`, `fout` (and the names and input
frequency) are exactly as before the call. -/
theorem generate_secondary_output_frame (params : pll_params) (channel : Fin 3)
    (name : String) (frequency phase : ℚ) :
    same_outside_channel channel params
      (generate_secondary_output params channel name frequency phase) := by
  unfold same_outside_channel generate_secondary_output
  refine ⟨fun j hj => ?_, rfl, rfl, rfl, rfl, rfl, rfl, rfl, rfl, rfl, rfl⟩
  simp only [Function.update_noteq hj]

theorem generate_secondary_output_frame_witness :
    (generate_secondary_output pll_params_vco600 1 "clkout2" 100 45).secondary 0 =
        pll_params_vco600.secondary 0 ∧
      (generate_secondary_output pll_params_vco600 1 "clkout2" 100 45).secondary 2 =
        pll_params_vco600.secondary 2 ∧
      (generate_secondary_output pll_params_vco600 1 "clkout2" 100 45).fvco =
        pll_params_vco600.fvco :=
  ⟨(generate_secondary_output_frame pll_params_vco600 1 "clkout2" 100 45).1 0 (by decide),
    (generate_secondary_output_frame pll_params_vco600 1 "clkout2" 100 45).1 2 (by decide),
    (generate_secondary_output_frame pll_params_vco600 1 "clkout2" 100 45).2.2.2.2.2.2.1⟩

/-! ## Rounding -/

theorem round_even_abs_sub_le (y : ℚ) : |(round_even y : ℚ) - y| ≤ 1 / 2 := by
  have h1 := Int.floor_le y
  have h2 := Int.lt_floor_add_one y
  unfold round_even
  split_ifs with a b c
  · rw [abs_le]; constructor <;> linarith
  · rw [abs_le]; push_cast; constructor <;> linarith
  · rw [abs_le]; constructor <;> linarith
  · rw [abs_le]; push_cast; constructor <;> linarith

theorem round_even_eq_of_abs_lt {y : ℚ} {n : ℤ} (h : |y - (n : ℚ)| < 1 / 2) :
    round_even y = n := by
  have h1 := round_even_abs_sub_le y
  have h2 : |((round_even y - n : ℤ) : ℚ)| < 1 := by
    push_cast
    rw [abs_lt] at h ⊢
    rw [abs_le] at h1
    constructor <;> linarith [h.1, h.2, h1.1, h1.2]
  have h3 : |round_even y - n| < 1 := by exact_mod_cast h2
  have := Int.abs_lt_one_iff.1 h3
  omega

theorem round_even_intCast (n : ℤ) : round_even (n : ℚ) = n :=
  round_even_eq_of_abs_lt (by simp)

theorem round_even_half_odd (n : ℤ) (h : n % 2 = 1) : round_even ((n : ℚ) + 1 / 2) = n + 1 := by
  have hf : ⌊(n : ℚ) + 1 / 2⌋ = n := by
    rw [Int.floor_eq_iff]; constructor <;> linarith
  unfold round_even
  rw [hf]
  have e : (n : ℚ) + 1 / 2 - (n : ℚ) = 1 / 2 := by ring
  rw [e]
  simp [h]

theorem round_even_half_even (n : ℤ) (h : n % 2 = 0) : round_even ((n : ℚ) + 1 / 2) = n := by
  have hf : ⌊(n : ℚ) + 1 / 2⌋ = n := by
    rw [Int.floor_eq_iff]; constructor <;> linarith
  unfold round_even
  rw [hf]
  have e : (n : ℚ) + 1 / 2 - (n : ℚ) = 1 / 2 := by ring
  rw [e]
  simp [h]

theorem two_zpow_pos (z : ℤ) : (0 : ℚ) < 2 ^ z := zpow_pos (by norm_num) z

theorem log_two_eq {x : ℚ} {e : ℤ} (h1 : (2 : ℚ) ^ e ≤ |x|) (h2 : |x| < 2 ^ (e + 1)) :
    Int.log 2 |x| = e := by
  have hpos : 0 < |x| := lt_of_lt_of_le (two_zpow_pos e) h1
  have a : e ≤ Int.log 2 |x| := (Int.zpow_le_iff_le_log (by norm_num) hpos).1 (by exact_mod_cast h1)
  have b : Int.log 2 |x| < e + 1 :=
    (Int.lt_zpow_iff_log_lt (by norm_num) hpos).1 (by exact_mod_cast h2)
  omega

theorem log_two_bounds {x : ℚ} (hx : x ≠ 0) :
    (2 : ℚ) ^ Int.log 2 |x| ≤ |x| ∧ |x| < 2 ^ (Int.log 2 |x| + 1) := by
  have hpos : 0 < |x| := abs_pos.2 hx
  constructor
  · exact_mod_cast @Int.zpow_log_le_self ℚ _ _ 2 |x| (by norm_num) hpos
  · exact_mod_cast @Int.lt_zpow_succ_log_self ℚ _ _ 2 (by norm_num) |x|

theorem round_to_eq (p : ℕ) {x : ℚ} {e : ℤ} (h1 : (2 : ℚ) ^ e ≤ |x|) (h2 : |x| < 2 ^ (e + 1)) :
    round_to p x = (round_even (x / 2 ^ (e - ((p : ℤ) - 1))) : ℚ) * 2 ^ (e - ((p : ℤ) - 1)) := by
  have hx : x ≠ 0 := by
    intro h
    rw [h, abs_zero] at h1
    exact absurd h1 (not_le.2 (two_zpow_pos e))
  unfold round_to
  rw [if_neg hx, log_two_eq h1 h2]

theorem round_to_eq_of_abs_lt (p : ℕ) {x : ℚ} {e : ℤ} {n : ℤ} (h1 : (2 : ℚ) ^ e ≤ |x|)
    (h2 : |x| < 2 ^ (e + 1)) (h : |x / 2 ^ (e - ((p : ℤ) - 1)) - (n : ℚ)| < 1 / 2) :
    round_to p x = (n : ℚ) * 2 ^ (e - ((p : ℤ) - 1)) := by
  rw [round_to_eq p h1 h2, round_even_eq_of_abs_lt h]

/-- Relative error of a rounding to `p` bits: at most `|x| / 2 ^ p`. -/
theorem round_to_abs_sub_le (p : ℕ) (x : ℚ) : |round_to p x - x| ≤ |x| / 2 ^ p := by
  by_cases hx : x = 0
  · simp [round_to, hx]
  obtain ⟨h1, h2⟩ := log_two_bounds hx
  rw [round_to_eq p h1 h2]
  set e := Int.log 2 |x|
  have hq : (0 : ℚ) < 2 ^ (e - ((p : ℤ) - 1)) := two_zpow_pos _
  have hr := round_even_abs_sub_le (x / 2 ^ (e - ((p : ℤ) - 1)))
  have e1 : (round_even (x / 2 ^ (e - ((p : ℤ) - 1))) : ℚ) * 2 ^ (e - ((p : ℤ) - 1)) - x =
      ((round_even (x / 2 ^ (e - ((p : ℤ) - 1))) : ℚ) - x / 2 ^ (e - ((p : ℤ) - 1))) *
        2 ^ (e - ((p : ℤ) - 1)) := by
    field_simp
  rw [e1, abs_mul, abs_of_pos hq]
  have e2 : (2 : ℚ) ^ (e - ((p : ℤ) - 1)) = 2 ^ e / 2 ^ p * 2 := by
    rw [zpow_sub₀ (by norm_num), zpow_sub₀ (by norm_num), zpow_natCast, zpow_one]
    field_simp
  have hp : (0 : ℚ) < 2 ^ p := pow_pos (by norm_num) p
  calc |(round_even (x / 2 ^ (e - ((p : ℤ) - 1))) : ℚ) - x / 2 ^ (e - ((p : ℤ) - 1))| *
        2 ^ (e - ((p : ℤ) - 1))
      ≤ 1 / 2 * 2 ^ (e - ((p : ℤ) - 1)) := mul_le_mul_of_nonneg_right hr hq.le
    _ = 2 ^ e / 2 ^ p := by rw [e2]; ring
    _ ≤ |x| / 2 ^ p := div_le_div_of_nonneg_right h1 hp.le

theorem round_to_eq_zero_iff (p : ℕ) (hp : 1 ≤ p) (x : ℚ) : round_to p x = 0 ↔ x = 0 := by
  constructor
  · intro h
    have hb := round_to_abs_sub_le p x
    rw [h, zero_sub, abs_neg] at hb
    have h2 : (2 : ℚ) ≤ 2 ^ p := by
      calc (2 : ℚ) = 2 ^ 1 := by norm_num
        _ ≤ 2 ^ p := pow_le_pow_right₀ (by norm_num) hp
    have hpos : (0 : ℚ) < 2 ^ p := by linarith
    rw [le_div_iff₀ hpos] at hb
    have : |x| ≤ 0 := by nlinarith [abs_nonneg x]
    exact abs_eq_zero.1 (le_antisymm this (abs_nonneg x))
  · intro h
    simp [round_to, h]

/-- Values `m * 2 ^ k` with `|m| < 2 ^ p` are fixed by the rounding to `p` bits. -/
theorem round_to_exact (p : ℕ) (m k : ℤ) (hm : |m| < 2 ^ p) :
    round_to p ((m : ℚ) * 2 ^ k) = (m : ℚ) * 2 ^ k := by
  by_cases hx : (m : ℚ) * 2 ^ k = 0
  · rw [hx]; simp [round_to]
  obtain ⟨h1, h2⟩ := log_two_bounds hx
  rw [round_to_eq p h1 h2]
  set e := Int.log 2 |(m : ℚ) * 2 ^ k|
  have hmq : |(m : ℚ)| < 2 ^ p := by exact_mod_cast hm
  have habs : |(m : ℚ) * 2 ^ k| = |(m : ℚ)| * 2 ^ k := by
    rw [abs_mul, abs_of_pos (two_zpow_pos k)]
  have hlt : (2 : ℚ) ^ e < 2 ^ ((p : ℤ) + k) := by
    calc (2 : ℚ) ^ e ≤ |(m : ℚ)| * 2 ^ k := by rw [← habs]; exact h1
      _ < 2 ^ p * 2 ^ k := mul_lt_mul_of_pos_right hmq (two_zpow_pos k)
      _ = 2 ^ ((p : ℤ) + k) := by rw [zpow_add₀ (by norm_num), zpow_natCast]
  have hek : e < (p : ℤ) + k := (zpow_lt_zpow_iff_right₀ (by norm_num)).1 hlt
  obtain ⟨j, hj⟩ : ∃ j : ℕ, (j : ℤ) = k - (e - ((p : ℤ) - 1)) :=
    ⟨(k - (e - ((p : ℤ) - 1))).toNat, Int.toNat_of_nonneg (by omega)⟩
  have hk : k = (e - ((p : ℤ) - 1)) + (j : ℤ) := by omega
  have hdiv : (m : ℚ) * 2 ^ k / 2 ^ (e - ((p : ℤ) - 1)) = ((m * 2 ^ j : ℤ) : ℚ) := by
    have hq : (2 : ℚ) ^ (e - ((p : ℤ) - 1)) ≠ 0 := (two_zpow_pos _).ne'
    rw [div_eq_iff hq]
    conv_lhs => rw [hk, zpow_add₀ (by norm_num), zpow_natCast]
    push_cast
    ring
  rw [hdiv, round_even_intCast]
  conv_rhs => rw [hk, zpow_add₀ (by norm_num), zpow_natCast]
  push_cast
  ring

theorem round_to_intCast (p : ℕ) (m : ℤ) (hm : |m| < 2 ^ p) : round_to p (m : ℚ) = m := by
  have := round_to_exact p m 0 hm
  simpa using this

theorem round_to_natCast (p : ℕ) (n : ℕ) (hn : n < 2 ^ p) : round_to p (n : ℚ) = n := by
  have := round_to_intCast p (n : ℤ) (by rw [abs_of_nonneg (by positivity)]; exact_mod_cast hn)
  simpa using this

/-- Every rounded value is `n * 2 ^ q` for an integer `n` with `|n| ≤ 2 ^ p`. -/
theorem round_to_repr (p : ℕ) (x : ℚ) :
    ∃ n q : ℤ, |n| ≤ 2 ^ p ∧ round_to p x = (n : ℚ) * 2 ^ q := by
  by_cases hx : x = 0
  · exact ⟨0, 0, by positivity, by simp [round_to, hx]⟩
  obtain ⟨h1, h2⟩ := log_two_bounds hx
  rw [round_to_eq p h1 h2]
  set e := Int.log 2 |x|
  refine ⟨round_even (x / 2 ^ (e - ((p : ℤ) - 1))), e - ((p : ℤ) - 1), ?_, rfl⟩
  have hq : (0 : ℚ) < 2 ^ (e - ((p : ℤ) - 1)) := two_zpow_pos _
  have hy : |x / 2 ^ (e - ((p : ℤ) - 1))| < 2 ^ p := by
    rw [abs_div, abs_of_pos hq, div_lt_iff₀ hq]
    calc |x| < 2 ^ (e + 1) := h2
      _ = 2 ^ p * 2 ^ (e - ((p : ℤ) - 1)) := by
        rw [← zpow_natCast, ← zpow_add₀ (by norm_num)]
        congr 1
        ring
  have hr := round_even_abs_sub_le (x / 2 ^ (e - ((p : ℤ) - 1)))
  have hlt : |(round_even (x / 2 ^ (e - ((p : ℤ) - 1))) : ℚ)| < 2 ^ p + 1 := by
    rw [abs_lt] at hy ⊢
    rw [abs_le] at hr
    constructor <;> linarith [hy.1, hy.2, hr.1, hr.2]
  have hlt2 : |round_even (x / 2 ^ (e - ((p : ℤ) - 1)))| < 2 ^ p + 1 := by exact_mod_cast hlt
  omega

theorem round_to_exact_le (p : ℕ) (hp : 1 ≤ p) (m k : ℤ) (hm : |m| ≤ 2 ^ p) :
    round_to p ((m : ℚ) * 2 ^ k) = (m : ℚ) * 2 ^ k := by
  rcases lt_or_eq_of_le hm with h | h
  · exact round_to_exact p m k h
  · have h1 : (1 : ℤ) < 2 ^ p := by
      calc (1 : ℤ) < 2 ^ 1 := by norm_num
        _ ≤ 2 ^ p := pow_le_pow_right₀ (by norm_num) hp
    rcases abs_eq (by positivity : (0 : ℤ) ≤ 2 ^ p) |>.1 h with hm2 | hm2
    · have e : (m : ℚ) * 2 ^ k = ((1 : ℤ) : ℚ) * 2 ^ ((p : ℤ) + k) := by
        rw [hm2, zpow_add₀ (by norm_num), zpow_natCast]; push_cast; ring
      rw [e]
      exact round_to_exact p 1 _ (by simpa using h1)
    · have e : (m : ℚ) * 2 ^ k = ((-1 : ℤ) : ℚ) * 2 ^ ((p : ℤ) + k) := by
        rw [hm2, zpow_add₀ (by norm_num), zpow_natCast]; push_cast; ring
      rw [e]
      exact round_to_exact p (-1) _ (by simpa using h1)

/-- Rounding a rounded value changes nothing. -/
theorem round_to_idem (p : ℕ) (hp : 1 ≤ p) (x : ℚ) :
    round_to p (round_to p x) = round_to p x := by
  obtain ⟨n, q, hn, h⟩ := round_to_repr p x
  rw [h]
  exact round_to_exact_le p hp n q hn

/-- A value fixed by the rounding to `p` bits and of magnitude at least `2 ^ k`
is an integer multiple of `2 ^ (k - (p - 1))`. -/
theorem round_to_grid (p : ℕ) {v : ℚ} {k : ℤ} (hv : round_to p v = v) (hk : (2 : ℚ) ^ k ≤ |v|) :
    ∃ n : ℤ, v = (n : ℚ) * 2 ^ (k - ((p : ℤ) - 1)) := by
  have hx : v ≠ 0 := by
    intro h
    rw [h, abs_zero] at hk
    exact absurd hk (not_le.2 (two_zpow_pos k))
  obtain ⟨h1, h2⟩ := log_two_bounds hx
  have hke : k ≤ Int.log 2 |v| := by
    have : (2 : ℚ) ^ k < 2 ^ (Int.log 2 |v| + 1) := lt_of_le_of_lt hk h2
    have := (zpow_lt_zpow_iff_right₀ (by norm_num : (1 : ℚ) < 2)).1 this
    omega
  rw [round_to_eq p h1 h2] at hv
  set e := Int.log 2 |v|
  obtain ⟨j, hj⟩ : ∃ j : ℕ, (j : ℤ) = e - k := ⟨(e - k).toNat, Int.toNat_of_nonneg (by omega)⟩
  refine ⟨round_even (v / 2 ^ (e - ((p : ℤ) - 1))) * 2 ^ j, ?_⟩
  have he : e - ((p : ℤ) - 1) = (k - ((p : ℤ) - 1)) + (j : ℤ) := by omega
  conv_lhs => rw [← hv]
  rw [he, zpow_add₀ (by norm_num), zpow_natCast]
  push_cast
  ring

/-! ## The first strict minimum of a sorted sequence -/

/-- In a sequence sorted by `lt`, a candidate that nothing beats and before
which (in the order `lt`) only strictly worse candidates come is the first strict
minimum. -/
theorem first_min_eq_of_first {α : Type} (good : α → Prop) (err vd : α → ℚ)
    (lt : α → α → Prop) {L : List α} (hs : L.Pairwise lt) {t t0 : α}
    (ht : first_min good err vd L t) (h0 : t0 ∈ L) (hg0 : good t0)
    (hbest : ∀ u ∈ L, good u → ¬ key_lt (err u) (vd u) (err t0) (vd t0))
    (hfirst : ∀ u ∈ L, good u → lt u t0 → key_lt (err t0) (vd t0) (err u) (vd u)) :
    t = t0 := by
  obtain ⟨hmem, hgt⟩ := first_min_mem _ _ _ ht
  obtain ⟨pre, post, hL, -, hpre, hpost⟩ := ht
  have hs2 := hs
  rw [hL, List.pairwise_append] at hs2
  have hafter : ∀ b ∈ post, lt t b := (List.pairwise_cons.1 hs2.2.1).1
  rw [hL] at h0
  rcases List.mem_append.1 h0 with hm | hm
  · exact absurd (hpre t0 hm hg0) (hbest t hmem hgt)
  · rcases List.mem_cons.1 hm with hm | hm
    · exact hm.symm
    · exact absurd (hfirst t hmem hgt (hafter t0 hm)) (hpost t0 hm hg0)

namespace Binary32

/-! ## `calc_pll_params` in binary32: what a run returns -/

theorem b32_nest_eq (input output : ℚ) (l1 l2 l3 : List ℕ) (s0 : search_state) :
    l1.foldl
      (fun (s : search_state) (input_div : ℕ) =>
        let fpfd : ℚ := to_float (input / (input_div : ℚ))
        if fpfd < PFD_MIN ∨ fpfd > PFD_MAX then s
        else
          l2.foldl
            (fun (s : search_state) (feedback_div : ℕ) =>
              l3.foldl
                (fun (s : search_state) (output_div : ℕ) =>
                  calc_pll_params_body fpfd output input_div feedback_div s output_div)
                s)
            s)
      s0 =
    (l1.flatMap fun r => l2.flatMap fun f => l3.map fun o => (r, f, o)).foldl
      (calc_pll_params_visit input output) s0 := by
  rw [foldl_flatMap_eq]
  congr 1
  funext s r
  rw [foldl_flatMap_eq]
  by_cases h : to_float (input / (r : ℚ)) < PFD_MIN ∨ to_float (input / (r : ℚ)) > PFD_MAX
  · simp only [h, if_true]
    symm
    apply foldl_skip
    intro f _
    apply foldl_skip
    intro t ht
    obtain ⟨o, -, rfl⟩ := List.mem_map.1 ht
    simp [calc_pll_params_visit, h]
  · simp only [h, if_false]
    congr 1
    funext s f
    rw [List.foldl_map]
    congr 1
    funext s o
    simp [calc_pll_params_visit, h]

/-- The three nested loops are the left fold of the visits over `pll_triples`. -/
theorem b32_loop_eq (params : pll_params) (input output : ℚ) :
    calc_pll_params_loop params input output =
      pll_triples.foldl (calc_pll_params_visit input output)
        { error := FLT_MAX, params := params } :=
  b32_nest_eq input output _ _ _ _

theorem b32_visit_eq (input output : ℚ) :
    calc_pll_params_visit input output =
      rule_step vco_dist (passes input) (err_of input output) (vdist_of input)
        (calc_pll_params_assign input) := by
  funext s t
  unfold calc_pll_params_visit rule_step calc_pll_params_body passes improves_on vco_dist
  by_cases h1 : to_float (input / (t.1 : ℚ)) < PFD_MIN ∨ to_float (input / (t.1 : ℚ)) > PFD_MAX
  · simp [h1, pfd_of]
  · by_cases h2 :
        to_float (to_float (to_float (input / (t.1 : ℚ)) * (t.2.1 : ℚ)) * (t.2.2 : ℚ)) < VCO_MIN ∨
        to_float (to_float (to_float (input / (t.1 : ℚ)) * (t.2.1 : ℚ)) * (t.2.2 : ℚ)) > VCO_MAX
    · simp [h1, h2, pfd_of, vco_of]
    · simp only [h1, h2, if_false, pfd_of, vco_of, not_false_eq_true, true_and, err_of,
        vdist_of, fout_of, calc_pll_params_assign]

theorem b32_assign_vco_dist (input : ℚ) (p : pll_params) (t : ℕ × ℕ × ℕ) :
    vco_dist (calc_pll_params_assign input p t) = vdist_of input t := rfl

theorem b32_assign_assign (input : ℚ) (p : pll_params) (a b : ℕ × ℕ × ℕ) :
    calc_pll_params_assign input (calc_pll_params_assign input p a) b =
      calc_pll_params_assign input p b := rfl

theorem b32_eq_fold (params : pll_params) (input output : ℚ) :
    calc_pll_params params input output =
      (pll_triples.foldl
        (rule_step vco_dist (passes input) (err_of input output) (vdist_of input)
          (calc_pll_params_assign input))
        { error := FLT_MAX, params := params }).params := by
  unfold calc_pll_params
  rw [b32_loop_eq, b32_visit_eq]

/-- The search selects a triple exactly when some triple in range passes both
range checks and improves on the starting state. -/
theorem b32_selects_iff (params : pll_params) (input output : ℚ) :
    calc_pll_params_selects params input output ↔
      ∃ t, in_range t ∧ passes input t ∧
        improves (err_of input output t) (vdist_of input t)
          { error := FLT_MAX, params := params } := by
  have h := rule_selects_iff vco_dist (passes input) (err_of input output) (vdist_of input)
    (calc_pll_params_assign input) (b32_assign_vco_dist input)
    (b32_assign_assign input) { error := FLT_MAX, params := params } pll_triples
  rw [← b32_visit_eq] at h
  constructor
  · rintro ⟨pre, t, post, hL, hp, hi⟩
    obtain ⟨u, hm, hpu, hiu⟩ := h.1 ⟨pre, t, post, hL, hp, hi⟩
    exact ⟨u, (mem_pll_triples u).1 hm, hpu, hiu⟩
  · rintro ⟨t, hm, hp, hi⟩
    obtain ⟨pre, u, post, hL, hpu, hiu⟩ := h.2 ⟨t, (mem_pll_triples t).2 hm, hp, hi⟩
    exact ⟨pre, u, post, hL, hpu, hiu⟩

/-- Outcome of `calc_pll_params`: either no triple is selected and the record is
returned as it was, or the record holds the first strict minimum. -/
theorem b32_spec (params : pll_params) (input output : ℚ) :
    (¬ calc_pll_params_selects params input output ∧
        calc_pll_params params input output = params) ∨
    (calc_pll_params_selects params input output ∧
      ∃ t, first_min (passes input) (err_of input output) (vdist_of input) pll_triples t ∧
        improves (err_of input output t) (vdist_of input t)
          { error := FLT_MAX, params := params } ∧
        calc_pll_params params input output = calc_pll_params_assign input params t) := by
  rw [b32_eq_fold, b32_selects_iff]
  rcases rule_fold_spec vco_dist (passes input) (err_of input output) (vdist_of input)
      (calc_pll_params_assign input) (b32_assign_vco_dist input)
      (b32_assign_assign input) { error := FLT_MAX, params := params } pll_triples
    with ⟨hs, hno⟩ | ⟨t, ht, himp, hs⟩
  · left
    refine ⟨?_, by rw [hs]⟩
    rintro ⟨t, hm, hp, hi⟩
    exact hno t ((mem_pll_triples t).2 hm) hp hi
  · right
    obtain ⟨hmem, hgt⟩ := first_min_mem _ _ _ ht
    exact ⟨⟨t, (mem_pll_triples t).1 hmem, hgt, himp⟩, t, ht, himp, by rw [hs]⟩

/-- A triple that improves on the starting state, that no triple beats and
before which only strictly worse triples are visited, is the one returned. -/
theorem b32_eq_of_first (params : pll_params) (input output : ℚ)
    (t0 : ℕ × ℕ × ℕ) (h0 : in_range t0) (hp0 : passes input t0)
    (himp : improves (err_of input output t0) (vdist_of input t0)
      { error := FLT_MAX, params := params })
    (hbest : ∀ u, in_range u → passes input u →
      ¬ key_lt (err_of input output u) (vdist_of input u)
        (err_of input output t0) (vdist_of input t0))
    (hfirst : ∀ u, in_range u → passes input u → triple_lt u t0 →
      key_lt (err_of input output t0) (vdist_of input t0)
        (err_of input output u) (vdist_of input u)) :
    calc_pll_params params input output = calc_pll_params_assign input params t0 := by
  rcases b32_spec params input output with ⟨hn, -⟩ | ⟨-, t, ht, -, hs⟩
  · exact absurd ((b32_selects_iff params input output).2 ⟨t0, h0, hp0, himp⟩) hn
  · rw [hs, first_min_eq_of_first _ _ _ triple_lt pll_triples_sorted ht
      ((mem_pll_triples t0).2 h0) hp0
      (fun u hu hpu => hbest u ((mem_pll_triples u).1 hu) hpu)
      (fun u hu hpu hlt => hfirst u ((mem_pll_triples u).1 hu) hpu hlt)]

end Binary32

/-! ## Binary32 rounding of the values met in the searches -/

theorem to_float_natCast (n : ℕ) (hn : n < 2 ^ 24) : to_float (n : ℚ) = n :=
  round_to_natCast 24 n hn

theorem to_float_intCast (m : ℤ) (hm : |m| < 2 ^ 24) : to_float (m : ℚ) = m :=
  round_to_intCast 24 m hm

theorem to_float_zero : to_float 0 = 0 := by simp [to_float, round_to]

theorem to_float_idem (x : ℚ) : to_float (to_float x) = to_float x :=
  round_to_idem 24 (by norm_num) x

theorem to_float_eq_zero_iff (x : ℚ) : to_float x = 0 ↔ x = 0 :=
  round_to_eq_zero_iff 24 (by norm_num) x

theorem to_float_abs_sub_le (x : ℚ) : |to_float x - x| ≤ |x| / 2 ^ 24 :=
  round_to_abs_sub_le 24 x

theorem to_float_le_of_nonneg {x : ℚ} (hx : 0 ≤ x) : to_float x ≤ x * (1 + 1 / 2 ^ 24) := by
  have h := to_float_abs_sub_le x
  rw [abs_of_nonneg hx, abs_le] at h
  linarith [h.2]

theorem to_float_ge_of_nonneg {x : ℚ} (hx : 0 ≤ x) : x * (1 - 1 / 2 ^ 24) ≤ to_float x := by
  have h := to_float_abs_sub_le x
  rw [abs_of_nonneg hx, abs_le] at h
  linarith [h.1]

theorem to_float_nonneg {x : ℚ} (hx : 0 ≤ x) : 0 ≤ to_float x := by
  have h := to_float_ge_of_nonneg hx
  have : (0 : ℚ) ≤ x * (1 - 1 / 2 ^ 24) := mul_nonneg hx (by norm_num)
  linarith

/-- A binary32 value in `[512, 1024)` is an integer multiple of `2 ^ (-14)`. -/
theorem to_float_grid_512 {v : ℚ} (hv : to_float v = v) (h : 512 ≤ v) :
    ∃ n : ℤ, v = (n : ℚ) / 16384 := by
  have hk : (2 : ℚ) ^ (9 : ℤ) ≤ |v| := by
    rw [abs_of_nonneg (by linarith)]
    norm_num
    exact h
  obtain ⟨n, hn⟩ := round_to_grid 24 hv hk
  refine ⟨n, ?_⟩
  rw [hn]
  norm_num
  ring

namespace Binary32

/-! ## Selected records satisfy the checks as computed -/

theorem b32_passes_iff (input : ℚ) (t : ℕ × ℕ × ℕ) :
    passes input t ↔
      ((3125 : ℚ) / 1000 ≤ pfd_of input t ∧ pfd_of input t ≤ 400) ∧
      (400 ≤ vco_of input t ∧ vco_of input t ≤ 800) := by
  unfold passes PFD_MIN PFD_MAX VCO_MIN VCO_MAX
  simp only [not_or, not_lt, gt_iff_lt]

theorem b32_assign_within_bounds (input : ℚ) (p : pll_params) {t : ℕ × ℕ × ℕ}
    (h : in_range t) (hp : passes input t) :
    within_bounds input (calc_pll_params_assign input p t) := by
  obtain ⟨⟨h1, h2⟩, h3, h4⟩ := (b32_passes_iff input t).1 hp
  obtain ⟨r1, r2, f1, f2, o1, o2⟩ := h
  unfold pfd_of at h1 h2
  unfold within_bounds calc_pll_params_assign fout_of vco_of
  unfold vco_of at h3 h4
  simp only [Int.cast_natCast]
  exact ⟨by exact_mod_cast r1, by exact_mod_cast r2, by exact_mod_cast f1,
    by exact_mod_cast f2, by exact_mod_cast o1, by exact_mod_cast o2, h1, h2, h3, h4,
    trivial, trivial⟩

theorem b32_selects_within_bounds (params : pll_params) (input output : ℚ)
    (h : calc_pll_params_selects params input output) :
    within_bounds input (calc_pll_params params input output) := by
  rcases b32_spec params input output with ⟨hn, -⟩ | ⟨-, t, ht, -, hs⟩
  · exact absurd h hn
  · obtain ⟨hmem, hgt⟩ := first_min_mem _ _ _ ht
    rw [hs]
    exact b32_assign_within_bounds input params ((mem_pll_triples t).1 hmem) hgt

theorem b32_vco_of_idem (input : ℚ) (t : ℕ × ℕ × ℕ) :
    to_float (vco_of input t) = vco_of input t := to_float_idem _

/-- A computed output frequency of exactly 400 needs a stored VCO frequency of
400 with `output_div = 1` or of 800 with `output_div = 2`. -/
theorem b32_fout_eq_400 {v : ℚ} {o : ℕ} (hv : to_float v = v) (h1 : 400 ≤ v) (h2 : v ≤ 800)
    (ho : 1 ≤ o) (h : to_float (v / (o : ℚ)) = 400) :
    (v = 400 ∧ o = 1) ∨ (v = 800 ∧ o = 2) := by
  rcases Nat.eq_or_lt_of_le ho with h1o | h2o
  · left
    subst h1o
    rw [Nat.cast_one, div_one, hv] at h
    exact ⟨h, rfl⟩
  · right
    have hoq : (2 : ℚ) ≤ (o : ℚ) := by exact_mod_cast h2o
    have hopos : (0 : ℚ) < (o : ℚ) := by linarith
    have hy : (0 : ℚ) ≤ v / (o : ℚ) := div_nonneg (by linarith) hopos.le
    have hle := to_float_le_of_nonneg hy
    rw [h, div_mul_eq_mul_div, le_div_iff₀ hopos] at hle
    have ho2 : o = 2 := by
      by_contra hne
      have h3 : 3 ≤ o := by omega
      have h3q : (3 : ℚ) ≤ (o : ℚ) := by exact_mod_cast h3
      norm_num at hle
      nlinarith
    subst ho2
    refine ⟨?_, rfl⟩
    obtain ⟨n, hn⟩ := to_float_grid_512 hv (by linarith)
    have hn1 : (n : ℚ) ≤ 13107200 := by
      rw [hn, div_le_iff₀ (by norm_num)] at h2
      linarith
    have hn2 : (13107199 : ℚ) < (n : ℚ) := by
      rw [hn] at hle
      norm_num at hle
      linarith
    have hn1z : n ≤ 13107200 := by exact_mod_cast hn1
    have hn2z : 13107199 < n := by exact_mod_cast hn2
    have : n = 13107200 := by omega
    rw [hn, this]
    norm_num

end Binary32

theorem to_float_of_nat_eq {x : ℚ} (n : ℕ) (hn : n < 2 ^ 24) (h : x = (n : ℚ)) :
    to_float x = x := by
  rw [h]; exact to_float_natCast n hn

theorem to_float_of_int_eq {x : ℚ} (m : ℤ) (hm : |m| < 2 ^ 24) (h : x = (m : ℚ)) :
    to_float x = x := by
  rw [h]; exact to_float_intCast m hm

namespace Binary32

/-! ## The scenario `input = 33.333332`, `output = 400` -/

theorem to_float_input_33 : to_float input_33_333332 = input_33_333332 := by
  have h : input_33_333332 = ((8738133 : ℤ) : ℚ) * 2 ^ (-18 : ℤ) := by
    unfold input_33_333332; norm_num
  rw [h]
  exact round_to_exact 24 8738133 (-18) (by norm_num)

/-- The product `input * 12 = 399.99998...` lies half way between two binary32
values and is rounded to the even one, 400. -/
theorem to_float_input_33_mul_12 : to_float (input_33_333332 * 12) = 400 := by
  have h1 : (2 : ℚ) ^ (8 : ℤ) ≤ |input_33_333332 * 12| := by
    unfold input_33_333332; norm_num [abs_of_pos]
  have h2 : |input_33_333332 * 12| < (2 : ℚ) ^ ((8 : ℤ) + 1) := by
    unfold input_33_333332; norm_num [abs_of_pos]
  unfold to_float
  rw [round_to_eq 24 h1 h2]
  have e : input_33_333332 * 12 / 2 ^ ((8 : ℤ) - (((24 : ℕ) : ℤ) - 1)) =
      ((13107199 : ℤ) : ℚ) + 1 / 2 := by
    unfold input_33_333332; norm_num
  rw [e, round_even_half_odd 13107199 (by norm_num)]
  norm_num

theorem in_range_1_12_1 : in_range (1, 12, 1) := by unfold in_range; simp

theorem pfd_33_1_12_1 : pfd_of input_33_333332 (1, 12, 1) = input_33_333332 := by
  unfold pfd_of
  simp only [Nat.cast_one, div_one]
  exact to_float_input_33

theorem vco_33_1_12_1 : vco_of input_33_333332 (1, 12, 1) = 400 := by
  unfold vco_of
  simp only [Nat.cast_one, div_one, mul_one, Nat.cast_ofNat]
  rw [to_float_input_33, to_float_input_33_mul_12]
  exact to_float_of_nat_eq 400 (by norm_num) (by norm_num)

theorem fout_33_1_12_1 : fout_of input_33_333332 (1, 12, 1) = 400 := by
  unfold fout_of
  rw [vco_33_1_12_1]
  simp only [Nat.cast_one, div_one]
  exact to_float_of_nat_eq 400 (by norm_num) (by norm_num)

theorem passes_33_1_12_1 : passes input_33_333332 (1, 12, 1) := by
  rw [b32_passes_iff, pfd_33_1_12_1, vco_33_1_12_1]
  unfold input_33_333332
  norm_num

theorem err_33_400_1_12_1 : err_of input_33_333332 400 (1, 12, 1) = 0 := by
  unfold err_of
  rw [fout_33_1_12_1, sub_self, to_float_zero, abs_zero]

theorem vdist_of_400 {input : ℚ} {t : ℕ × ℕ × ℕ} (h : vco_of input t = 400) :
    vdist_of input t = 200 := by
  unfold vdist_of
  rw [h, to_float_of_int_eq (-200) (by norm_num) (by norm_num)]
  norm_num [abs_of_neg]

theorem vdist_of_800 {input : ℚ} {t : ℕ × ℕ × ℕ} (h : vco_of input t = 800) :
    vdist_of input t = 200 := by
  unfold vdist_of
  rw [h, to_float_of_int_eq 200 (by norm_num) (by norm_num)]
  norm_num [abs_of_pos]

/-- A passing triple with a computed error of zero against the target 400 has a
stored VCO frequency of 400 (`output_div = 1`) or 800 (`output_div = 2`). -/
theorem zero_error_400 {input : ℚ} {u : ℕ × ℕ × ℕ} (hu : in_range u) (hp : passes input u)
    (he : err_of input 400 u = 0) :
    (vco_of input u = 400 ∧ u.2.2 = 1) ∨ (vco_of input u = 800 ∧ u.2.2 = 2) := by
  obtain ⟨-, h3, h4⟩ := (b32_passes_iff input u).1 hp
  unfold err_of at he
  rw [abs_eq_zero, to_float_eq_zero_iff, sub_eq_zero] at he
  exact b32_fout_eq_400 (b32_vco_of_idem input u) h3 h4 hu.2.2.2.2.1 he

/-- With `input_div = 1` and `feedback_div ≤ 11` the stored VCO frequency stays
below `400 * output_div`. -/
theorem vco_33_lt {u : ℕ × ℕ × ℕ} (hu : in_range u) (hr : u.1 = 1) (hf : u.2.1 ≤ 11) :
    vco_of input_33_333332 u < 400 * (u.2.2 : ℚ) := by
  obtain ⟨-, -, f1, -, o1, -⟩ := in_range_cast hu
  have hfq : (u.2.1 : ℚ) ≤ 11 := by exact_mod_cast hf
  unfold vco_of
  rw [hr, Nat.cast_one, div_one, to_float_input_33]
  have hx : (0 : ℚ) ≤ input_33_333332 * (u.2.1 : ℚ) := by
    unfold input_33_333332; positivity
  have ha := to_float_le_of_nonneg hx
  have ha0 := to_float_nonneg hx
  have ha1 : to_float (input_33_333332 * (u.2.1 : ℚ)) ≤ 367 := by
    have : input_33_333332 * (u.2.1 : ℚ) ≤ 8738133 / 262144 * 11 := by
      unfold input_33_333332
      exact mul_le_mul_of_nonneg_left hfq (by norm_num)
    norm_num at ha this ⊢
    nlinarith
  have hy : (0 : ℚ) ≤ to_float (input_33_333332 * (u.2.1 : ℚ)) * (u.2.2 : ℚ) :=
    mul_nonneg ha0 (by linarith)
  have hb := to_float_le_of_nonneg hy
  norm_num at hb ⊢
  nlinarith

end Binary32

namespace Binary32

theorem b32_calc_33_400 (params : pll_params) :
    calc_pll_params params input_33_333332 400 =
      calc_pll_params_assign input_33_333332 params (1, 12, 1) := by
  apply b32_eq_of_first params input_33_333332 400 (1, 12, 1) in_range_1_12_1 passes_33_1_12_1
  · left
    rw [err_33_400_1_12_1]; unfold FLT_MAX; norm_num
  · intro u hu hpu
    rw [err_33_400_1_12_1, vdist_of_400 vco_33_1_12_1, not_key_lt_iff]
    refine ⟨abs_nonneg _, fun he => ?_⟩
    rcases zero_error_400 hu hpu he with ⟨hv, -⟩ | ⟨hv, -⟩
    · rw [vdist_of_400 hv]
    · rw [vdist_of_800 hv]
  · intro u hu hpu hlt
    rw [err_33_400_1_12_1, vdist_of_400 vco_33_1_12_1]
    left
    refine lt_of_le_of_ne (abs_nonneg _) (Ne.symm ?_)
    intro he
    have hrf : u.1 = 1 ∧ u.2.1 ≤ 11 := by
      unfold triple_lt at hlt
      obtain ⟨r1, -, -, -, o1, -⟩ := hu
      simp only at hlt
      omega
    have hlt2 := vco_33_lt hu hrf.1 hrf.2
    rcases zero_error_400 hu hpu he with ⟨hv, ho⟩ | ⟨hv, ho⟩
    · rw [hv, ho] at hlt2; norm_num at hlt2
    · rw [hv, ho] at hlt2; norm_num at hlt2

theorem selects_33_400 (params : pll_params) :
    calc_pll_params_selects params input_33_333332 400 :=
  (b32_selects_iff params input_33_333332 400).2
    ⟨(1, 12, 1), in_range_1_12_1, passes_33_1_12_1,
      Or.inl (by rw [err_33_400_1_12_1]; unfold FLT_MAX; norm_num)⟩

/-! ## Bounds of a selected triple -/

/-- C1 (amended). Whenever `calc_pll_params` selects a triple, the record it
writes satisfies `1 ≤ refclk_div ≤ 128`, `1 ≤ feedback_div ≤ 80`,
`1 ≤ output_div ≤ 128`, `3.125 ≤ fpfd ≤ 400` and `400 ≤ fvco ≤ 800`, where
`fpfd = fl(input / refclk_div)`, `fvco = fl(fl(fpfd * feedback_div) * output_div)`
and `fout = fl(fvco / output_div)` are the binary32 values the code computes
(`fl` rounding to binary32): the selected triple never violates the PFD or VCO
check as the code evaluates it. -/
theorem calc_pll_params_computed_bounds (params : pll_params) (input output : ℚ)
    (h : calc_pll_params_selects params input output) :
    within_bounds input (calc_pll_params params input output) :=
  b32_selects_within_bounds params input output h

theorem calc_pll_params_computed_bounds_witness :
    calc_pll_params_selects pll_params_init input_33_333332 400 ∧
      within_bounds input_33_333332 (calc_pll_params pll_params_init input_33_333332 400) :=
  ⟨selects_33_400 pll_params_init,
    calc_pll_params_computed_bounds pll_params_init input_33_333332 400
      (selects_33_400 pll_params_init)⟩

/-- C1, as stated, fails. For the binary32 input `8738133 * 2 ^ (-18)` (about
33.333332) and the target 400 the search selects `refclk_div = 1`,
`feedback_div = 12`, `output_div = 1` and stores `fvco = 400`: the product
`input * 12 = 399.99998...` is rounded up to 400 and passes the VCO check, while
the exact `(input / refclk_div) * feedback_div * output_div` is below 400. -/
theorem calc_pll_params_exact_vco_below_400 :
    calc_pll_params_selects pll_params_init input_33_333332 400 ∧
      (calc_pll_params pll_params_init input_33_333332 400).refclk_div = 1 ∧
      (calc_pll_params pll_params_init input_33_333332 400).feedback_div = 12 ∧
      (calc_pll_params pll_params_init input_33_333332 400).output_div = 1 ∧
      (calc_pll_params pll_params_init input_33_333332 400).fvco = 400 ∧
      input_33_333332 / 1 * 12 * 1 < 400 ∧
      ¬ exact_within_bounds input_33_333332
        (calc_pll_params pll_params_init input_33_333332 400) := by
  refine ⟨selects_33_400 pll_params_init, ?_⟩
  rw [b32_calc_33_400]
  refine ⟨rfl, rfl, rfl, vco_33_1_12_1, by unfold input_33_333332; norm_num, ?_⟩
  unfold exact_within_bounds calc_pll_params_assign input_33_333332
  norm_num

end Binary32

/-- Adding less than half a unit in the last place to `FLT_MAX` rounds back to
`FLT_MAX`. -/
theorem to_float_flt_max_add {y : ℚ} (h0 : 0 ≤ y) (h1 : y ≤ 2 ^ 100) :
    to_float (FLT_MAX + y) = FLT_MAX := by
  have hF : FLT_MAX = 340282346638528859811704183484516925440 := rfl
  have hpos : (0 : ℚ) ≤ FLT_MAX + y := by rw [hF]; linarith
  have ha : (2 : ℚ) ^ (127 : ℤ) ≤ |FLT_MAX + y| := by
    rw [abs_of_nonneg hpos, hF]
    norm_num
    linarith
  have hb : |FLT_MAX + y| < (2 : ℚ) ^ ((127 : ℤ) + 1) := by
    rw [abs_of_nonneg hpos, hF]
    norm_num at h1 ⊢
    linarith
  have hc : |(FLT_MAX + y) / 2 ^ ((127 : ℤ) - (((24 : ℕ) : ℤ) - 1)) - ((16777215 : ℤ) : ℚ)|
      < 1 / 2 := by
    rw [hF]
    norm_num at h1 ⊢
    rw [abs_lt]
    constructor <;> linarith
  unfold to_float
  rw [round_to_eq_of_abs_lt 24 ha hb hc, hF]
  norm_num

namespace Binary32

/-! ## The selection rule -/

/-- The computed output frequency of a passing triple lies in `[0, 801]`. -/
theorem b32_fout_bounds (input : ℚ) {t : ℕ × ℕ × ℕ} (h : in_range t) (hp : passes input t) :
    0 ≤ fout_of input t ∧ fout_of input t ≤ 801 := by
  obtain ⟨-, h3, h4⟩ := (b32_passes_iff input t).1 hp
  obtain ⟨-, -, -, -, o1, -⟩ := in_range_cast h
  have hopos : (0 : ℚ) < (t.2.2 : ℚ) := by linarith
  have hq0 : (0 : ℚ) ≤ vco_of input t / (t.2.2 : ℚ) := div_nonneg (by linarith) hopos.le
  have hq1 : vco_of input t / (t.2.2 : ℚ) ≤ 800 := by
    rw [div_le_iff₀ hopos]
    nlinarith
  unfold fout_of
  refine ⟨to_float_nonneg hq0, ?_⟩
  have := to_float_le_of_nonneg hq0
  norm_num at this ⊢
  nlinarith

theorem to_float_400 : to_float 400 = 400 :=
  to_float_of_nat_eq 400 (by norm_num) (by norm_num)

theorem b32_in_range_1_1_1 : in_range (1, 1, 1) := by unfold in_range; simp

theorem b32_vco_400_1_1_1 : vco_of 400 (1, 1, 1) = 400 := by
  unfold vco_of
  simp only [Nat.cast_one, div_one, mul_one]
  rw [to_float_400, to_float_400, to_float_400]

theorem b32_passes_400_1_1_1 : passes 400 (1, 1, 1) := by
  rw [b32_passes_iff, b32_vco_400_1_1_1]
  unfold pfd_of
  simp only [Nat.cast_one, div_one]
  rw [to_float_400]
  norm_num

/-- Against the target `-FLT_MAX` every passing triple has a computed error of
exactly `FLT_MAX`. -/
theorem err_neg_flt_max (input : ℚ) {t : ℕ × ℕ × ℕ} (ht : in_range t) (hp : passes input t) :
    err_of input (-FLT_MAX) t = FLT_MAX := by
  obtain ⟨h0, h1⟩ := b32_fout_bounds input ht hp
  unfold err_of
  rw [sub_neg_eq_add, add_comm, to_float_flt_max_add h0 (by norm_num; linarith)]
  exact abs_of_pos (by unfold FLT_MAX; norm_num)

theorem vco_dist_vco600 : vco_dist pll_params_vco600 = 0 := by
  unfold vco_dist
  have : pll_params_vco600.fvco = 600 := rfl
  rw [this, sub_self, to_float_zero, abs_zero]

theorem untouched_neg_flt_max_vco600 (input : ℚ) :
    ¬ calc_pll_params_selects pll_params_vco600 input (-FLT_MAX) ∧
      calc_pll_params pll_params_vco600 input (-FLT_MAX) = pll_params_vco600 := by
  have hn : ¬ calc_pll_params_selects pll_params_vco600 input (-FLT_MAX) := by
    rw [b32_selects_iff]
    rintro ⟨t, ht, hp, hi⟩
    rw [err_neg_flt_max input ht hp] at hi
    have hd := vco_dist_vco600
    unfold vco_dist at hd
    unfold improves at hi
    simp only [hd] at hi
    rcases hi with hi | ⟨-, hi⟩
    · exact lt_irrefl _ hi
    · exact absurd hi (not_lt.2 (abs_nonneg _))
  rcases b32_spec pll_params_vco600 input (-FLT_MAX) with ⟨-, hs⟩ | ⟨hsel, -⟩
  · exact ⟨hn, hs⟩
  · exact absurd hsel hn

end Binary32

namespace Binary32

/-! ## The scenario `input = 12`, `output = 48` in binary32 -/

end Binary32

namespace Binary32

end Binary32

theorem to_float_abs_le (x : ℚ) : |to_float x| ≤ |x| * (1 + 1 / 2 ^ 24) := by
  have h := to_float_abs_sub_le x
  have h2 : |to_float x| - |x| ≤ |to_float x - x| := abs_sub_abs_le_abs_sub (to_float x) x
  linarith

namespace Binary32

/-! ## Dependence on the starting record -/

/-- Running the search on its own result returns the same record. -/
theorem b32_idem (params : pll_params) (input output : ℚ) :
    calc_pll_params (calc_pll_params params input output) input output =
      calc_pll_params params input output := by
  rcases b32_spec params input output with ⟨-, hs⟩ | ⟨-, t, ht, -, hs⟩
  · rw [hs, hs]
  · rw [hs]
    rcases b32_spec (calc_pll_params_assign input params t) input output with
      ⟨-, hs2⟩ | ⟨-, u, hu, -, hs2⟩
    · exact hs2
    · rw [hs2, first_min_unique _ _ _ hu ht]
      rfl

theorem b32_improves_iff_of_ne {e v : ℚ} (p q : pll_params) (h : e ≠ FLT_MAX) :
    improves e v { error := FLT_MAX, params := p } ↔
      improves e v { error := FLT_MAX, params := q } := by
  unfold improves
  simp only [h, false_and, or_false]

theorem b32_agree (input output : ℚ) (p q : pll_params)
    (h : ∀ t, in_range t → passes input t → err_of input output t ≠ FLT_MAX) :
    (calc_pll_params_selects p input output ∧ calc_pll_params_selects q input output ∧
        same_selection (calc_pll_params p input output) (calc_pll_params q input output)) ∨
    (¬ calc_pll_params_selects p input output ∧ ¬ calc_pll_params_selects q input output ∧
        calc_pll_params p input output = p ∧ calc_pll_params q input output = q) := by
  have hiff : calc_pll_params_selects p input output ↔
      calc_pll_params_selects q input output := by
    rw [b32_selects_iff, b32_selects_iff]
    constructor
    · rintro ⟨t, ht, hp, hi⟩
      exact ⟨t, ht, hp, (b32_improves_iff_of_ne p q (h t ht hp)).1 hi⟩
    · rintro ⟨t, ht, hp, hi⟩
      exact ⟨t, ht, hp, (b32_improves_iff_of_ne p q (h t ht hp)).2 hi⟩
  rcases b32_spec p input output with ⟨hn, hs⟩ | ⟨hsel, t, ht, -, hs⟩
  · right
    have hnq : ¬ calc_pll_params_selects q input output := fun hq => hn (hiff.2 hq)
    rcases b32_spec q input output with ⟨-, hs2⟩ | ⟨hsel2, -⟩
    · exact ⟨hn, hnq, hs, hs2⟩
    · exact absurd hsel2 hnq
  · left
    rcases b32_spec q input output with ⟨hn2, -⟩ | ⟨hsel2, u, hu, -, hs2⟩
    · exact absurd (hiff.1 hsel) hn2
    · refine ⟨hsel, hsel2, ?_⟩
      rw [hs, hs2, first_min_unique _ _ _ hu ht]
      exact ⟨rfl, rfl, rfl, rfl, rfl, rfl⟩

/-- For a target of absolute value at most `3 * 10^38` every passing triple has
a computed output error below `FLT_MAX`. -/
theorem b32_err_lt_flt_max {input output : ℚ} (ho : |output| ≤ 3 * 10 ^ 38)
    {t : ℕ × ℕ × ℕ} (ht : in_range t) (hp : passes input t) :
    err_of input output t < FLT_MAX := by
  obtain ⟨h1, h2⟩ := b32_fout_bounds input ht hp
  have h3 : |fout_of input t - output| ≤ 801 + 3 * 10 ^ 38 := by
    calc |fout_of input t - output| ≤ |fout_of input t| + |output| := abs_sub _ _
      _ ≤ 801 + 3 * 10 ^ 38 := by rw [abs_of_nonneg h1]; linarith
  have h4 := to_float_abs_le (fout_of input t - output)
  unfold err_of FLT_MAX
  norm_num at h3 h4 ⊢
  nlinarith [abs_nonneg (fout_of input t - output)]

theorem b32_err_ne_flt_max_12_48 (t : ℕ × ℕ × ℕ) (ht : in_range t) (hp : passes 12 t) :
    err_of 12 48 t ≠ FLT_MAX :=
  ne_of_lt (b32_err_lt_flt_max (by norm_num [abs_of_pos]) ht hp)

/-- C8 (amended). For input and target frequencies at which no passing triple has
a computed output error exactly equal to `FLT_MAX`, the initial value of `error`,
and for any two starting records: either the search selects a triple in both
runs and writes the same `refclk_div`, `feedback_div`, `output_div`, `fvco`,
`fout` and `primary_cphase` into both, or it selects nothing in either run and
returns both records as they were. For all frequencies, running the search on
its own result returns an identical record. -/
theorem calc_pll_params_selection_independent (input output : ℚ) (p q : pll_params) :
    ((∀ t, in_range t → passes input t → err_of input output t ≠ FLT_MAX) →
      ((calc_pll_params_selects p input output ∧ calc_pll_params_selects q input output ∧
          same_selection (calc_pll_params p input output) (calc_pll_params q input output)) ∨
        (¬ calc_pll_params_selects p input output ∧
          ¬ calc_pll_params_selects q input output ∧
          calc_pll_params p input output = p ∧ calc_pll_params q input output = q))) ∧
    calc_pll_params (calc_pll_params p input output) input output =
      calc_pll_params p input output :=
  ⟨b32_agree input output p q, b32_idem p input output⟩

theorem calc_pll_params_selection_independent_witness :
    (∀ t, in_range t → passes 12 t → err_of 12 48 t ≠ FLT_MAX) ∧
    ((calc_pll_params_selects pll_params_init 12 48 ∧
        calc_pll_params_selects pll_params_vco600 12 48 ∧
        same_selection (calc_pll_params pll_params_init 12 48)
          (calc_pll_params pll_params_vco600 12 48)) ∨
      (¬ calc_pll_params_selects pll_params_init 12 48 ∧
        ¬ calc_pll_params_selects pll_params_vco600 12 48 ∧
        calc_pll_params pll_params_init 12 48 = pll_params_init ∧
        calc_pll_params pll_params_vco600 12 48 = pll_params_vco600)) ∧
    calc_pll_params (calc_pll_params pll_params_init 12 48) 12 48 =
      calc_pll_params pll_params_init 12 48 :=
  ⟨b32_err_ne_flt_max_12_48,
    (calc_pll_params_selection_independent 12 48 pll_params_init pll_params_vco600).1
      b32_err_ne_flt_max_12_48,
    (calc_pll_params_selection_independent 12 48 pll_params_init pll_params_vco600).2⟩

theorem vco_dist_init : vco_dist pll_params_init = 600 := by
  unfold vco_dist
  have : pll_params_init.fvco = 0 := rfl
  rw [this, to_float_of_int_eq (-600) (by norm_num) (by norm_num)]
  norm_num [abs_of_neg]

/-- C8, as stated, fails. For `input = 400` and the binary32 target `-FLT_MAX`
every passing triple has a computed output error equal to `FLT_MAX`, the initial
value of `error`, so the replacement test falls through to the comparison with
the `fvco` found in the record. Started on the constructor's record (`fvco = 0`)
the search selects a triple and returns `refclk_div ≥ 1`; started on a record
whose `fvco` is 600 it selects nothing and returns `refclk_div = 0`. -/
theorem calc_pll_params_depends_on_stale_fvco :
    (∃ t, in_range t ∧ passes 400 t) ∧
      calc_pll_params_selects pll_params_init 400 (-FLT_MAX) ∧
      ¬ calc_pll_params_selects pll_params_vco600 400 (-FLT_MAX) ∧
      (calc_pll_params pll_params_init 400 (-FLT_MAX)).refclk_div ≠
        (calc_pll_params pll_params_vco600 400 (-FLT_MAX)).refclk_div := by
  have hsel : calc_pll_params_selects pll_params_init 400 (-FLT_MAX) := by
    rw [b32_selects_iff]
    refine ⟨(1, 1, 1), b32_in_range_1_1_1, b32_passes_400_1_1_1, Or.inr ⟨?_, ?_⟩⟩
    · exact err_neg_flt_max 400 b32_in_range_1_1_1 b32_passes_400_1_1_1
    · have hd := vco_dist_init
      unfold vco_dist at hd
      rw [vdist_of_400 b32_vco_400_1_1_1]
      simp only [hd]
      norm_num
  refine ⟨⟨(1, 1, 1), b32_in_range_1_1_1, b32_passes_400_1_1_1⟩, hsel,
    (untouched_neg_flt_max_vco600 400).1, ?_⟩
  rw [(untouched_neg_flt_max_vco600 400).2]
  have hb := (b32_selects_within_bounds pll_params_init 400 _ hsel).1
  have h0 : pll_params_vco600.refclk_div = 0 := rfl
  rw [h0]
  omega

end Binary32

/-! ## The visiting order of the highres search -/

theorem quads_sorted (l1 l2 l3 l4 : List ℕ) (h1 : l1.Pairwise (fun a b => a < b))
    (h2 : l2.Pairwise (fun a b => a < b)) (h3 : l3.Pairwise (fun a b => a < b))
    (h4 : l4.Pairwise (fun a b => a < b)) :
    (l1.flatMap fun r => l2.flatMap fun f => l3.flatMap fun o =>
      l4.map fun d => (r, f, o, d)).Pairwise quad_lt := by
  rw [List.pairwise_flatMap]
  refine ⟨fun r _ => ?_, h1.imp ?_⟩
  · rw [List.pairwise_flatMap]
    refine ⟨fun f _ => ?_, h2.imp ?_⟩
    · rw [List.pairwise_flatMap]
      refine ⟨fun o _ => ?_, h3.imp ?_⟩
      · rw [List.pairwise_map]
        exact h4.imp fun h => Or.inr ⟨rfl, Or.inr ⟨rfl, Or.inr ⟨rfl, h⟩⟩⟩
      · intro o o2 hoo x hx y hy
        obtain ⟨d, -, rfl⟩ := List.mem_map.1 hx
        obtain ⟨d2, -, rfl⟩ := List.mem_map.1 hy
        exact Or.inr ⟨rfl, Or.inr ⟨rfl, Or.inl hoo⟩⟩
    · intro f f2 hff x hx y hy
      obtain ⟨o, -, hx⟩ := List.mem_flatMap.1 hx
      obtain ⟨o2, -, hy⟩ := List.mem_flatMap.1 hy
      obtain ⟨d, -, rfl⟩ := List.mem_map.1 hx
      obtain ⟨d2, -, rfl⟩ := List.mem_map.1 hy
      exact Or.inr ⟨rfl, Or.inl hff⟩
  · intro r r2 hrr x hx y hy
    obtain ⟨f, -, hx⟩ := List.mem_flatMap.1 hx
    obtain ⟨f2, -, hy⟩ := List.mem_flatMap.1 hy
    obtain ⟨o, -, hx⟩ := List.mem_flatMap.1 hx
    obtain ⟨o2, -, hy⟩ := List.mem_flatMap.1 hy
    obtain ⟨d, -, rfl⟩ := List.mem_map.1 hx
    obtain ⟨d2, -, rfl⟩ := List.mem_map.1 hy
    exact Or.inl hrr

theorem pll_quads_sorted : pll_quads.Pairwise quad_lt :=
  quads_sorted _ _ _ _ (List.pairwise_lt_range' 1 128) (List.pairwise_lt_range' 1 80)
    (List.pairwise_lt_range' 1 128) (List.pairwise_lt_range' 1 128)

theorem quads_mem (l1 l2 l3 l4 : List ℕ) (q : ℕ × ℕ × ℕ × ℕ) :
    q ∈ (l1.flatMap fun r => l2.flatMap fun f => l3.flatMap fun o =>
        l4.map fun d => (r, f, o, d)) ↔
      q.1 ∈ l1 ∧ q.2.1 ∈ l2 ∧ q.2.2.1 ∈ l3 ∧ q.2.2.2 ∈ l4 := by
  obtain ⟨r, f, o, d⟩ := q
  simp only [List.mem_flatMap, List.mem_map, Prod.mk.injEq]
  constructor
  · rintro ⟨r2, hr, f2, hf, o2, ho, d2, hd, rfl, rfl, rfl, rfl⟩
    exact ⟨hr, hf, ho, hd⟩
  · rintro ⟨hr, hf, ho, hd⟩
    exact ⟨r, hr, f, hf, o, ho, d, hd, rfl, rfl, rfl, rfl⟩

theorem mem_pll_quads (q : ℕ × ℕ × ℕ × ℕ) : q ∈ pll_quads ↔ quad_in_range q := by
  unfold pll_quads quad_in_range
  rw [quads_mem, List.mem_range'_1, List.mem_range'_1, List.mem_range'_1,
    List.mem_range'_1]
  omega

namespace Binary32

/-! ## `calc_pll_params_highres` in binary32: what a run returns -/

theorem b32_highres_nest_eq (input output : ℚ) (l1 l2 l3 l4 : List ℕ)
    (s0 : search_state) :
    l1.foldl
      (fun (s : search_state) (input_div : ℕ) =>
        let fpfd : ℚ := to_float (input / (input_div : ℚ))
        if fpfd < PFD_MIN ∨ fpfd > PFD_MAX then s
        else
          l2.foldl
            (fun (s : search_state) (feedback_div : ℕ) =>
              l3.foldl
                (fun (s : search_state) (output_div : ℕ) =>
                  let fvco : ℚ :=
                    to_float (to_float (fpfd * (feedback_div : ℚ)) * (output_div : ℚ))
                  if fvco < VCO_MIN ∨ fvco > VCO_MAX then s
                  else
                    let ffeedback : ℚ := to_float (fvco / (output_div : ℚ))
                    if ffeedback < OUTPUT_MIN ∨ ffeedback > OUTPUT_MAX then s
                    else
                      l4.foldl
                        (fun (s : search_state) (secondary_div : ℕ) =>
                          calc_pll_params_highres_body fvco output input_div feedback_div
                            output_div s secondary_div)
                        s)
                s)
            s)
      s0 =
    (l1.flatMap fun r => l2.flatMap fun f => l3.flatMap fun o =>
        l4.map fun d => (r, f, o, d)).foldl
      (calc_pll_params_highres_visit input output) s0 := by
  rw [foldl_flatMap_eq]
  congr 1
  funext s r
  rw [foldl_flatMap_eq]
  by_cases h : to_float (input / (r : ℚ)) < PFD_MIN ∨ to_float (input / (r : ℚ)) > PFD_MAX
  · simp only [h, if_true]
    symm
    apply foldl_skip
    intro f _
    apply foldl_skip
    intro q hq
    obtain ⟨o, -, hq⟩ := List.mem_flatMap.1 hq
    obtain ⟨d, -, rfl⟩ := List.mem_map.1 hq
    simp [calc_pll_params_highres_visit, h]
  · simp only [h, if_false]
    congr 1
    funext s f
    rw [foldl_flatMap_eq]
    congr 1
    funext s o
    by_cases h2 : to_float (to_float (to_float (input / (r : ℚ)) * (f : ℚ)) * (o : ℚ)) < VCO_MIN ∨
        to_float (to_float (to_float (input / (r : ℚ)) * (f : ℚ)) * (o : ℚ)) > VCO_MAX
    · simp only [h2, if_true]
      symm
      apply foldl_skip
      intro q hq
      obtain ⟨d, -, rfl⟩ := List.mem_map.1 hq
      simp [calc_pll_params_highres_visit, h, h2]
    · simp only [h2, if_false]
      by_cases h3 :
          to_float (to_float (to_float (to_float (input / (r : ℚ)) * (f : ℚ)) * (o : ℚ)) /
            (o : ℚ)) < OUTPUT_MIN ∨
          to_float (to_float (to_float (to_float (input / (r : ℚ)) * (f : ℚ)) * (o : ℚ)) /
            (o : ℚ)) > OUTPUT_MAX
      · simp only [h3, if_true]
        symm
        apply foldl_skip
        intro q hq
        obtain ⟨d, -, rfl⟩ := List.mem_map.1 hq
        simp [calc_pll_params_highres_visit, h, h2, h3]
      · simp only [h3, if_false]
        rw [List.foldl_map]
        congr 1
        funext s d
        simp [calc_pll_params_highres_visit, h, h2, h3]

theorem b32_highres_loop_eq (params : pll_params) (input output : ℚ) :
    calc_pll_params_highres_loop params input output =
      pll_quads.foldl (calc_pll_params_highres_visit input output)
        { error := FLT_MAX, params := params } :=
  b32_highres_nest_eq input output _ _ _ _ _

theorem b32_highres_visit_eq (input output : ℚ) :
    calc_pll_params_highres_visit input output =
      rule_step vco_dist (highres_passes input) (highres_err input output) (highres_vdist input)
        (calc_pll_params_highres_assign input) := by
  funext s q
  unfold calc_pll_params_highres_visit rule_step calc_pll_params_highres_body highres_passes
    improves_on vco_dist
  by_cases h1 : to_float (input / (q.1 : ℚ)) < PFD_MIN ∨ to_float (input / (q.1 : ℚ)) > PFD_MAX
  · simp [h1]
  · by_cases h2 :
        to_float (to_float (to_float (input / (q.1 : ℚ)) * (q.2.1 : ℚ)) * (q.2.2.1 : ℚ)) < VCO_MIN ∨
        to_float (to_float (to_float (input / (q.1 : ℚ)) * (q.2.1 : ℚ)) * (q.2.2.1 : ℚ)) > VCO_MAX
    · simp [h1, h2, highres_vco]
    · by_cases h3 :
          to_float (to_float (to_float (to_float (input / (q.1 : ℚ)) * (q.2.1 : ℚ)) *
            (q.2.2.1 : ℚ)) / (q.2.2.1 : ℚ)) < OUTPUT_MIN ∨
          to_float (to_float (to_float (to_float (input / (q.1 : ℚ)) * (q.2.1 : ℚ)) *
            (q.2.2.1 : ℚ)) / (q.2.2.1 : ℚ)) > OUTPUT_MAX
      · simp [h1, h2, h3, highres_vco]
      · simp only [h1, h2, h3, if_false, highres_vco, not_false_eq_true, true_and,
          highres_err, highres_vdist, calc_pll_params_highres_assign]

theorem b32_highres_assign_vco_dist (input : ℚ) (p : pll_params) (q : ℕ × ℕ × ℕ × ℕ) :
    vco_dist (calc_pll_params_highres_assign input p q) = highres_vdist input q := rfl

theorem b32_highres_assign_assign (input : ℚ) (p : pll_params) (a b : ℕ × ℕ × ℕ × ℕ) :
    calc_pll_params_highres_assign input (calc_pll_params_highres_assign input p a) b =
      calc_pll_params_highres_assign input p b := by
  unfold calc_pll_params_highres_assign
  simp only [Function.update_idem, Function.update_same]

theorem b32_highres_eq_fold (params : pll_params) (input output : ℚ) :
    calc_pll_params_highres params input output =
      (pll_quads.foldl
        (rule_step vco_dist (highres_passes input) (highres_err input output)
          (highres_vdist input) (calc_pll_params_highres_assign input))
        { error := FLT_MAX, params := params }).params := by
  unfold calc_pll_params_highres
  rw [b32_highres_loop_eq, b32_highres_visit_eq]

/-- The highres search selects a configuration exactly when some quadruple in
range passes the three range checks and improves on the starting state. -/
theorem b32_highres_selects_iff (params : pll_params) (input output : ℚ) :
    calc_pll_params_highres_selects params input output ↔
      ∃ q, quad_in_range q ∧ highres_passes input q ∧
        improves (highres_err input output q) (highres_vdist input q)
          { error := FLT_MAX, params := params } := by
  have h := rule_selects_iff vco_dist (highres_passes input) (highres_err input output)
    (highres_vdist input) (calc_pll_params_highres_assign input)
    (b32_highres_assign_vco_dist input) (b32_highres_assign_assign input)
    { error := FLT_MAX, params := params } pll_quads
  rw [← b32_highres_visit_eq] at h
  constructor
  · rintro ⟨pre, t, post, hL, hp, hi⟩
    obtain ⟨u, hm, hpu, hiu⟩ := h.1 ⟨pre, t, post, hL, hp, hi⟩
    exact ⟨u, (mem_pll_quads u).1 hm, hpu, hiu⟩
  · rintro ⟨t, hm, hp, hi⟩
    obtain ⟨pre, u, post, hL, hpu, hiu⟩ := h.2 ⟨t, (mem_pll_quads t).2 hm, hp, hi⟩
    exact ⟨pre, u, post, hL, hpu, hiu⟩

/-- Outcome of `calc_pll_params_highres`: either nothing is selected and the
record is returned as it was, or the record holds the first strict minimum. -/
theorem b32_highres_spec (params : pll_params) (input output : ℚ) :
    (¬ calc_pll_params_highres_selects params input output ∧
        calc_pll_params_highres params input output = params) ∨
    (calc_pll_params_highres_selects params input output ∧
      ∃ q, first_min (highres_passes input) (highres_err input output) (highres_vdist input)
          pll_quads q ∧
        calc_pll_params_highres params input output =
          calc_pll_params_highres_assign input params q) := by
  rw [b32_highres_eq_fold, b32_highres_selects_iff]
  rcases rule_fold_spec vco_dist (highres_passes input) (highres_err input output)
      (highres_vdist input) (calc_pll_params_highres_assign input)
      (b32_highres_assign_vco_dist input) (b32_highres_assign_assign input)
      { error := FLT_MAX, params := params } pll_quads
    with ⟨hs, hno⟩ | ⟨q, hq, himp, hs⟩
  · left
    refine ⟨?_, by rw [hs]⟩
    rintro ⟨q, hm, hp, hi⟩
    exact hno q ((mem_pll_quads q).2 hm) hp hi
  · right
    obtain ⟨hmem, hgq⟩ := first_min_mem _ _ _ hq
    exact ⟨⟨q, (mem_pll_quads q).1 hmem, hgq, himp⟩, q, hq, by rw [hs]⟩

theorem b32_highres_passes_iff (input : ℚ) (q : ℕ × ℕ × ℕ × ℕ) :
    highres_passes input q ↔
      ((3125 : ℚ) / 1000 ≤ to_float (input / (q.1 : ℚ)) ∧
        to_float (input / (q.1 : ℚ)) ≤ 400) ∧
      (400 ≤ highres_vco input q ∧ highres_vco input q ≤ 800) ∧
      (10 ≤ to_float (highres_vco input q / (q.2.2.1 : ℚ)) ∧
        to_float (highres_vco input q / (q.2.2.1 : ℚ)) ≤ 400) := by
  unfold highres_passes PFD_MIN PFD_MAX VCO_MIN VCO_MAX OUTPUT_MIN OUTPUT_MAX
  simp only [not_or, not_lt, gt_iff_lt]

theorem b32_highres_assign_within_bounds (input : ℚ) (p : pll_params) {q : ℕ × ℕ × ℕ × ℕ}
    (h : quad_in_range q) (hp : highres_passes input q) :
    highres_within_bounds input (calc_pll_params_highres_assign input p q) := by
  obtain ⟨⟨h1, h2⟩, ⟨h3, h4⟩, h5, h6⟩ := (b32_highres_passes_iff input q).1 hp
  obtain ⟨r1, r2, f1, f2, o1, o2, d1, d2⟩ := h
  unfold highres_within_bounds calc_pll_params_highres_assign
  simp only [Int.cast_natCast, Function.update_same]
  exact ⟨by exact_mod_cast r1, by exact_mod_cast r2, by exact_mod_cast f1,
    by exact_mod_cast f2, by exact_mod_cast o1, by exact_mod_cast o2, h1, h2, rfl, h3, h4,
    h5, h6, by exact_mod_cast d1, by exact_mod_cast d2, trivial, trivial, trivial, trivial⟩

end Binary32

namespace Binary32

/-! ## Bounds of a selected highres configuration -/

theorem b32_highres_selects_within_bounds (params : pll_params) (input output : ℚ)
    (h : calc_pll_params_highres_selects params input output) :
    highres_within_bounds input (calc_pll_params_highres params input output) := by
  rcases b32_highres_spec params input output with ⟨hn, -⟩ | ⟨-, q, hq, hs⟩
  · exact absurd h hn
  · obtain ⟨hmem, hgq⟩ := first_min_mem _ _ _ hq
    rw [hs]
    exact b32_highres_assign_within_bounds input params ((mem_pll_quads q).1 hmem) hgq

theorem quad_in_range_1_1_12_1 : quad_in_range (1, 1, 12, 1) := by
  unfold quad_in_range; simp

theorem highres_vco_33 : highres_vco input_33_333332 (1, 1, 12, 1) = 400 := by
  unfold highres_vco
  simp only [Nat.cast_one, div_one, mul_one, Nat.cast_ofNat]
  rw [to_float_input_33, to_float_input_33, to_float_input_33_mul_12]

theorem highres_passes_33 : highres_passes input_33_333332 (1, 1, 12, 1) := by
  rw [b32_highres_passes_iff, highres_vco_33]
  simp only [Nat.cast_one, div_one, Nat.cast_ofNat]
  rw [to_float_input_33]
  have hq : (0 : ℚ) ≤ 400 / 12 := by norm_num
  have h1 := to_float_le_of_nonneg hq
  have h2 := to_float_ge_of_nonneg hq
  norm_num at h1 h2
  unfold input_33_333332
  refine ⟨by norm_num, by norm_num, ?_, ?_⟩ <;> linarith

theorem highres_err_33 : highres_err input_33_333332 400 (1, 1, 12, 1) = 0 := by
  unfold highres_err
  rw [highres_vco_33]
  simp only [Nat.cast_one, div_one]
  rw [to_float_400, sub_self, to_float_zero, abs_zero]

theorem highres_vdist_of_400 {input : ℚ} {q : ℕ × ℕ × ℕ × ℕ} (h : highres_vco input q = 400) :
    highres_vdist input q = 200 := by
  unfold highres_vdist
  rw [h, to_float_of_int_eq (-200) (by norm_num) (by norm_num)]
  norm_num [abs_of_neg]

theorem highres_vdist_of_800 {input : ℚ} {q : ℕ × ℕ × ℕ × ℕ} (h : highres_vco input q = 800) :
    highres_vdist input q = 200 := by
  unfold highres_vdist
  rw [h, to_float_of_int_eq 200 (by norm_num) (by norm_num)]
  norm_num [abs_of_pos]

theorem highres_zero_error_400 {input : ℚ} {u : ℕ × ℕ × ℕ × ℕ} (hu : quad_in_range u)
    (hp : highres_passes input u) (he : highres_err input 400 u = 0) :
    highres_vdist input u = 200 := by
  obtain ⟨-, ⟨h3, h4⟩, -⟩ := (b32_highres_passes_iff input u).1 hp
  unfold highres_err at he
  rw [abs_eq_zero, to_float_eq_zero_iff, sub_eq_zero] at he
  have hidem : to_float (highres_vco input u) = highres_vco input u := to_float_idem _
  rcases b32_fout_eq_400 hidem h3 h4 hu.2.2.2.2.2.2.1 he with ⟨hv, -⟩ | ⟨hv, -⟩
  · exact highres_vdist_of_400 hv
  · exact highres_vdist_of_800 hv

/-- With `input_div = 1`, `feedback_div = 1` and `output_div ≤ 11` the stored VCO
frequency stays below 400. -/
theorem highres_vco_33_lt {u : ℕ × ℕ × ℕ × ℕ} (hu : quad_in_range u) (hr : u.1 = 1)
    (hf : u.2.1 = 1) (ho : u.2.2.1 ≤ 11) : highres_vco input_33_333332 u < 400 := by
  have o1 : (1 : ℚ) ≤ (u.2.2.1 : ℚ) := by exact_mod_cast hu.2.2.2.2.1
  have hoq : (u.2.2.1 : ℚ) ≤ 11 := by exact_mod_cast ho
  unfold highres_vco
  rw [hr, hf, Nat.cast_one, div_one, mul_one, to_float_input_33, to_float_input_33]
  have hy : (0 : ℚ) ≤ input_33_333332 * (u.2.2.1 : ℚ) := by
    unfold input_33_333332; positivity
  have hb := to_float_le_of_nonneg hy
  have : input_33_333332 * (u.2.2.1 : ℚ) ≤ 8738133 / 262144 * 11 := by
    unfold input_33_333332
    exact mul_le_mul_of_nonneg_left hoq (by norm_num)
  norm_num at hb this ⊢
  nlinarith

theorem b32_highres_calc_33_400 (params : pll_params) :
    calc_pll_params_highres params input_33_333332 400 =
      calc_pll_params_highres_assign input_33_333332 params (1, 1, 12, 1) := by
  have himp : improves (highres_err input_33_333332 400 (1, 1, 12, 1))
      (highres_vdist input_33_333332 (1, 1, 12, 1))
      { error := FLT_MAX, params := params } := by
    left
    rw [highres_err_33]; unfold FLT_MAX; norm_num
  rcases b32_highres_spec params input_33_333332 400 with ⟨hn, -⟩ | ⟨-, t, ht, hs⟩
  · exact absurd ((b32_highres_selects_iff params input_33_333332 400).2
      ⟨(1, 1, 12, 1), quad_in_range_1_1_12_1, highres_passes_33, himp⟩) hn
  · rw [hs, first_min_eq_of_first _ _ _ quad_lt pll_quads_sorted ht
      ((mem_pll_quads (1, 1, 12, 1)).2 quad_in_range_1_1_12_1) highres_passes_33]
    · intro u hu hpu
      rw [highres_err_33, highres_vdist_of_400 highres_vco_33, not_key_lt_iff]
      refine ⟨abs_nonneg _, fun he => ?_⟩
      rw [highres_zero_error_400 ((mem_pll_quads u).1 hu) hpu he]
    · intro u hu hpu hlt
      exfalso
      have hur := (mem_pll_quads u).1 hu
      have hcase : u.1 = 1 ∧ u.2.1 = 1 ∧ u.2.2.1 ≤ 11 := by
        unfold quad_lt at hlt
        obtain ⟨r1, -, f1, -, o1, -, d1, -⟩ := hur
        simp only at hlt
        omega
      obtain ⟨-, ⟨h3, -⟩, -⟩ := (b32_highres_passes_iff input_33_333332 u).1 hpu
      have := highres_vco_33_lt hur hcase.1 hcase.2.1 hcase.2.2
      linarith

theorem highres_selects_33_400 (params : pll_params) :
    calc_pll_params_highres_selects params input_33_333332 400 :=
  (b32_highres_selects_iff params input_33_333332 400).2
    ⟨(1, 1, 12, 1), quad_in_range_1_1_12_1, highres_passes_33,
      Or.inl (by rw [highres_err_33]; unfold FLT_MAX; norm_num)⟩

/-- C7 (amended). Whenever `calc_pll_params_highres` selects a configuration, the
selected `(refclk_div, feedback_div, output_div, secondary[0].div)` satisfies
`3.125 ≤ fpfd ≤ 400`, `400 ≤ fvco ≤ 800` and `10 ≤ fl(fvco / output_div) ≤ 400`,
where `fpfd = fl(input / refclk_div)` and
`fvco = fl(fl(fpfd * feedback_div) * output_div)` are the binary32 values the code
computes (`fl` rounding to binary32), with `secondary[0].div` in `1..128`,
`fout = secondary[0].freq = fl(fvco / secondary[0].div)`, `mode = HIGHRES` and
`secondary[0].enabled = true`. -/
theorem calc_pll_params_highres_computed_bounds (params : pll_params) (input output : ℚ)
    (h : calc_pll_params_highres_selects params input output) :
    highres_within_bounds input (calc_pll_params_highres params input output) :=
  b32_highres_selects_within_bounds params input output h

theorem calc_pll_params_highres_computed_bounds_witness :
    calc_pll_params_highres_selects pll_params_init input_33_333332 400 ∧
      highres_within_bounds input_33_333332
        (calc_pll_params_highres pll_params_init input_33_333332 400) :=
  ⟨highres_selects_33_400 pll_params_init,
    calc_pll_params_highres_computed_bounds pll_params_init input_33_333332 400
      (highres_selects_33_400 pll_params_init)⟩

/-- C7, as stated, fails. For the binary32 input `8738133 * 2 ^ (-18)` (about
33.333332) and the target 400 the highres search selects `refclk_div = 1`,
`feedback_div = 1`, `output_div = 12`, `secondary[0].div = 1` and stores
`fvco = 400`: the product `input * 12 = 399.99998...` is rounded up to 400 and
passes the VCO check, while the exact
`(input / refclk_div) * feedback_div * output_div` is below 400. -/
theorem calc_pll_params_highres_exact_vco_below_400 :
    calc_pll_params_highres_selects pll_params_init input_33_333332 400 ∧
      (calc_pll_params_highres pll_params_init input_33_333332 400).refclk_div = 1 ∧
      (calc_pll_params_highres pll_params_init input_33_333332 400).feedback_div = 1 ∧
      (calc_pll_params_highres pll_params_init input_33_333332 400).output_div = 12 ∧
      ((calc_pll_params_highres pll_params_init input_33_333332 400).secondary 0).div = 1 ∧
      (calc_pll_params_highres pll_params_init input_33_333332 400).fvco = 400 ∧
      input_33_333332 / 1 * 1 * 12 < 400 ∧
      ¬ exact_highres_within_bounds input_33_333332
        (calc_pll_params_highres pll_params_init input_33_333332 400) := by
  refine ⟨highres_selects_33_400 pll_params_init, ?_⟩
  rw [b32_highres_calc_33_400]
  refine ⟨rfl, rfl, rfl, ?_, highres_vco_33, by unfold input_33_333332; norm_num, ?_⟩
  · unfold calc_pll_params_highres_assign
    simp only [Function.update_same]
    rfl
  · unfold exact_highres_within_bounds calc_pll_params_highres_assign input_33_333332
    norm_num

/-! ## `generate_secondary_output` in the arithmetic of the source -/

theorem to_float_checked_eq {x y : ℚ} (h : to_float x = y) (h0 : (1 : ℚ) / 2 ^ 126 ≤ |x|)
    (h1 : |y| ≤ FLT_MAX) : to_float_checked x = some y := by
  have hx : x ≠ 0 := by
    intro e
    rw [e, abs_zero] at h0
    have : (0 : ℚ) < 1 / 2 ^ 126 := by positivity
    linarith
  unfold to_float_checked
  rw [if_neg hx, h, if_pos ⟨h0, h1⟩]

theorem to_double_checked_eq {x y : ℚ} (h : to_double x = y) (h0 : (1 : ℚ) / 2 ^ 1022 ≤ |x|)
    (h1 : |y| ≤ DBL_MAX) : to_double_checked x = some y := by
  have hx : x ≠ 0 := by
    intro e
    rw [e, abs_zero] at h0
    have : (0 : ℚ) < 1 / 2 ^ 1022 := by positivity
    linarith
  unfold to_double_checked
  rw [if_neg hx, h, if_pos ⟨h0, h1⟩]

theorem to_float_checked_nat (n : ℕ) (h0 : 0 < n) (hn : n < 2 ^ 24) :
    to_float_checked (n : ℚ) = some (n : ℚ) := by
  have h1 : (1 : ℚ) ≤ n := by exact_mod_cast h0
  have h2 : (n : ℚ) < 2 ^ 24 := by exact_mod_cast hn
  have h3 : |(n : ℚ)| = n := abs_of_nonneg (by positivity)
  refine to_float_checked_eq (to_float_natCast n hn) ?_ ?_
  · rw [h3]
    have : (1 : ℚ) / 2 ^ 126 ≤ 1 := by norm_num
    linarith
  · rw [h3]
    have : (2 : ℚ) ^ 24 ≤ FLT_MAX := by norm_num [FLT_MAX]
    linarith

theorem to_double_checked_nat (n : ℕ) (h0 : 0 < n) (hn : n < 2 ^ 53) :
    to_double_checked (n : ℚ) = some (n : ℚ) := by
  have h1 : (1 : ℚ) ≤ n := by exact_mod_cast h0
  have h2 : (n : ℚ) < 2 ^ 53 := by exact_mod_cast hn
  have h3 : |(n : ℚ)| = n := abs_of_nonneg (by positivity)
  refine to_double_checked_eq (round_to_natCast 53 n hn) ?_ ?_
  · rw [h3]
    have : (1 : ℚ) / 2 ^ 1022 ≤ 1 := by
      rw [div_le_one (by positivity)]
      exact one_le_pow₀ (by norm_num)
    linarith
  · rw [h3]
    have : (2 : ℚ) ^ 53 ≤ DBL_MAX := by norm_num [DBL_MAX]
    linarith

theorem to_double_checked_zero : to_double_checked 0 = some 0 := by
  simp [to_double_checked]


theorem float_to_int32_of_floor {x : ℚ} (z : ℤ) (h0 : 0 ≤ x) (h1 : (z : ℚ) ≤ x)
    (h2 : x < (z : ℚ) + 1) (hz : -2147483648 ≤ z ∧ z ≤ 2147483647) :
    float_to_int32 x = some z := by
  have h : float_to_int x = z := by
    rw [float_to_int_of_nonneg h0, Int.floor_eq_iff]; exact ⟨h1, h2⟩
  unfold float_to_int32 int32_checked
  rw [h, if_pos hz]

theorem div_checked_of_ne {a b : ℚ} (h : b ≠ 0) : div_checked a b = some (a / b) := by
  unfold div_checked; rw [if_neg h]

theorem bind_eq_of_some {α β : Type} {a : Option α} {v : α} {f : α → Option β}
    {r : Option β} (h : a = some v) (h2 : f v = r) : a >>= f = r := by
  rw [h]; exact h2

/-! ## The request `fvco = 600`, `frequency = 40`, `phase = 243` -/

theorem round_243_period : to_double (1 / 40000000) = (944473296573929 / 37778931862957161709568) := by
  have h1 : (2 : ℚ) ^ (-26 : ℤ) ≤ |((1 / 40000000) : ℚ)| := by norm_num [abs_of_pos]
  have h2 : |((1 / 40000000) : ℚ)| < (2 : ℚ) ^ ((-26 : ℤ) + 1) := by norm_num [abs_of_pos]
  have h3 : |((1 / 40000000) : ℚ) / 2 ^ ((-26 : ℤ) - (((53 : ℕ) : ℤ) - 1)) - ((7555786372591432 : ℤ) : ℚ)| < 1 / 2 := by
    rw [abs_lt]; constructor <;> norm_num
  unfold to_double
  rw [round_to_eq_of_abs_lt 53 h1 h2 h3]
  norm_num

theorem checked_243_period :
    to_double_checked (1 / 40000000) = some (944473296573929 / 37778931862957161709568) :=
  to_double_checked_eq round_243_period (by norm_num [abs_of_pos]) (by norm_num [abs_of_pos, DBL_MAX])

theorem round_243_period_phase : to_double ((944473296573929 / 37778931862957161709568) * 243) = (7172094095858273 / 1180591620717411303424) := by
  have h1 : (2 : ℚ) ^ (-18 : ℤ) ≤ |(((944473296573929 / 37778931862957161709568) * 243) : ℚ)| := by norm_num [abs_of_pos]
  have h2 : |(((944473296573929 / 37778931862957161709568) * 243) : ℚ)| < (2 : ℚ) ^ ((-18 : ℤ) + 1) := by norm_num [abs_of_pos]
  have h3 : |(((944473296573929 / 37778931862957161709568) * 243) : ℚ) / 2 ^ ((-18 : ℤ) - (((53 : ℕ) : ℤ) - 1)) - ((7172094095858273 : ℤ) : ℚ)| < 1 / 2 := by
    rw [abs_lt]; constructor <;> norm_num
  unfold to_double
  rw [round_to_eq_of_abs_lt 53 h1 h2 h3]
  norm_num

theorem checked_243_period_phase :
    to_double_checked ((944473296573929 / 37778931862957161709568) * 243) = some (7172094095858273 / 1180591620717411303424) :=
  to_double_checked_eq round_243_period_phase (by norm_num [abs_of_pos]) (by norm_num [abs_of_pos, DBL_MAX])

theorem round_243_shift : to_double ((7172094095858273 / 1180591620717411303424) / 360) = (318759737593701 / 18889465931478580854784) := by
  have h1 : (2 : ℚ) ^ (-26 : ℤ) ≤ |(((7172094095858273 / 1180591620717411303424) / 360) : ℚ)| := by norm_num [abs_of_pos]
  have h2 : |(((7172094095858273 / 1180591620717411303424) / 360) : ℚ)| < (2 : ℚ) ^ ((-26 : ℤ) + 1) := by norm_num [abs_of_pos]
  have h3 : |(((7172094095858273 / 1180591620717411303424) / 360) : ℚ) / 2 ^ ((-26 : ℤ) - (((53 : ℕ) : ℤ) - 1)) - ((5100155801499216 : ℤ) : ℚ)| < 1 / 2 := by
    rw [abs_lt]; constructor <;> norm_num
  unfold to_double
  rw [round_to_eq_of_abs_lt 53 h1 h2 h3]
  norm_num

theorem checked_243_shift :
    to_double_checked ((7172094095858273 / 1180591620717411303424) / 360) = some (318759737593701 / 18889465931478580854784) :=
  to_double_checked_eq round_243_shift (by norm_num [abs_of_pos]) (by norm_num [abs_of_pos, DBL_MAX])

theorem round_243_ns_shift : to_float (318759737593701 / 18889465931478580854784) = (2374945 / 140737488355328) := by
  have h1 : (2 : ℚ) ^ (-26 : ℤ) ≤ |((318759737593701 / 18889465931478580854784) : ℚ)| := by norm_num [abs_of_pos]
  have h2 : |((318759737593701 / 18889465931478580854784) : ℚ)| < (2 : ℚ) ^ ((-26 : ℤ) + 1) := by norm_num [abs_of_pos]
  have h3 : |((318759737593701 / 18889465931478580854784) : ℚ) / 2 ^ ((-26 : ℤ) - (((24 : ℕ) : ℤ) - 1)) - ((9499780 : ℤ) : ℚ)| < 1 / 2 := by
    rw [abs_lt]; constructor <;> norm_num
  unfold to_float
  rw [round_to_eq_of_abs_lt 24 h1 h2 h3]
  norm_num

theorem checked_243_ns_shift :
    to_float_checked (318759737593701 / 18889465931478580854784) = some (2374945 / 140737488355328) :=
  to_float_checked_eq round_243_ns_shift (by norm_num [abs_of_pos]) (by norm_num [abs_of_pos, FLT_MAX])

theorem round_243_count : to_double ((2374945 / 140737488355328) * 600000000) = (2783138671875 / 274877906944) := by
  have h1 : (2 : ℚ) ^ (3 : ℤ) ≤ |(((2374945 / 140737488355328) * 600000000) : ℚ)| := by norm_num [abs_of_pos]
  have h2 : |(((2374945 / 140737488355328) * 600000000) : ℚ)| < (2 : ℚ) ^ ((3 : ℤ) + 1) := by norm_num [abs_of_pos]
  have h3 : |(((2374945 / 140737488355328) * 600000000) : ℚ) / 2 ^ ((3 : ℤ) - (((53 : ℕ) : ℤ) - 1)) - ((5699868000000000 : ℤ) : ℚ)| < 1 / 2 := by
    rw [abs_lt]; constructor <;> norm_num
  unfold to_double
  rw [round_to_eq_of_abs_lt 53 h1 h2 h3]
  norm_num

theorem checked_243_count :
    to_double_checked ((2374945 / 140737488355328) * 600000000) = some (2783138671875 / 274877906944) :=
  to_double_checked_eq round_243_count (by norm_num [abs_of_pos]) (by norm_num [abs_of_pos, DBL_MAX])

theorem round_243_phase_count : to_float (2783138671875 / 274877906944) = (10616831 / 1048576) := by
  have h1 : (2 : ℚ) ^ (3 : ℤ) ≤ |((2783138671875 / 274877906944) : ℚ)| := by norm_num [abs_of_pos]
  have h2 : |((2783138671875 / 274877906944) : ℚ)| < (2 : ℚ) ^ ((3 : ℤ) + 1) := by norm_num [abs_of_pos]
  have h3 : |((2783138671875 / 274877906944) : ℚ) / 2 ^ ((3 : ℤ) - (((24 : ℕ) : ℤ) - 1)) - ((10616831 : ℤ) : ℚ)| < 1 / 2 := by
    rw [abs_lt]; constructor <;> norm_num
  unfold to_float
  rw [round_to_eq_of_abs_lt 24 h1 h2 h3]
  norm_num

theorem checked_243_phase_count :
    to_float_checked (2783138671875 / 274877906944) = some (10616831 / 1048576) :=
  to_float_checked_eq round_243_phase_count (by norm_num [abs_of_pos]) (by norm_num [abs_of_pos, FLT_MAX])

theorem round_243_fraction : to_float ((10616831 / 1048576) - 10) = (131071 / 1048576) := by
  have h1 : (2 : ℚ) ^ (-4 : ℤ) ≤ |(((10616831 / 1048576) - 10) : ℚ)| := by norm_num [abs_of_pos]
  have h2 : |(((10616831 / 1048576) - 10) : ℚ)| < (2 : ℚ) ^ ((-4 : ℤ) + 1) := by norm_num [abs_of_pos]
  have h3 : |(((10616831 / 1048576) - 10) : ℚ) / 2 ^ ((-4 : ℤ) - (((24 : ℕ) : ℤ) - 1)) - ((16777088 : ℤ) : ℚ)| < 1 / 2 := by
    rw [abs_lt]; constructor <;> norm_num
  unfold to_float
  rw [round_to_eq_of_abs_lt 24 h1 h2 h3]
  norm_num

theorem checked_243_fraction :
    to_float_checked ((10616831 / 1048576) - 10) = some (131071 / 1048576) :=
  to_float_checked_eq round_243_fraction (by norm_num [abs_of_pos]) (by norm_num [abs_of_pos, FLT_MAX])

theorem round_243_eighths : to_float ((131071 / 1048576) * 8) = (131071 / 131072) := by
  have h1 : (2 : ℚ) ^ (-1 : ℤ) ≤ |(((131071 / 1048576) * 8) : ℚ)| := by norm_num [abs_of_pos]
  have h2 : |(((131071 / 1048576) * 8) : ℚ)| < (2 : ℚ) ^ ((-1 : ℤ) + 1) := by norm_num [abs_of_pos]
  have h3 : |(((131071 / 1048576) * 8) : ℚ) / 2 ^ ((-1 : ℤ) - (((24 : ℕ) : ℤ) - 1)) - ((16777088 : ℤ) : ℚ)| < 1 / 2 := by
    rw [abs_lt]; constructor <;> norm_num
  unfold to_float
  rw [round_to_eq_of_abs_lt 24 h1 h2 h3]
  norm_num

theorem checked_243_eighths :
    to_float_checked ((131071 / 1048576) * 8) = some (131071 / 131072) :=
  to_float_checked_eq round_243_eighths (by norm_num [abs_of_pos]) (by norm_num [abs_of_pos, FLT_MAX])

theorem round_243_vco_period : to_double (1 / 600000000) = (1007438183012191 / 604462909807314587353088) := by
  have h1 : (2 : ℚ) ^ (-30 : ℤ) ≤ |((1 / 600000000) : ℚ)| := by norm_num [abs_of_pos]
  have h2 : |((1 / 600000000) : ℚ)| < (2 : ℚ) ^ ((-30 : ℤ) + 1) := by norm_num [abs_of_pos]
  have h3 : |((1 / 600000000) : ℚ) / 2 ^ ((-30 : ℤ) - (((53 : ℕ) : ℤ) - 1)) - ((8059505464097528 : ℤ) : ℚ)| < 1 / 2 := by
    rw [abs_lt]; constructor <;> norm_num
  unfold to_double
  rw [round_to_eq_of_abs_lt 53 h1 h2 h3]
  norm_num

theorem checked_243_vco_period :
    to_double_checked (1 / 600000000) = some (1007438183012191 / 604462909807314587353088) :=
  to_double_checked_eq round_243_vco_period (by norm_num [abs_of_pos]) (by norm_num [abs_of_pos, DBL_MAX])

theorem round_243_actual : to_double ((1007438183012191 / 604462909807314587353088) * 10) = (5037190915060955 / 302231454903657293676544) := by
  have h1 : (2 : ℚ) ^ (-26 : ℤ) ≤ |(((1007438183012191 / 604462909807314587353088) * 10) : ℚ)| := by norm_num [abs_of_pos]
  have h2 : |(((1007438183012191 / 604462909807314587353088) * 10) : ℚ)| < (2 : ℚ) ^ ((-26 : ℤ) + 1) := by norm_num [abs_of_pos]
  have h3 : |(((1007438183012191 / 604462909807314587353088) * 10) : ℚ) / 2 ^ ((-26 : ℤ) - (((53 : ℕ) : ℤ) - 1)) - ((5037190915060955 : ℤ) : ℚ)| < 1 / 2 := by
    rw [abs_lt]; constructor <;> norm_num
  unfold to_double
  rw [round_to_eq_of_abs_lt 53 h1 h2 h3]
  norm_num

theorem checked_243_actual :
    to_double_checked ((1007438183012191 / 604462909807314587353088) * 10) = some (5037190915060955 / 302231454903657293676544) :=
  to_double_checked_eq round_243_actual (by norm_num [abs_of_pos]) (by norm_num [abs_of_pos, DBL_MAX])

theorem round_243_ns_actual : to_float (5037190915060955 / 302231454903657293676544) = (9382499 / 562949953421312) := by
  have h1 : (2 : ℚ) ^ (-26 : ℤ) ≤ |((5037190915060955 / 302231454903657293676544) : ℚ)| := by norm_num [abs_of_pos]
  have h2 : |((5037190915060955 / 302231454903657293676544) : ℚ)| < (2 : ℚ) ^ ((-26 : ℤ) + 1) := by norm_num [abs_of_pos]
  have h3 : |((5037190915060955 / 302231454903657293676544) : ℚ) / 2 ^ ((-26 : ℤ) - (((24 : ℕ) : ℤ) - 1)) - ((9382499 : ℤ) : ℚ)| < 1 / 2 := by
    rw [abs_lt]; constructor <;> norm_num
  unfold to_float
  rw [round_to_eq_of_abs_lt 24 h1 h2 h3]
  norm_num

theorem checked_243_ns_actual :
    to_float_checked (5037190915060955 / 302231454903657293676544) = some (9382499 / 562949953421312) :=
  to_float_checked_eq round_243_ns_actual (by norm_num [abs_of_pos]) (by norm_num [abs_of_pos, FLT_MAX])

theorem round_243_scaled : to_float (360 * (9382499 / 562949953421312)) = (13194139 / 2199023255552) := by
  have h1 : (2 : ℚ) ^ (-18 : ℤ) ≤ |((360 * (9382499 / 562949953421312)) : ℚ)| := by norm_num [abs_of_pos]
  have h2 : |((360 * (9382499 / 562949953421312)) : ℚ)| < (2 : ℚ) ^ ((-18 : ℤ) + 1) := by norm_num [abs_of_pos]
  have h3 : |((360 * (9382499 / 562949953421312)) : ℚ) / 2 ^ ((-18 : ℤ) - (((24 : ℕ) : ℤ) - 1)) - ((13194139 : ℤ) : ℚ)| < 1 / 2 := by
    rw [abs_lt]; constructor <;> norm_num
  unfold to_float
  rw [round_to_eq_of_abs_lt 24 h1 h2 h3]
  norm_num

theorem checked_243_scaled :
    to_float_checked (360 * (9382499 / 562949953421312)) = some (13194139 / 2199023255552) :=
  to_float_checked_eq round_243_scaled (by norm_num [abs_of_pos]) (by norm_num [abs_of_pos, FLT_MAX])

theorem round_243_ratio : to_double ((13194139 / 2199023255552) / (944473296573929 / 37778931862957161709568)) = (1030792109375 / 4294967296) := by
  have h1 : (2 : ℚ) ^ (7 : ℤ) ≤ |(((13194139 / 2199023255552) / (944473296573929 / 37778931862957161709568)) : ℚ)| := by norm_num [abs_of_pos]
  have h2 : |(((13194139 / 2199023255552) / (944473296573929 / 37778931862957161709568)) : ℚ)| < (2 : ℚ) ^ ((7 : ℤ) + 1) := by norm_num [abs_of_pos]
  have h3 : |(((13194139 / 2199023255552) / (944473296573929 / 37778931862957161709568)) : ℚ) / 2 ^ ((7 : ℤ) - (((53 : ℕ) : ℤ) - 1)) - ((8444248960000000 : ℤ) : ℚ)| < 1 / 2 := by
    rw [abs_lt]; constructor <;> norm_num
  unfold to_double
  rw [round_to_eq_of_abs_lt 53 h1 h2 h3]
  norm_num

theorem checked_243_ratio :
    to_double_checked ((13194139 / 2199023255552) / (944473296573929 / 37778931862957161709568)) = some (1030792109375 / 4294967296) :=
  to_double_checked_eq round_243_ratio (by norm_num [abs_of_pos]) (by norm_num [abs_of_pos, DBL_MAX])

theorem round_243_phase_shift : to_float (1030792109375 / 4294967296) = (15728639 / 65536) := by
  have h1 : (2 : ℚ) ^ (7 : ℤ) ≤ |((1030792109375 / 4294967296) : ℚ)| := by norm_num [abs_of_pos]
  have h2 : |((1030792109375 / 4294967296) : ℚ)| < (2 : ℚ) ^ ((7 : ℤ) + 1) := by norm_num [abs_of_pos]
  have h3 : |((1030792109375 / 4294967296) : ℚ) / 2 ^ ((7 : ℤ) - (((24 : ℕ) : ℤ) - 1)) - ((15728639 : ℤ) : ℚ)| < 1 / 2 := by
    rw [abs_lt]; constructor <;> norm_num
  unfold to_float
  rw [round_to_eq_of_abs_lt 24 h1 h2 h3]
  norm_num

theorem checked_243_phase_shift :
    to_float_checked (1030792109375 / 4294967296) = some (15728639 / 65536) :=
  to_float_checked_eq round_243_phase_shift (by norm_num [abs_of_pos]) (by norm_num [abs_of_pos, FLT_MAX])

theorem div_checked_600_40 : div_checked (600 : ℚ) 40 = some 15 := by
  rw [div_checked_of_ne (by norm_num)]; norm_num

theorem to_float_checked_15 : to_float_checked (15 : ℚ) = some 15 := by
  simpa using to_float_checked_nat 15 (by norm_num) (by norm_num)

theorem float_to_int32_15 : float_to_int32 (15 : ℚ) = some 15 :=
  float_to_int32_of_floor 15 (by norm_num) (by norm_num) (by norm_num) (by norm_num)

theorem div_checked_600_15 : div_checked (600 : ℚ) 15 = some 40 := by
  rw [div_checked_of_ne (by norm_num)]; norm_num

theorem to_float_checked_40 : to_float_checked (40 : ℚ) = some 40 := by
  simpa using to_float_checked_nat 40 (by norm_num) (by norm_num)

theorem to_double_checked_40_hz : to_double_checked ((40 : ℚ) * 1000000) = some 40000000 := by
  have h := to_double_checked_nat 40000000 (by norm_num) (by norm_num)
  rw [show ((40 : ℚ) * 1000000) = ((40000000 : ℕ) : ℚ) by norm_num, h]; norm_num

theorem to_double_checked_600_hz : to_double_checked ((600 : ℚ) * 1000000) = some 600000000 := by
  have h := to_double_checked_nat 600000000 (by norm_num) (by norm_num)
  rw [show ((600 : ℚ) * 1000000) = ((600000000 : ℕ) : ℚ) by norm_num, h]; norm_num

theorem float_to_int32_243_phase_count : float_to_int32 ((10616831 / 1048576) : ℚ) = some 10 :=
  float_to_int32_of_floor 10 (by norm_num) (by norm_num) (by norm_num) (by norm_num)

theorem to_float_checked_10 : to_float_checked (10 : ℚ) = some 10 := by
  simpa using to_float_checked_nat 10 (by norm_num) (by norm_num)

theorem float_to_int32_243_eighths : float_to_int32 ((131071 / 131072) : ℚ) = some 0 :=
  float_to_int32_of_floor 0 (by norm_num) (by norm_num) (by norm_num) (by norm_num)

theorem to_double_checked_zero_div : to_double_checked ((0 : ℚ) / 8) = some 0 := by
  rw [zero_div]; exact to_double_checked_zero

theorem to_double_checked_10_add : to_double_checked ((10 : ℚ) + 0) = some 10 := by
  rw [add_zero]
  simpa using to_double_checked_nat 10 (by norm_num) (by norm_num)

theorem int32_checked_19 : int32_checked (10 + 9) = some 19 := by
  unfold int32_checked; rw [if_pos (by norm_num)]; norm_num

/-- The record written for the request `fvco = 600`, `frequency = 40`,
`phase = 243`: every intermediate value is a normal number, the divider is 15,
the phase count is `10616831 / 1048576` (10.124999), so the coarse count is 10
and the fine count is 0. -/
theorem generate_secondary_output_600_40_243 :
    generate_secondary_output pll_params_vco600 0 "clkout1" 40 243 =
      some { pll_params_vco600 with
        secondary := Function.update pll_params_vco600.secondary 0
          { enabled := true, div := 15, freq := 40, phase := 15728639 / 65536,
            cphase := 19, fphase := 0, name := "clkout1" } } := by
  have hfv : pll_params_vco600.fvco = 600 := rfl
  have hpc : pll_params_vco600.primary_cphase = 9 := rfl
  unfold generate_secondary_output
  refine bind_eq_of_some (v := 15) ?_ ?_
  · rw [hfv]
    exact bind_eq_of_some (bind_eq_of_some div_checked_600_40 to_float_checked_15)
      float_to_int32_15
  refine bind_eq_of_some (v := 40) ?_ ?_
  · rw [hfv, Int.cast_ofNat]
    exact bind_eq_of_some (bind_eq_of_some to_float_checked_15 div_checked_600_15)
      to_float_checked_40
  refine bind_eq_of_some (v := ((944473296573929 / 37778931862957161709568) : ℚ)) ?_ ?_
  · exact bind_eq_of_some (bind_eq_of_some to_double_checked_40_hz
      (div_checked_of_ne (by norm_num))) checked_243_period
  refine bind_eq_of_some (v := ((2374945 / 140737488355328) : ℚ)) ?_ ?_
  · exact bind_eq_of_some (bind_eq_of_some checked_243_period_phase checked_243_shift)
      checked_243_ns_shift
  refine bind_eq_of_some (v := 600000000) ?_ ?_
  · rw [hfv]; exact to_double_checked_600_hz
  refine bind_eq_of_some (v := ((10616831 / 1048576) : ℚ)) ?_ ?_
  · exact bind_eq_of_some checked_243_count checked_243_phase_count
  refine bind_eq_of_some (v := 10) float_to_int32_243_phase_count ?_
  refine bind_eq_of_some (v := 0) ?_ ?_
  · rw [Int.cast_ofNat]
    exact bind_eq_of_some (bind_eq_of_some (bind_eq_of_some to_float_checked_10
      checked_243_fraction) checked_243_eighths) float_to_int32_243_eighths
  refine bind_eq_of_some (v := ((1007438183012191 / 604462909807314587353088) : ℚ)) ?_ ?_
  · exact bind_eq_of_some (div_checked_of_ne (by norm_num)) checked_243_vco_period
  refine bind_eq_of_some (v := 10) ?_ ?_
  · rw [Int.cast_zero, Int.cast_ofNat]
    exact bind_eq_of_some to_double_checked_zero_div to_double_checked_10_add
  refine bind_eq_of_some (v := ((9382499 / 562949953421312) : ℚ)) ?_ ?_
  · exact bind_eq_of_some checked_243_actual checked_243_ns_actual
  refine bind_eq_of_some (v := ((15728639 / 65536) : ℚ)) ?_ ?_
  · exact bind_eq_of_some (bind_eq_of_some (bind_eq_of_some checked_243_scaled
      (div_checked_of_ne (by norm_num))) checked_243_ratio) checked_243_phase_shift
  refine bind_eq_of_some (v := 19) ?_ ?_
  · rw [hpc]; exact int32_checked_19
  rfl

/-- C5 fails on the code. With `fvco = 600`, a requested frequency of 40 and a
requested phase of 243 degrees the function returns normally with `div = 15`,
`freq = 40`, coarse count 10 (stored with `primary_cphase = 9` added), fine
count 0 and the stored phase `15728639 / 65536` (239.99998): the distance to the
requested phase, 3.0000153, is more than one fine-phase step `360 / (8 * 15) = 3`,
and the stored phase is not `360 * (cphase + fphase / 8) / div = 240` either.
The phase count of the request is 10.125 exactly, that is the pair (10, 1) and
the phase 243; the narrowing of `ns_shift` to `float` brings the computed count to
10.124999, and the conversion to `int` drops the eighth. -/
theorem generate_secondary_output_phase_round_trip_fails :
    ∃ p : pll_params,
      generate_secondary_output pll_params_vco600 0 "clkout1" 40 243 = some p ∧
      (p.secondary 0).div = 15 ∧ (p.secondary 0).freq = 40 ∧
      (p.secondary 0).cphase = 10 + pll_params_vco600.primary_cphase ∧
      (p.secondary 0).fphase = 0 ∧
      (p.secondary 0).phase = 15728639 / 65536 ∧
      360 / (8 * ((p.secondary 0).div : ℚ)) < |(p.secondary 0).phase - 243| ∧
      (p.secondary 0).phase ≠ 360 * (((10 : ℤ) : ℚ) + ((p.secondary 0).fphase : ℚ) / 8) /
        ((p.secondary 0).div : ℚ) ∧
      ¬ phase_round_trip pll_params_vco600 40 243 (p.secondary 0) := by
  refine ⟨_, generate_secondary_output_600_40_243, ?_⟩
  refine ⟨rfl, rfl, rfl, rfl, rfl, ?_, ?_, ?_⟩
  · simp only [Function.update_same]
    rw [abs_of_neg (by norm_num)]; norm_num
  · simp only [Function.update_same]
    norm_num
  · intro h
    have h4 := h.2.2.2
    simp only [Function.update_same] at h4
    rw [abs_of_neg (by norm_num)] at h4
    norm_num at h4

/-! ## The request `fvco = 600`, `frequency = 85.714287`, `phase = 0` -/

theorem round_857_quotient : to_float (600 / (11234743 / 131072)) = 7 := by
  have h1 : (2 : ℚ) ^ (2 : ℤ) ≤ |((600 / (11234743 / 131072)) : ℚ)| := by norm_num [abs_of_pos]
  have h2 : |((600 / (11234743 / 131072)) : ℚ)| < (2 : ℚ) ^ ((2 : ℤ) + 1) := by norm_num [abs_of_pos]
  have h3 : |((600 / (11234743 / 131072)) : ℚ) / 2 ^ ((2 : ℤ) - (((24 : ℕ) : ℤ) - 1)) - ((14680064 : ℤ) : ℚ)| < 1 / 2 := by
    rw [abs_lt]; constructor <;> norm_num
  unfold to_float
  rw [round_to_eq_of_abs_lt 24 h1 h2 h3]
  norm_num

theorem checked_857_quotient :
    to_float_checked (600 / (11234743 / 131072)) = some 7 :=
  to_float_checked_eq round_857_quotient (by norm_num [abs_of_pos]) (by norm_num [abs_of_pos, FLT_MAX])

theorem round_857_freq : to_float (600 / 7) = (11234743 / 131072) := by
  have h1 : (2 : ℚ) ^ (6 : ℤ) ≤ |((600 / 7) : ℚ)| := by norm_num [abs_of_pos]
  have h2 : |((600 / 7) : ℚ)| < (2 : ℚ) ^ ((6 : ℤ) + 1) := by norm_num [abs_of_pos]
  have h3 : |((600 / 7) : ℚ) / 2 ^ ((6 : ℤ) - (((24 : ℕ) : ℤ) - 1)) - ((11234743 : ℤ) : ℚ)| < 1 / 2 := by
    rw [abs_lt]; constructor <;> norm_num
  unfold to_float
  rw [round_to_eq_of_abs_lt 24 h1 h2 h3]
  norm_num

theorem checked_857_freq :
    to_float_checked (600 / 7) = some (11234743 / 131072) :=
  to_float_checked_eq round_857_freq (by norm_num [abs_of_pos]) (by norm_num [abs_of_pos, FLT_MAX])

theorem round_857_hz : to_double ((11234743 / 131072) * 1000000) = (175542859375 / 2048) := by
  have h1 : (2 : ℚ) ^ (26 : ℤ) ≤ |(((11234743 / 131072) * 1000000) : ℚ)| := by norm_num [abs_of_pos]
  have h2 : |(((11234743 / 131072) * 1000000) : ℚ)| < (2 : ℚ) ^ ((26 : ℤ) + 1) := by norm_num [abs_of_pos]
  have h3 : |(((11234743 / 131072) * 1000000) : ℚ) / 2 ^ ((26 : ℤ) - (((53 : ℕ) : ℤ) - 1)) - ((5752188416000000 : ℤ) : ℚ)| < 1 / 2 := by
    rw [abs_lt]; constructor <;> norm_num
  unfold to_double
  rw [round_to_eq_of_abs_lt 53 h1 h2 h3]
  norm_num

theorem checked_857_hz :
    to_double_checked ((11234743 / 131072) * 1000000) = some (175542859375 / 2048) :=
  to_double_checked_eq round_857_hz (by norm_num [abs_of_pos]) (by norm_num [abs_of_pos, DBL_MAX])

theorem round_857_period : to_double (1 / (175542859375 / 2048)) = (7052067191413665 / 604462909807314587353088) := by
  have h1 : (2 : ℚ) ^ (-27 : ℤ) ≤ |((1 / (175542859375 / 2048)) : ℚ)| := by norm_num [abs_of_pos]
  have h2 : |((1 / (175542859375 / 2048)) : ℚ)| < (2 : ℚ) ^ ((-27 : ℤ) + 1) := by norm_num [abs_of_pos]
  have h3 : |((1 / (175542859375 / 2048)) : ℚ) / 2 ^ ((-27 : ℤ) - (((53 : ℕ) : ℤ) - 1)) - ((7052067191413665 : ℤ) : ℚ)| < 1 / 2 := by
    rw [abs_lt]; constructor <;> norm_num
  unfold to_double
  rw [round_to_eq_of_abs_lt 53 h1 h2 h3]
  norm_num

theorem checked_857_period :
    to_double_checked (1 / (175542859375 / 2048)) = some (7052067191413665 / 604462909807314587353088) :=
  to_double_checked_eq round_857_period (by norm_num [abs_of_pos]) (by norm_num [abs_of_pos, DBL_MAX])

theorem to_float_checked_zero : to_float_checked 0 = some 0 := by
  simp [to_float_checked]

theorem float_to_int32_7 : float_to_int32 (7 : ℚ) = some 7 :=
  float_to_int32_of_floor 7 (by norm_num) (by norm_num) (by norm_num) (by norm_num)

theorem float_to_int32_zero : float_to_int32 (0 : ℚ) = some 0 :=
  float_to_int32_of_floor 0 (by norm_num) (by norm_num) (by norm_num) (by norm_num)

theorem to_float_checked_7 : to_float_checked (7 : ℚ) = some 7 := by
  simpa using to_float_checked_nat 7 (by norm_num) (by norm_num)

theorem int32_checked_9 : int32_checked (0 + 9) = some 9 := by
  unfold int32_checked; rw [if_pos (by norm_num)]; norm_num

/-- The divider is the truncated binary32 quotient, which is not always
`floor(fvco / frequency)`: with `fvco = 600` and the binary32 number nearest to
85.714286 as the requested frequency the exact quotient is 6.99999997, the
`float` quotient is 7, and the function stores `div = 7`. -/
theorem generate_secondary_output_div_above_floor :
    ∃ p : pll_params,
      generate_secondary_output pll_params_vco600 0 "clkout1" (11234743 / 131072) 0 = some p ∧
      (p.secondary 0).div = 7 ∧ ⌊pll_params_vco600.fvco / ((11234743 / 131072) : ℚ)⌋ = 6 := by
  have hfv : pll_params_vco600.fvco = 600 := rfl
  have hpc : pll_params_vco600.primary_cphase = 9 := rfl
  refine ⟨{ pll_params_vco600 with
    secondary := Function.update pll_params_vco600.secondary 0
      { enabled := true, div := 7, freq := 11234743 / 131072, phase := 0,
        cphase := 9, fphase := 0, name := "clkout1" } }, ?_, rfl, ?_⟩
  · unfold generate_secondary_output
    refine bind_eq_of_some (v := 7) ?_ ?_
    · rw [hfv]
      exact bind_eq_of_some (bind_eq_of_some (div_checked_of_ne (by norm_num))
        checked_857_quotient) float_to_int32_7
    refine bind_eq_of_some (v := ((11234743 / 131072) : ℚ)) ?_ ?_
    · rw [hfv, Int.cast_ofNat]
      exact bind_eq_of_some (bind_eq_of_some to_float_checked_7
        (div_checked_of_ne (by norm_num))) checked_857_freq
    refine bind_eq_of_some (v := ((7052067191413665 / 604462909807314587353088) : ℚ)) ?_ ?_
    · exact bind_eq_of_some (bind_eq_of_some checked_857_hz
        (div_checked_of_ne (by norm_num))) checked_857_period
    refine bind_eq_of_some (v := 0) ?_ ?_
    · rw [mul_zero]
      refine bind_eq_of_some (bind_eq_of_some to_double_checked_zero ?_) to_float_checked_zero
      rw [zero_div]; exact to_double_checked_zero
    refine bind_eq_of_some (v := 600000000) ?_ ?_
    · rw [hfv]; exact to_double_checked_600_hz
    refine bind_eq_of_some (v := 0) ?_ ?_
    · rw [zero_mul]
      exact bind_eq_of_some to_double_checked_zero to_float_checked_zero
    refine bind_eq_of_some (v := 0) float_to_int32_zero ?_
    refine bind_eq_of_some (v := 0) ?_ ?_
    · rw [Int.cast_zero]
      have h1 : (to_float_checked (0 : ℚ) >>= fun c => to_float_checked (0 - c)) = some 0 := by
        refine bind_eq_of_some to_float_checked_zero ?_
        rw [sub_zero]; exact to_float_checked_zero
      refine bind_eq_of_some (v := 0) (bind_eq_of_some h1 ?_) float_to_int32_zero
      rw [zero_mul]; exact to_float_checked_zero
    refine bind_eq_of_some (v := ((1007438183012191 / 604462909807314587353088) : ℚ)) ?_ ?_
    · exact bind_eq_of_some (div_checked_of_ne (by norm_num)) checked_243_vco_period
    refine bind_eq_of_some (v := 0) ?_ ?_
    · rw [Int.cast_zero]
      refine bind_eq_of_some to_double_checked_zero_div ?_
      rw [add_zero]; exact to_double_checked_zero
    refine bind_eq_of_some (v := 0) ?_ ?_
    · rw [mul_zero]
      exact bind_eq_of_some to_double_checked_zero to_float_checked_zero
    refine bind_eq_of_some (v := 0) ?_ ?_
    · rw [mul_zero]
      refine bind_eq_of_some (bind_eq_of_some (bind_eq_of_some to_float_checked_zero
        (div_checked_of_ne (by norm_num))) ?_) to_float_checked_zero
      rw [zero_div]; exact to_double_checked_zero
    refine bind_eq_of_some (v := 9) ?_ ?_
    · rw [hpc]; exact int32_checked_9
    rfl
  · rw [hfv, Int.floor_eq_iff]; norm_num

end Binary32

end Ecppll
